import Mathlib

/-!
Verification of the depertec loss-estimation engine (cable.py,
graphanalysis.py, graph_losses_calculation.py) against its natural-language
specification.

The development is a shallow embedding of the Python sources:

* pure computations become Lean functions over `ℚ` (or `ℝ` where the claim is
  about real-valued analysis of the conductor model);
* the pandas DataFrames become lists of records carrying exactly the columns
  the embedded fragment reads;
* a networkx `MultiGraph` becomes an association list of node attributes plus
  a list of (undirected) edges; parallel edges are repeated entries.  The
  source keeps integer keys that are always dense `0..n` (every creation site
  adds the lowest free key and every removal site removes all keys of a pair),
  so an unkeyed multiset of parallel edges is observationally equivalent;
* `math.sqrt`/`np.sqrt` and `np.pi` are irrational, so the executable `ℚ`
  model abstracts them as explicit parameters (`sqrtF`, `piQ`); nothing in the
  claims settled over `ℚ` depends on their values.  The conductor model for
  the resistance-monotonicity claim is embedded over `ℝ` with `Real.sqrt` and
  `Real.pi` directly;
* the library calls `nx.shortest_path`, `nx.find_cycle` are third-party
  collaborators; they are abstracted as oracle parameters together with the
  specification that networkx documents for them (a returned object is a real
  path / cycle of the graph).  Everything defined inline in the repository
  (in particular the exhaustive cycle enumeration `find_all_cycles`) is
  embedded and verified directly.
-/

set_option maxHeartbeats 1000000

/-! ## Section 1: cable.py (the Conductor model) -/

/-- One catalog record of `cable_library.xml` as read by
`Conductor.fload_library` (tags `Rdc`, `T0`, `Di`, `Do`, `S`). -/
structure CatalogEntry where
  name : String
  Rdc : ℚ
  T0 : ℚ
  Di : ℚ
  Do : ℚ
  S : ℚ
deriving Repr, DecidableEq

/-- State of a `cable.Conductor` object (cable.py, `__init__` defaults). -/
structure Conductor where
  Rdc : ℝ := 0.2
  Do : ℝ := 10
  Di : ℝ := 1
  f : ℝ := 50
  I : ℝ := 0
  S : ℝ := 10
  alpha : ℝ := 0.004
  T0 : ℝ := 20
  T1 : ℝ := 20

/-- Embedding of `Conductor.fload_library` (cable.py lines 134-156).  The
Python method scans the catalog and, on a name match, overwrites the fields
`Rdc`, `T0`, `Di`, `Do`, `S`; the XML file is abstracted as the list `lib`.
The method body contains **no return statement**, so its Python value is
`None`; the second component is that return value (`none`). -/
def Conductor.fload_library (c : Conductor) (lib : List CatalogEntry)
    (nm : String) : Conductor × Option Int :=
  (lib.foldl
    (fun acc e =>
      if e.name = nm then
        { acc with Rdc := (e.Rdc : ℝ), T0 := (e.T0 : ℝ), Di := (e.Di : ℝ),
                   Do := (e.Do : ℝ), S := (e.S : ℝ) }
      else acc) c,
   none)

/-- Skin-effect correction cubic `K1` of `fcompute_r` (cable.py line 126). -/
def cableK1 (x : ℝ) : ℝ :=
  0.99609 + 0.018578 * x - 0.030263 * x * x + 0.020735 * x * x * x

/-- Iron-loss correction cubic `K2` of `fcompute_r` (cable.py line 128). -/
def cableK2 (x : ℝ) : ℝ :=
  0.99947 + 0.028895 * x - 0.005934 * x * x + 0.00042259 * x * x * x

/-- Skin-effect parameter `X1` of `fcompute_r` (cable.py line 122). -/
noncomputable def cableX1 (c : Conductor) : ℝ :=
  ((c.Do + 2 * c.Di) / (c.Do + c.Di)) * 0.01 *
    Real.sqrt ((8 * Real.pi * c.f * (c.Do - c.Di)) / (c.Rdc * (c.Do + c.Di)))

/-- Embedding of `Conductor.fcompute_r` (cable.py lines 121-132): the returned
AC resistance `Rac1` at temperature `T1`. -/
noncomputable def Conductor.fcompute_r (c : Conductor) : ℝ :=
  let X1 := cableX1 c
  let X2 := c.I / c.S
  let K1 := cableK1 X1
  let K2 := cableK2 X2
  let Rac0 := K1 * K2 * c.Rdc
  Rac0 * (1 + c.alpha * (c.T1 - c.T0))

lemma cableK2_mono {a b : ℝ} (ha : 0 ≤ a) (hab : a ≤ b) :
    cableK2 a ≤ cableK2 b := by
  have hd : (0 : ℝ) ≤ b - a := sub_nonneg.mpr hab
  unfold cableK2
  nlinarith [mul_nonneg hd (sq_nonneg (126777 * (a + b) - 1186800)),
    mul_nonneg hd (sq_nonneg (a - b)), hd]

lemma cableK1_nonneg {x : ℝ} (hx : 0 ≤ x) : 0 ≤ cableK1 x := by
  unfold cableK1
  nlinarith [mul_nonneg hx (sq_nonneg (41470 * x - 30263)), hx]

lemma cableX1_nonneg (c : Conductor)
    (hpre : 0 ≤ (c.Do + 2 * c.Di) / (c.Do + c.Di)) : 0 ≤ cableX1 c := by
  unfold cableX1
  have h1 : 0 ≤ Real.sqrt ((8 * Real.pi * c.f * (c.Do - c.Di)) /
      (c.Rdc * (c.Do + c.Di))) := Real.sqrt_nonneg _
  positivity

/-- C9: for a fixed cable entry (fixed geometry, cross-section and
temperatures), `fcompute_r` is monotone non-decreasing in the operating
current.  The skin-effect coefficient `K1` does not depend on the current and
the iron-loss cubic `K2` is increasing in `X2 = I / S ≥ 0`. -/
theorem C9_resistance_monotone_in_current (c : Conductor) (I1 I2 : ℝ)
    (hRdc : 0 ≤ c.Rdc) (hS : 0 < c.S)
    (hpre : 0 ≤ (c.Do + 2 * c.Di) / (c.Do + c.Di))
    (htemp : 0 ≤ 1 + c.alpha * (c.T1 - c.T0))
    (h0 : 0 ≤ I1) (h12 : I1 ≤ I2) :
    Conductor.fcompute_r { c with I := I1 } ≤
      Conductor.fcompute_r { c with I := I2 } := by
  unfold Conductor.fcompute_r
  simp only
  have hx1 : cableX1 { c with I := I1 } = cableX1 { c with I := I2 } := rfl
  have hK1 : 0 ≤ cableK1 (cableX1 { c with I := I1 }) :=
    cableK1_nonneg (cableX1_nonneg _ hpre)
  have hdiv : I1 / c.S ≤ I2 / c.S := by
    exact div_le_div_of_nonneg_right h12 hS.le
  have hdiv0 : 0 ≤ I1 / c.S := div_nonneg h0 (le_of_lt hS)
  have hK2 : cableK2 (I1 / c.S) ≤ cableK2 (I2 / c.S) := cableK2_mono hdiv0 hdiv
  rw [hx1]
  have hm : 0 ≤ cableK1 (cableX1 { c with I := I2 }) * c.Rdc *
      (1 + c.alpha * (c.T1 - c.T0)) := by
    have := cableK1_nonneg (cableX1_nonneg { c with I := I2 } hpre)
    positivity
  calc cableK1 (cableX1 { c with I := I2 }) * cableK2 (I1 / c.S) * c.Rdc *
        (1 + c.alpha * (c.T1 - c.T0))
      = cableK2 (I1 / c.S) * (cableK1 (cableX1 { c with I := I2 }) * c.Rdc *
        (1 + c.alpha * (c.T1 - c.T0))) := by ring
    _ ≤ cableK2 (I2 / c.S) * (cableK1 (cableX1 { c with I := I2 }) * c.Rdc *
        (1 + c.alpha * (c.T1 - c.T0))) := by
        exact mul_le_mul_of_nonneg_right hK2 hm
    _ = cableK1 (cableX1 { c with I := I2 }) * cableK2 (I2 / c.S) * c.Rdc *
        (1 + c.alpha * (c.T1 - c.T0)) := by ring

/-- Witness for C9 at the library's default conductor and currents 0 and 1. -/
theorem C9_resistance_monotone_in_current_witness :
    (0 : ℝ) ≤ (0.2 : ℝ) ∧
    Conductor.fcompute_r { Conductor.mk 0.2 10 1 50 0 10 0.004 20 20 with I := 0 } ≤
      Conductor.fcompute_r { Conductor.mk 0.2 10 1 50 0 10 0.004 20 20 with I := 1 } := by
  refine ⟨by norm_num, ?_⟩
  exact C9_resistance_monotone_in_current (Conductor.mk 0.2 10 1 50 0 10 0.004 20 20)
    0 1 (by norm_num) (by norm_num) (by norm_num) (by norm_num) (by norm_num)
    (by norm_num)

/-! ## Section 2: the cable-type fallback cascade
(graphanalysis.py, `create_graph_dataframes` lines 580-643) -/

/-- Python equality test of a function result against a number: in
`Found_cable == 0` the left side is the value returned by `fload_library`.
Comparing Python `None` with an `int` yields `False`. -/
def pyEqNum (r : Option Int) (n : Int) : Bool :=
  match r with
  | some m => m == n
  | none => false

/-- The recurring error-escalation pattern
`if graph_data_error <= k: graph_data_error = k`. -/
def bumpErr (e k : ℕ) : ℕ := if e ≤ k then k else e

/-- Value of `Cable.fload_library(nm)` as used by the callers: the catalog
side effects are discarded, only the (absent) return value is kept. -/
def fload_ret (catalog : List CatalogEntry) (nm : String) : Option Int :=
  (Conductor.fload_library {} catalog nm).2

/-- One row of the spans table (`df_traza_ct`).  The embedded fragments start
from the state of the frame at graphanalysis.py line 538: identifiers already
normalized and coordinates already repaired from the node table; `idsParse`
records whether `int(NODO_ORIGEN) > 0 and int(NODO_DESTINO) > 0` parsed (rows
failing it are deleted with a level-2 escalation). -/
structure TrazaRow where
  ct : Int := 0
  ctNombre : String := ""
  trafo : String := ""
  lbtId : String := ""
  nodoOrigen : String := ""
  nodoDestino : String := ""
  idsParse : Bool := true
  xOrigen : ℚ := 0
  yOrigen : ℚ := 0
  xDestino : ℚ := 0
  yDestino : ℚ := 0
  tipoUbicacion : String := ""
  cable : String := ""
  cableOrig : String := ""
  longitud : ℚ := 0
deriving Repr, DecidableEq

/-- `drop_duplicates(subset=..., keep='first')` over a span frame. -/
def dedupByKey {α : Type} [DecidableEq α] (key : TrazaRow → α) :
    List TrazaRow → List TrazaRow :=
  List.foldl (fun acc r => if acc.any (fun s => key s = key r) then acc
                           else acc ++ [r]) []

/-- Embedding of the cable-type resolution for one span row
(graphanalysis.py lines 580-643).  Returns the row's final `CABLE` value and
the updated `graph_data_error`.  `rows` is the whole filtered span frame (the
fallback searches scan it); the searches test `Found_cable_2 == 1` on the
value returned by `fload_library`, which is always `None`. -/
def resuelve_cable_row (catalog : List CatalogEntry) (rows : List TrazaRow)
    (row : TrazaRow) (err : ℕ) : String × ℕ :=
  let Found_cable := fload_ret catalog row.cableOrig
  if pyEqNum Found_cable 0 || row.cableOrig.length ≤ 3 then
    let prov := dedupByKey (fun r => (r.cableOrig, r.tipoUbicacion))
      (rows.filter (fun r => r.tipoUbicacion = row.tipoUbicacion))
    if 0 < prov.length then
      match prov.find? (fun fila => pyEqNum (fload_ret catalog fila.cableOrig) 1) with
      | some fila => (fila.cableOrig, bumpErr err 1)
      | none =>
        -- after the for loop `Found_cable_2` holds the last returned value
        let Found_cable_2 := fload_ret catalog
          ((prov.getLast?.getD row).cableOrig)
        if pyEqNum Found_cable_2 0 then
          let prov2 := dedupByKey (fun r => r.cableOrig) rows
          if 0 < prov2.length then
            match prov2.find? (fun fila =>
                pyEqNum (fload_ret catalog fila.cableOrig) 1 &&
                3 ≤ fila.cableOrig.length) with
            | some fila => (fila.cableOrig, bumpErr err 2)
            | none => (row.cable, err)
          else (row.cable, err)
        else (row.cable, err)
    else
      let prov2 := dedupByKey (fun r => r.cableOrig) rows
      if 0 < prov2.length then
        match prov2.find? (fun fila =>
            pyEqNum (fload_ret catalog fila.cableOrig) 1 &&
            3 ≤ fila.cableOrig.length) with
        | some fila => (fila.cableOrig, bumpErr err 2)
        | none => (row.cable, err)
      else (row.cable, bumpErr err 2)
  else (row.cable, err)

lemma fload_ret_none (catalog : List CatalogEntry) (nm : String) :
    fload_ret catalog nm = none := rfl

lemma pyEqNum_fload (catalog : List CatalogEntry) (nm : String) (n : Int) :
    pyEqNum (fload_ret catalog nm) n = false := rfl

lemma dedupByKey_length_pos {α : Type} [DecidableEq α] (key : TrazaRow → α)
    (l : List TrazaRow) (h : l ≠ []) : 0 < (dedupByKey key l).length := by
  cases l with
  | nil => exact absurd rfl h
  | cons a as =>
    unfold dedupByKey
    rw [List.foldl_cons]
    simp only [List.any_nil, Bool.false_eq_true, if_false, List.nil_append]
    have haux : ∀ (l2 : List TrazaRow) (acc : List TrazaRow), 0 < acc.length →
        0 < (List.foldl (fun acc r =>
          if acc.any (fun s => key s = key r) then acc else acc ++ [r])
          acc l2).length := by
      intro l2
      induction l2 with
      | nil => intro acc hacc; simpa using hacc
      | cons b bs ih =>
        intro acc hacc
        rw [List.foldl_cons]
        by_cases hb : acc.any (fun s => key s = key b)
        · simp only [hb, if_true]
          exact ih acc hacc
        · simp only [hb, if_false]
          refine ih (acc ++ [b]) ?_
          simp only [List.length_append, List.length_cons, List.length_nil]
          omega
    exact haux as [a] (by simp)

lemma find?_false_none (l : List TrazaRow) :
    l.find? (fun _ => false) = none := by
  induction l with
  | nil => rfl
  | cons a as ih => simpa [List.find?] using ih

/-- The fallback cascade never changes anything: `fload_library` returns
`None`, so `Found_cable == 0` and `Found_cable_2 == 1` are both `False`, and
the only reachable escalation is the empty-frame default (never hit when the
row itself belongs to the frame). -/
lemma resuelve_cable_row_noop (catalog : List CatalogEntry)
    (rows : List TrazaRow) (row : TrazaRow) (err : ℕ) (hmem : row ∈ rows) :
    resuelve_cable_row catalog rows row err = (row.cable, err) := by
  have hrows : rows ≠ [] := List.ne_nil_of_mem hmem
  have h2 : 0 < (dedupByKey (fun r => r.cableOrig) rows).length :=
    dedupByKey_length_pos _ rows hrows
  unfold resuelve_cable_row
  simp only [pyEqNum_fload, Bool.false_or, Bool.false_and, find?_false_none]
  by_cases hlen : row.cableOrig.length ≤ 3
  · by_cases hprov : 0 < (dedupByKey (fun r => (r.cableOrig, r.tipoUbicacion))
        (rows.filter (fun r => r.tipoUbicacion = row.tipoUbicacion))).length
    · simp [hlen, hprov, find?_false_none]
    · simp [hlen, hprov, h2, find?_false_none]
  · simp [hlen]

/-- C2: the claim fails because of a defect in the code.  `fload_library`
(cable.py lines 134-156) has no return statement, so its value is `None`
rather than the documented found/not-found flag 1/0 (the caller's comment at
graphanalysis.py line 584 states the 0/1 protocol).  Evaluated at a failing
input — a span whose cable name is absent from the catalog — the lookup
signals nothing (`None`, not 0), and the fallback cascade leaves both the
cable name and the data-quality level unchanged even though a sibling span of
the same location type carries a cable that is in the catalog. -/
theorem C2_cable_fallback_never_fires :
    (Conductor.fload_library {}
       [{ name := "RZ_0.6/1.0_KV_4X16_CU", Rdc := 1, T0 := 20, Di := 1,
          Do := 10, S := 16 }] "UNKNOWN_CABLE_XY").2 = none ∧
    resuelve_cable_row
      [{ name := "RZ_0.6/1.0_KV_4X16_CU", Rdc := 1, T0 := 20, Di := 1,
         Do := 10, S := 16 }]
      [{ cable := "AB", cableOrig := "AB", tipoUbicacion := "AEREO" },
       { cable := "RZ_0.6/1.0_KV_4X16_CU",
         cableOrig := "RZ_0.6/1.0_KV_4X16_CU", tipoUbicacion := "AEREO" }]
      { cable := "AB", cableOrig := "AB", tipoUbicacion := "AEREO" } 0
      = ("AB", 0) ∧
    resuelve_cable_row
      [{ name := "RZ_0.6/1.0_KV_4X16_CU", Rdc := 1, T0 := 20, Di := 1,
         Do := 10, S := 16 }]
      [{ cable := "UNKNOWN_CABLE_XY", cableOrig := "UNKNOWN_CABLE_XY",
         tipoUbicacion := "AEREO" }]
      { cable := "UNKNOWN_CABLE_XY", cableOrig := "UNKNOWN_CABLE_XY",
        tipoUbicacion := "AEREO" } 0
      = ("UNKNOWN_CABLE_XY", 0) := by
  refine ⟨rfl, ?_, ?_⟩ <;> decide

/-! ## Section 3: topology repair (graphanalysis.py,
`create_graph_dataframes` lines 228-1177)

The embedding starts from the state of the tables after CSV parsing and the
purely textual normalisation steps (case folding, suffix stripping, the
coordinate repair of lines 384-534) and covers the logic the claims are
about: span-length computation with the zero-length counter, the cable
fallback cascade, the over-20% abort, the customer-table emptiness check, the
no-nodes/no-spans synthesis-or-abort branch, and the nearest-node distance
table.  The ID_NODO / LBT_ID format checks (lines 267-307, 565-576) and the
QBT_TENSION consistency checks (lines 1094-1139) only escalate the quality
level to at most 2 and are not modelled; the `update_graph_data_error` CSV
side effect is external persistence and is dropped. -/

/-- One row of the node table after normalisation. -/
structure NodoRow where
  ct : Int := 0
  ctNombre : String := ""
  idNodo : String := ""
  lbtId : String := ""
  lbtNombre : String := ""
  trafo : String := ""
  tipoNodo : String := ""
  nudoX : ℚ := 0
  nudoY : ℚ := 0
  ctX : ℚ := 0
  ctY : ℚ := 0
deriving Repr, DecidableEq

/-- One row of the customer (CUPS) table after normalisation. -/
structure CupsRow where
  ct : Int := 0
  ctNombre : String := ""
  cups : String := ""
  lbtId : String := ""
  lbtNombre : String := ""
  trafo : String := ""
  tipoConexion : String := ""
  ammFase : String := ""
  cteGiss : ℚ := 0
  qbtTension : Int := 0
  potMax : ℚ := 0
  tipoActividad : String := ""
  cupsX : ℚ := 0
  cupsY : ℚ := 0
deriving Repr, DecidableEq

/-- One row of the nearest-node distance table (`df_matr_dist`). -/
structure MatrRow where
  cups : String := ""
  trafo : String := ""
  idNodoCercano : String := ""
  trNodo : String := ""
  distancia : ℚ := 0
deriving Repr, DecidableEq

/-- One row of the feeder list (`LBT_ID_list`). -/
structure LbtRow where
  trafo : String := ""
  lbtId : String := ""
  lbtNombre : String := ""
deriving Repr, DecidableEq

/-- One row of the combined node/span-endpoint table (`df_Nodos_Trazas`). -/
structure NodosTrazasRow where
  trafo : String := ""
  lbtId : String := ""
  idNodo : String := ""
  nudoX : ℚ := 0
  nudoY : ℚ := 0
deriving Repr, DecidableEq

/-- Generic `drop_duplicates(subset=key, keep='first')`. -/
def pyDedupBy {β : Type} {α : Type} [DecidableEq α] (key : β → α) :
    List β → List β :=
  List.foldl (fun acc r => if acc.any (fun s => key s = key r) then acc
                           else acc ++ [r]) []

/-- Result record of `create_graph_dataframes`. -/
structure RepairResult where
  err : ℕ
  nodos : List NodoRow
  trazas : List TrazaRow
  cups : List CupsRow
  matrDist : List MatrRow
  lbtList : List LbtRow
  cupsAgregado : List CupsRow
deriving Repr, DecidableEq

/-- Defensive double-key filter on the node table (line 258). -/
def filtraNodos (nombre : String) (idCT : Int) (df : List NodoRow) :
    List NodoRow :=
  df.filter (fun r => r.ctNombre = nombre ∧ r.ct = idCT)

/-- Defensive double-key filter on the span table (line 339). -/
def filtraTrazas (nombre : String) (idCT : Int) (df : List TrazaRow) :
    List TrazaRow :=
  df.filter (fun r => r.ctNombre = nombre ∧ r.ct = idCT)

/-- Filter plus full-row dedup on the customer table (line 806). -/
def filtraCups (nombre : String) (idCT : Int) (df : List CupsRow) :
    List CupsRow :=
  pyDedupBy id (df.filter (fun r => r.ctNombre = nombre ∧ r.ct = idCT))

/-- Level-1 escalation when no node rows survive the filter (lines 327-333). -/
def errNodos (err0 : ℕ) (nodosCT : List NodoRow) : ℕ :=
  if 0 < nodosCT.length then err0 else bumpErr err0 1

/-- Span-table pass (lines 360-650): rows whose endpoint ids do not parse are
deleted with a level-2 escalation; the geometric length is computed when all
four coordinates are positive, otherwise the length is 0 and the zero-length
counter is incremented with a level-1 escalation; finally the cable fallback
cascade runs with the whole frame as search space.  Returns the processed
rows, the zero-length counter `trazas_cero` and the updated quality level. -/
def repairStep (sqrtF : ℚ → ℚ) (catalog : List CatalogEntry)
    (frame : List TrazaRow) (acc : List TrazaRow × ℕ × ℕ) (row : TrazaRow) :
    List TrazaRow × ℕ × ℕ :=
  let kept := acc.1
  let cero := acc.2.1
  let e := acc.2.2
  if row.idsParse then
    let step :=
      if 0 < row.xOrigen ∧ 0 < row.yOrigen ∧ 0 < row.xDestino ∧
          0 < row.yDestino then
        let lc := sqrtF ((row.xDestino - row.xOrigen) ^ 2 +
          (row.yDestino - row.yOrigen) ^ 2)
        if 0 ≤ lc then (lc, cero, e) else (0, cero, bumpErr e 1)
      else (0, cero + 1, bumpErr e 1)
    let res := resuelve_cable_row catalog frame row step.2.2
    (kept ++ [{ row with longitud := step.1, cable := res.1 }],
     step.2.1, res.2)
  else (kept, cero, bumpErr e 2)

def repairTrazas (sqrtF : ℚ → ℚ) (catalog : List CatalogEntry)
    (dfT : List TrazaRow) (err0 : ℕ) : List TrazaRow × ℕ × ℕ :=
  dfT.foldl (repairStep sqrtF catalog dfT) ([], 0, err0)

/-- Feeder list (lines 747-753): distinct feeders from the node table, plus
feeders only present in spans (blank display name), sorted by transformer
descending, deduplicated by feeder id keeping the first. -/
def insertTrafoDesc (x : LbtRow) : List LbtRow → List LbtRow
  | [] => [x]
  | y :: ys => if y.trafo < x.trafo then x :: y :: ys
               else y :: insertTrafoDesc x ys

def sortTrafoDesc (l : List LbtRow) : List LbtRow :=
  l.foldr insertTrafoDesc []

def lbtListOf (nodosCT : List NodoRow) (trz : List TrazaRow) : List LbtRow :=
  let fromNodos := pyDedupBy (fun r : LbtRow => (r.trafo, r.lbtId, r.lbtNombre))
    (nodosCT.map (fun n => { trafo := n.trafo, lbtId := n.lbtId,
                             lbtNombre := n.lbtNombre }))
  let fromTrazas := pyDedupBy (fun r : LbtRow => r.lbtId)
    (trz.map (fun t => { trafo := t.trafo, lbtId := t.lbtId, lbtNombre := "" }))
  pyDedupBy (fun r : LbtRow => r.lbtId) (sortTrafoDesc (fromNodos ++ fromTrazas))

/-- Combined node/span-endpoint table (lines 884-892). -/
def nodosTrazasOf (nodosCT : List NodoRow) (trz : List TrazaRow) :
    List NodosTrazasRow :=
  let a := pyDedupBy (fun r : NodosTrazasRow => (r.trafo, r.lbtId, r.idNodo))
    (nodosCT.map (fun n => { trafo := n.trafo, lbtId := n.lbtId,
                             idNodo := n.idNodo, nudoX := n.nudoX,
                             nudoY := n.nudoY }))
  let b := pyDedupBy (fun r : NodosTrazasRow => (r.trafo, r.lbtId, r.idNodo))
    (trz.map (fun t => { trafo := t.trafo, lbtId := t.lbtId,
                         idNodo := t.nodoOrigen, nudoX := t.xOrigen,
                         nudoY := t.yOrigen }))
  let c := pyDedupBy (fun r : NodosTrazasRow => (r.trafo, r.lbtId, r.idNodo))
    (trz.map (fun t => { trafo := t.trafo, lbtId := t.lbtId,
                         idNodo := t.nodoDestino, nudoX := t.xDestino,
                         nudoY := t.yDestino }))
  pyDedupBy (fun r : NodosTrazasRow => (r.lbtId, r.idNodo)) (a ++ b ++ c)

/-- Synthetic one-span-per-customer fallback when no nodes or spans exist but
customers do (lines 937-994).  Returns the extended span, node/endpoint and
feeder tables and the escalated quality level. -/
def synthTrazas (sqrtF : ℚ → ℚ) (nombre : String) (idCT : Int)
    (cupsCT : List CupsRow) (agg : List CupsRow) (trz : List TrazaRow)
    (nt : List NodosTrazasRow) (lbt : List LbtRow) (err0 : ℕ) :
    List TrazaRow × List NodosTrazasRow × List LbtRow × ℕ :=
  let aggX : Option ℚ := (agg.map (fun r => r.cupsX)).max?
  let aggY : Option ℚ := (agg.map (fun r => r.cupsY)).max?
  cupsCT.foldl
    (fun acc row =>
      let (trz, nt, lbt, e) := acc
      if (0 : ℚ) < row.cteGiss then acc
      else
        let coords :=
          match aggX, aggY with
          | some cx, some cy =>
            if 0 < row.cupsX ∧ 0 < row.cupsY then (row.cupsX, row.cupsY, cx, cy)
            else if 0 < cx ∧ 0 < cy then (cx, cy, cx, cy)
            else (0, 0, cx, cy)
          | _, _ => ((0 : ℚ), (0 : ℚ), (0 : ℚ), (0 : ℚ))
        let (coordX, coordY, ctX, ctY) := coords
        let nodoDest := toString (trz.length + 1)
        let longCalc :=
          if 0 < coordX ∧ 0 < coordY ∧ 0 < ctX ∧ 0 < ctY then
            sqrtF ((ctX - coordX) ^ 2 + (ctY - coordY) ^ 2)
          else 0
        let newTraza : TrazaRow :=
          { ct := idCT, ctNombre := nombre, trafo := row.trafo,
            lbtId := row.lbtId, nodoOrigen := toString idCT,
            xOrigen := ctX, yOrigen := ctY, nodoDestino := nodoDest,
            xDestino := coordX, yDestino := coordY, tipoUbicacion := "AEREO",
            cable := "4X16_CU", cableOrig := "4X16_CU", longitud := longCalc }
        let newNt : NodosTrazasRow :=
          { trafo := row.trafo, lbtId := row.lbtId, idNodo := nodoDest,
            nudoX := coordX, nudoY := coordY }
        let newLbt : LbtRow :=
          { trafo := row.trafo, lbtId := row.lbtId,
            lbtNombre := row.lbtNombre }
        (trz ++ [newTraza], nt ++ [newNt],
         pyDedupBy id (lbt ++ [newLbt]), bumpErr e 2))
    (trz, nt, lbt, err0)

/-- Nearest-node distance table (lines 1029-1088).  For each customer: head
meters are pinned to the substation at distance 0; otherwise the nearest
endpoint of the same transformer (excluding the substation id) wins by strict
comparison starting from a huge sentinel distance; a customer with no
matching node gets placeholder `0` or `1` and a level-2 escalation, possibly
registering a new feeder. -/
def matrDistOf (sqrtF : ℚ → ℚ) (idCT : Int) (cupsCT : List CupsRow)
    (nt : List NodosTrazasRow) (lbt0 : List LbtRow) (err0 : ℕ) :
    List MatrRow × List LbtRow × ℕ :=
  cupsCT.foldl
    (fun acc row =>
      let (matr, lbt, e) := acc
      if (0 : ℚ) < row.cteGiss then
        (matr ++ [{ cups := row.cups, trafo := row.trafo,
                    idNodoCercano := toString idCT, trNodo := row.trafo,
                    distancia := 0 }], lbt, e)
      else
        let lbtKnown := lbt.any (fun l => l.lbtId = row.lbtId)
        let best := nt.foldl
          (fun (st : ℚ × Option MatrRow) r2 =>
            let d := sqrtF ((row.cupsX - r2.nudoX) ^ 2 +
              (row.cupsY - r2.nudoY) ^ 2)
            if d < st.1 ∧ row.trafo = r2.trafo ∧ r2.idNodo ≠ toString idCT then
              (d, some { cups := row.cups, trafo := row.trafo,
                         idNodoCercano := r2.idNodo, trNodo := r2.trafo,
                         distancia := d })
            else st)
          ((10 : ℚ) ^ 20, none)
        match best.2 with
        | some ent =>
          let e := if lbtKnown then e else bumpErr e 1
          (matr ++ [ent], lbt, e)
        | none =>
          let e := bumpErr e 1
          let ent0 : MatrRow :=
            { cups := row.cups, trafo := row.trafo, idNodoCercano := "0",
              trNodo := row.trafo, distancia := 0 }
          if lbt.any (fun l => l.trafo = row.trafo) then
            if lbtKnown then
              (matr ++ [{ ent0 with idNodoCercano := "1" }], lbt, bumpErr e 2)
            else (matr ++ [ent0], lbt, bumpErr e 2)
          else
            if 2 ≤ row.trafo.length then
              (matr ++ [{ ent0 with idNodoCercano := "1" }],
               lbt ++ [{ trafo := row.trafo, lbtId := row.lbtId,
                         lbtNombre := "0" }], bumpErr e 2)
            else (matr ++ [ent0], lbt, bumpErr e 2))
    ([], lbt0, err0)

/-- Tail of `create_graph_dataframes` from the customer filter on (lines
804-1177): emptiness escalation, the no-nodes/no-spans branch (synthesise or
abort), the distance table and the final return. -/
def cgdRest (sqrtF : ℚ → ℚ) (nombre : String) (idCT : Int) (err2 : ℕ)
    (nodosCT : List NodoRow) (trz : List TrazaRow) (lbt : List LbtRow)
    (cupsCT : List CupsRow) : RepairResult :=
  let err3 := if 0 < cupsCT.length then err2 else bumpErr err2 3
  let nt := nodosTrazasOf nodosCT trz
  let agg := cupsCT.filter (fun r => (0 : ℚ) < r.cteGiss)
  if nt.length = 0 then
    if 0 < cupsCT.length then
      let s := synthTrazas sqrtF nombre idCT cupsCT agg trz nt lbt err3
      let m := matrDistOf sqrtF idCT cupsCT s.2.1 s.2.2.1 s.2.2.2
      let errF := if 0 < m.1.length then m.2.2 else bumpErr m.2.2 3
      { err := errF, nodos := nodosCT, trazas := s.1, cups := cupsCT,
        matrDist := m.1, lbtList := m.2.1, cupsAgregado := agg }
    else
      { err := bumpErr err3 3, nodos := [], trazas := [], cups := [],
        matrDist := [], lbtList := [], cupsAgregado := [] }
  else
    let m := matrDistOf sqrtF idCT cupsCT nt lbt err3
    let errF := if 0 < m.1.length then m.2.2 else bumpErr m.2.2 3
    { err := errF, nodos := nodosCT, trazas := trz, cups := cupsCT,
      matrDist := m.1, lbtList := m.2.1, cupsAgregado := agg }

/-- Embedding of `create_graph_dataframes` (graphanalysis.py lines 228-1177).
The over-20%-zero-length check (lines 756-775) aborts early with quality
level 3 and every output collection empty. -/
def create_graph_dataframes (sqrtF : ℚ → ℚ) (catalog : List CatalogEntry)
    (nombre : String) (idCT : Int) (err0 : ℕ) (dfNodos : List NodoRow)
    (dfTraza : List TrazaRow) (dfCtCups : List CupsRow) : RepairResult :=
  let nodosCT := filtraNodos nombre idCT dfNodos
  let err1 := errNodos err0 nodosCT
  let rep := repairTrazas sqrtF catalog (filtraTrazas nombre idCT dfTraza) err1
  let trz := rep.1
  let cero := rep.2.1
  let err2 := rep.2.2
  let lbt := lbtListOf nodosCT trz
  if 0 < trz.length ∧ (20 : ℚ) < (cero * 100 : ℚ) / (trz.length : ℚ) then
    { err := bumpErr err2 3, nodos := [], trazas := [], cups := [],
      matrDist := [], lbtList := [], cupsAgregado := [] }
  else
    cgdRest sqrtF nombre idCT err2 nodosCT trz lbt
      (filtraCups nombre idCT dfCtCups)


lemma bumpErr_le3 {e k : ℕ} (he : e ≤ 3) (hk : k ≤ 3) : bumpErr e k ≤ 3 := by
  unfold bumpErr
  split <;> omega

lemma bumpErr3_eq {e : ℕ} (he : e ≤ 3) : bumpErr e 3 = 3 := by
  unfold bumpErr
  split <;> omega

lemma resuelve_cable_row_err_le3 (catalog : List CatalogEntry)
    (rows : List TrazaRow) (row : TrazaRow) {err : ℕ} (he : err ≤ 3) :
    (resuelve_cable_row catalog rows row err).2 ≤ 3 := by
  unfold resuelve_cable_row
  simp only [pyEqNum_fload, Bool.false_or, Bool.false_and, find?_false_none]
  repeat' split
  all_goals simp_all [bumpErr]
  all_goals (first | omega | (split <;> omega))

lemma repairStep_err_le3 (sqrtF : ℚ → ℚ) (catalog : List CatalogEntry)
    (frame : List TrazaRow) (acc : List TrazaRow × ℕ × ℕ) (row : TrazaRow)
    (h : acc.2.2 ≤ 3) : (repairStep sqrtF catalog frame acc row).2.2 ≤ 3 := by
  unfold repairStep
  by_cases hp : row.idsParse
  · simp only [hp, if_true]
    refine resuelve_cable_row_err_le3 _ _ _ ?_
    split
    · split
      · exact h
      · exact bumpErr_le3 h (by omega)
    · exact bumpErr_le3 h (by omega)
  · simp only [hp, if_false]
    exact bumpErr_le3 h (by omega)

lemma repairTrazas_err_le3 (sqrtF : ℚ → ℚ) (catalog : List CatalogEntry)
    (dfT : List TrazaRow) {err0 : ℕ} (he : err0 ≤ 3) :
    (repairTrazas sqrtF catalog dfT err0).2.2 ≤ 3 := by
  unfold repairTrazas
  suffices h : ∀ (l : List TrazaRow) (acc : List TrazaRow × ℕ × ℕ),
      acc.2.2 ≤ 3 →
      (List.foldl (repairStep sqrtF catalog dfT) acc l).2.2 ≤ 3 by
    exact h dfT ([], 0, err0) he
  intro l
  induction l with
  | nil => intro acc h; exact h
  | cons row rest ih =>
    intro acc h
    rw [List.foldl_cons]
    exact ih _ (repairStep_err_le3 sqrtF catalog dfT acc row h)

lemma errNodos_le3 {err0 : ℕ} (he : err0 ≤ 3) (nodosCT : List NodoRow) :
    errNodos err0 nodosCT ≤ 3 := by
  unfold errNodos
  split
  · exact he
  · exact bumpErr_le3 he (by omega)

/-- C4 (amended): the over-20% zero-length condition makes topology repair
return quality level 3 with every collection empty; with no customer points
(and the 20% condition not firing, and spans or nodes present) repair sets
level 3 but returns the repaired span table unchanged — only the customer and
distance collections are empty.  The all-empty Abort for missing customers
happens only when no nodes and no spans parsed either. -/
theorem C4_abort_policy_amended (sqrtF : ℚ → ℚ) (catalog : List CatalogEntry)
    (nombre : String) (idCT : Int) (err0 : ℕ) (dfNodos : List NodoRow)
    (dfTraza : List TrazaRow) (dfCtCups : List CupsRow) (trz : List TrazaRow)
    (cero err2 : ℕ) (h0 : err0 ≤ 3)
    (hrep : repairTrazas sqrtF catalog (filtraTrazas nombre idCT dfTraza)
      (errNodos err0 (filtraNodos nombre idCT dfNodos)) = (trz, cero, err2)) :
    (0 < trz.length ∧ (20 : ℚ) < (cero * 100 : ℚ) / (trz.length : ℚ) →
      create_graph_dataframes sqrtF catalog nombre idCT err0 dfNodos dfTraza
        dfCtCups =
      { err := 3, nodos := [], trazas := [], cups := [], matrDist := [],
        lbtList := [], cupsAgregado := [] }) ∧
    (filtraCups nombre idCT dfCtCups = [] →
     ¬(0 < trz.length ∧ (20 : ℚ) < (cero * 100 : ℚ) / (trz.length : ℚ)) →
     nodosTrazasOf (filtraNodos nombre idCT dfNodos) trz ≠ [] →
      (create_graph_dataframes sqrtF catalog nombre idCT err0 dfNodos dfTraza
        dfCtCups).err = 3 ∧
      (create_graph_dataframes sqrtF catalog nombre idCT err0 dfNodos dfTraza
        dfCtCups).trazas = trz ∧
      (create_graph_dataframes sqrtF catalog nombre idCT err0 dfNodos dfTraza
        dfCtCups).cups = [] ∧
      (create_graph_dataframes sqrtF catalog nombre idCT err0 dfNodos dfTraza
        dfCtCups).matrDist = []) := by
  have herr2 : err2 ≤ 3 := by
    have h2 := repairTrazas_err_le3 sqrtF catalog
      (filtraTrazas nombre idCT dfTraza)
      (errNodos_le3 h0 (filtraNodos nombre idCT dfNodos))
    rw [hrep] at h2
    exact h2
  constructor
  · intro hcond
    unfold create_graph_dataframes
    simp only [hrep]
    simp only [hcond, and_self, if_true, bumpErr3_eq herr2]
  · intro hcups hncond hnt
    unfold create_graph_dataframes
    simp only [hrep]
    rw [if_neg hncond]
    unfold cgdRest
    rw [hcups]
    simp only [List.length_nil, lt_irrefl, if_false, bumpErr3_eq herr2]
    rw [if_neg (by simpa using hnt)]
    simp only [matrDistOf, List.foldl_nil, List.length_nil, lt_irrefl,
      if_false, bumpErr3_eq (le_refl 3), List.filter_nil]
    exact ⟨trivial, trivial, trivial, trivial⟩

/-- Concrete span row used by the C4 input: one well-formed span of
substation "A" (id 1). -/
def C4row : TrazaRow :=
  { ct := 1, ctNombre := "A", trafo := "TR1", lbtId := "5", nodoOrigen := "2",
    nodoDestino := "3", xOrigen := 1, yOrigen := 1, xDestino := 2,
    yDestino := 2, tipoUbicacion := "AEREO", cable := "RZ_X",
    cableOrig := "RZ_X" }

/-- C4 counterexample: for a substation with one parsed span and an empty
customer table, `create_graph_dataframes` sets quality level 3 but does NOT
return an empty result — the span collection comes back with the repaired
row, contradicting the claim that the no-customer case returns Abort with no
partial graph (all collections empty). -/
theorem C4_no_customers_counterexample :
    (create_graph_dataframes (fun _ => 0) [] "A" 1 0 [] [C4row] []).err = 3 ∧
    (create_graph_dataframes (fun _ => 0) [] "A" 1 0 [] [C4row] []).trazas
      ≠ [] := by
  have hrep : repairTrazas (fun _ => 0) [] (filtraTrazas "A" 1 [C4row])
      (errNodos 0 (filtraNodos "A" 1 [])) = ([C4row], 0, 1) := by
    norm_num [repairTrazas, repairStep, filtraTrazas, filtraNodos, errNodos,
      bumpErr, resuelve_cable_row, pyEqNum_fload, find?_false_none, C4row,
      List.foldl, List.filter]
    constructor
    · decide
    · decide
  constructor
  · unfold create_graph_dataframes
    simp only [hrep]
    norm_num [cgdRest, filtraCups, bumpErr, matrDistOf, nodosTrazasOf,
      pyDedupBy, List.foldl, List.filter, C4row]
    decide
  · unfold create_graph_dataframes
    simp only [hrep]
    norm_num [cgdRest, filtraCups, bumpErr, matrDistOf, nodosTrazasOf,
      pyDedupBy, List.foldl, List.filter, C4row]
    decide

/-- Witness for the amended C4 theorem at the concrete one-span,
zero-customer input. -/
theorem C4_abort_policy_amended_witness :
    (create_graph_dataframes (fun _ => 0) [] "A" 1 0 [] [C4row] []).err = 3 := by
  have hrep : repairTrazas (fun _ => 0) [] (filtraTrazas "A" 1 [C4row])
      (errNodos 0 (filtraNodos "A" 1 [])) = ([C4row], 0, 1) := by
    norm_num [repairTrazas, repairStep, filtraTrazas, filtraNodos, errNodos,
      bumpErr, resuelve_cable_row, pyEqNum_fload, find?_false_none, C4row,
      List.foldl, List.filter]
    constructor
    · decide
    · decide
  refine ((C4_abort_policy_amended (fun _ => 0) [] "A" 1 0 [] [C4row] []
    [C4row] 0 1 (by omega) hrep).2 ?_ ?_ ?_).1
  · decide
  · norm_num [C4row]
  · decide

/-! ## Multigraph model for `genera_grafo` (graphanalysis.py 1182-1710)

The networkx `MultiGraph` is embedded as a list of labelled nodes plus a
list of undirected edges in insertion order.  Edge keys are not modelled:
in this program every key set for a node pair is dense (`add_edge` without
an explicit key always appends the next integer key, and the only explicit
key used is `0`), and every removal site (`for j in range(0,1000000):
try: G.remove_edge(u, v, key=j) except: break`) removes *all* keys of the
pair, so removal coincides with dropping every edge between the two
endpoints.  Numeric attributes are ℚ (coordinates, lengths, powers) and ℤ
(counters); colour attributes are irrelevant to every claim and omitted. -/

/-- Node attribute record (`G.add_node(..., TR=, Tipo_Nodo=, pos=, N_ant=,
QBT_TENSION=, P_R_0=..., Enlaces_orig=, Enlaces_iter=, ...)`). -/
structure NodeAttr where
  tr : String := ""
  tipoNodo : String := ""
  posX : ℚ := 0
  posY : ℚ := 0
  nAnt : ℤ := 0
  qbt : ℤ := 400
  enlacesOrig : ℤ := 0
  enlacesIter : ℤ := 0
  pR : ℚ := 0
  qR : ℚ := 0
  pS : ℚ := 0
  qS : ℚ := 0
  pT : ℚ := 0
  qT : ℚ := 0
  ammFase : String := ""
  tipoConexion : String := ""
deriving Repr, DecidableEq

/-- Edge attribute record (`G.add_edge(u, v, ID_traza=, TR=, Long=,
P_R_Linea=..., CABLE=, QBT_TENSION=)`); `a`/`b` are the two endpoints in
the order the edge was added (the graph is undirected). -/
structure MEdge where
  a : String
  b : String
  idTraza : ℤ := 0
  tr : String := ""
  long : ℚ := 0
  cable : String := ""
  qbt : ℤ := 400
  pRL : ℚ := 0
  qRL : ℚ := 0
  pSL : ℚ := 0
  qSL : ℚ := 0
  pTL : ℚ := 0
  qTL : ℚ := 0
deriving Repr, DecidableEq

/-- The multigraph: node list (label, attributes) and undirected edge list. -/
structure MGraph where
  nodes : List (String × NodeAttr)
  edges : List MEdge
deriving Repr, DecidableEq

def MGraph.hasNode (g : MGraph) (v : String) : Bool :=
  g.nodes.any (fun p => p.1 == v)

/-- `e` is incident to `v`. -/
def touchesE (e : MEdge) (v : String) : Bool := e.a == v || e.b == v

/-- `e` joins `u` and `v` (in either orientation). -/
def sameEnds (e : MEdge) (u v : String) : Bool :=
  (e.a == u && e.b == v) || (e.a == v && e.b == u)

/-- Some edge joins `u` and `v` (`(u, v, 0) in G.edges` / adjacency). -/
def adjB (g : MGraph) (u v : String) : Bool :=
  g.edges.any (fun e => sameEnds e u v)

/-- Neighbour view `G[v]`: unique neighbours in edge-insertion order
(a self-loop contributes `v` itself, as in networkx). -/
def nbrs (g : MGraph) (v : String) : List String :=
  pyDedupBy id (((g.edges.filter (fun e => touchesE e v)).map
    (fun e => if e.a == v then e.b else e.a)))

/-- `len(list(np.unique(list(G.edges(nodo))))) - 1`: `np.unique` flattens the
incident (u, v) pairs and sorts the distinct labels, so the value is the
number of distinct node labels occurring in edges incident to `v`, minus
one.  An isolated node gets `-1`. -/
def enlacesOf (g : MGraph) (v : String) : ℤ :=
  ((pyDedupBy id ((g.edges.filter (fun e => touchesE e v)).foldr
    (fun e acc => e.a :: e.b :: acc) [])).length : ℤ) - 1

/-- Overwrite both `Enlaces` attributes of `v` with the current
`enlacesOf g v` (the assignment pair at e.g. 1598-1599 / 1689-1692). -/
def setEnlaces (g : MGraph) (v : String) : MGraph :=
  { g with nodes := g.nodes.map (fun p =>
      if p.1 == v then
        (p.1, { p.2 with enlacesOrig := enlacesOf g v,
                         enlacesIter := enlacesOf g v })
      else p) }

/-- Remove every parallel edge between `u` and `v` (the
`for j in range(0,1000000)` removal loop removes all dense keys). -/
def removeAllEdges (g : MGraph) (u v : String) : MGraph :=
  { g with edges := g.edges.filter (fun e => !(sameEnds e u v)) }

/-- Removal step as performed at 1585-1599 and 1678-1692: drop all edges of
the pair, then refresh `Enlaces_orig`/`Enlaces_iter` on both endpoints from
the post-removal graph. -/
def removeStep (g : MGraph) (u v : String) : MGraph :=
  setEnlaces (setEnlaces (removeAllEdges g u v) u) v

/-- Reachability from `s` in the undirected multigraph (the property
`nx.shortest_path(G, s, v)` succeeds on). -/
inductive Reach (g : MGraph) (s : String) : String → Prop
  | refl : Reach g s s
  | step {u v : String} : Reach g s u → adjB g u v = true → Reach g s v

lemma sameEnds_symm (e : MEdge) (u v : String) :
    sameEnds e u v = sameEnds e v u := by
  simp only [sameEnds]
  cases h1 : e.a == u <;> cases h2 : e.b == v <;>
    cases h3 : e.a == v <;> cases h4 : e.b == u <;> simp_all

lemma adjB_symm (g : MGraph) (u v : String) : adjB g u v = adjB g v u := by
  simp only [adjB]
  induction g.edges with
  | nil => rfl
  | cons e t ih =>
      simp only [List.any_cons]
      rw [sameEnds_symm]
      cases sameEnds e v u <;> simp_all

lemma pyDedupBy_id_go {α : Type} [DecidableEq α] (l : List α) (acc : List α)
    (x : α) :
    (x ∈ l.foldl (fun acc r => if acc.any (fun s => id s = id r) then acc
      else acc ++ [r]) acc) ↔ x ∈ acc ∨ x ∈ l := by
  induction l generalizing acc with
  | nil => simp
  | cons h t ih =>
      simp only [List.foldl_cons, ih]
      by_cases hmem : acc.any (fun s => id s = id h)
      · simp only [hmem, if_pos]
        have : h ∈ acc := by
          rcases List.any_eq_true.mp hmem with ⟨s, hs, he⟩
          simp only [id, decide_eq_true_eq] at he
          exact he ▸ hs
        constructor
        · rintro (h1 | h2)
          · exact Or.inl h1
          · exact Or.inr (List.mem_cons_of_mem _ h2)
        · rintro (h1 | h2)
          · exact Or.inl h1
          · rcases List.mem_cons.mp h2 with h3 | h4
            · exact Or.inl (h3 ▸ this)
            · exact Or.inr h4
      · rw [Bool.not_eq_true] at hmem
        simp only [hmem, Bool.false_eq_true, if_false]
        simp only [List.mem_append, List.mem_singleton, List.mem_cons]
        tauto

lemma pyDedupBy_id_mem {α : Type} [DecidableEq α] (l : List α) (x : α) :
    x ∈ pyDedupBy id l ↔ x ∈ l := by
  unfold pyDedupBy
  rw [pyDedupBy_id_go]
  simp

lemma pyDedupBy_id_nodup_go {α : Type} [DecidableEq α] (l : List α)
    (acc : List α) (hacc : acc.Nodup) :
    (l.foldl (fun acc r => if acc.any (fun s => id s = id r) then acc
      else acc ++ [r]) acc).Nodup := by
  induction l generalizing acc with
  | nil => simpa
  | cons h t ih =>
      simp only [List.foldl_cons]
      by_cases hmem : acc.any (fun s => id s = id h)
      · simp only [hmem, if_pos]
        exact ih acc hacc
      · rw [Bool.not_eq_true] at hmem
        simp only [hmem, Bool.false_eq_true, if_false]
        refine ih _ ?_
        have hnm : h ∉ acc := by
          intro hc
          have hq : (acc.any fun s => decide (id s = id h)) = true :=
            List.any_eq_true.mpr ⟨h, hc, by simp⟩
          rw [hmem] at hq
          exact Bool.false_ne_true hq
        simpa [List.nodup_append] using ⟨hacc, hnm⟩

lemma pyDedupBy_id_nodup {α : Type} [DecidableEq α] (l : List α) :
    (pyDedupBy id l).Nodup :=
  pyDedupBy_id_nodup_go l [] List.nodup_nil

lemma pyDedupBy_id_length_go {α : Type} [DecidableEq α] (l : List α)
    (acc : List α) :
    (l.foldl (fun acc r => if acc.any (fun s => id s = id r) then acc
      else acc ++ [r]) acc).length ≤ acc.length + l.length := by
  induction l generalizing acc with
  | nil => simp
  | cons h t ih =>
      simp only [List.foldl_cons, List.length_cons]
      by_cases hmem : acc.any (fun s => id s = id h)
      · simp only [hmem, if_pos]
        exact le_trans (ih acc) (by omega)
      · rw [Bool.not_eq_true] at hmem
        simp only [hmem, Bool.false_eq_true, if_false]
        have := ih (acc ++ [h])
        simp only [List.length_append, List.length_singleton] at this
        omega

lemma pyDedupBy_id_length {α : Type} [DecidableEq α] (l : List α) :
    (pyDedupBy id l).length ≤ l.length := by
  have := pyDedupBy_id_length_go l []
  simpa [pyDedupBy] using this

/-- Adjacency as a proposition. -/
def AdjP (g : MGraph) : String → String → Prop := fun a b => adjB g a b = true

/-- A simple cycle on at least three distinct nodes: consecutive nodes are
adjacent and the last node closes back to the first (`c ++ c.take 1`
appends the head so the closing edge is part of the chain). -/
def IsCycle (g : MGraph) (c : List String) : Prop :=
  3 ≤ c.length ∧ c.Nodup ∧ List.Chain' (AdjP g) (c ++ c.take 1)

/-- Some simple cycle on ≥ 3 nodes touches the component of `s`. -/
def ReachCycle (g : MGraph) (s : String) : Prop :=
  ∃ c, IsCycle g c ∧ ∃ v ∈ c, Reach g s v

lemma adjP_symm {g : MGraph} {a b : String} (h : AdjP g a b) : AdjP g b a := by
  unfold AdjP at *
  rwa [adjB_symm]

lemma chainClosed_rotate_one {α : Type} (R : α → α → Prop) (c : List α)
    (h : List.Chain' R (c ++ c.take 1)) :
    List.Chain' R (c.rotate 1 ++ (c.rotate 1).take 1) := by
  match c with
  | [] => simpa using h
  | [a] => simpa using h
  | a :: b :: t =>
      have hrot : (a :: b :: t).rotate 1 = (b :: t) ++ [a] := by
        rw [List.rotate_cons_succ, List.rotate_zero]
      rw [hrot]
      have h' : List.Chain' R (a :: (b :: (t ++ [a]))) := by
        simpa using h
      rcases List.chain'_cons.mp h' with ⟨hR, htail⟩
      have hshape : (b :: t ++ [a]) ++ ((b :: t ++ [a]).take 1)
          = (b :: (t ++ [a])) ++ [b] := by simp
      rw [hshape]
      refine List.chain'_append.mpr ⟨htail, List.chain'_singleton b, ?_⟩
      intro x hx y hy
      have hx' : x = a := by
        rw [show (b :: (t ++ [a])) = ((b :: t) ++ [a]) by simp] at hx
        rw [List.getLast?_concat] at hx
        exact (Option.some_inj.mp hx).symm
      have hy' : b = y := by simpa using hy
      subst hx'
      subst hy'
      exact hR

lemma isCycle_rotate {g : MGraph} {c : List String} (h : IsCycle g c) :
    ∀ n, IsCycle g (c.rotate n) := by
  intro n
  induction n with
  | zero => simpa [List.rotate_zero] using h
  | succ n ih =>
      have : c.rotate (n + 1) = (c.rotate n).rotate 1 := by
        rw [List.rotate_rotate]
      rw [this]
      obtain ⟨hlen, hnd, hch⟩ := ih
      refine ⟨by simpa using hlen, ?_, chainClosed_rotate_one _ _ hch⟩
      rwa [List.nodup_rotate]


lemma isCycle_reverse {g : MGraph} {c : List String} (h : IsCycle g c) :
    IsCycle g c.reverse := by
  obtain ⟨hlen, hnd, hch⟩ := h
  refine ⟨by simpa using hlen, by simpa using hnd, ?_⟩
  match c, hlen with
  | a :: b :: t, _ =>
      have hch' : List.Chain' (AdjP g) ((a :: b :: t) ++ [a]) := by
        simpa using hch
      have hflip : List.Chain' (flip (AdjP g)) ((a :: b :: t) ++ [a]) :=
        hch'.imp (fun _ _ hxy => adjP_symm hxy)
      have hrevR : List.Chain' (AdjP g) (((a :: b :: t) ++ [a]).reverse) :=
        (List.chain'_reverse).mpr hflip
      have hshape : ((a :: b :: t) ++ [a]).reverse
          = a :: ((b :: t).reverse ++ [a]) := by
        simp
      rw [hshape] at hrevR
      cases hu : (b :: t).reverse with
      | nil => exact absurd (congrArg List.length hu) (by simp)
      | cons u rest =>
          rw [hu] at hrevR
          have hRau : AdjP g a u ∧ List.Chain' (AdjP g) (u :: (rest ++ [a])) := by
            rw [List.cons_append] at hrevR
            exact List.chain'_cons.mp hrevR
          have hrevc : (a :: b :: t).reverse = u :: (rest ++ [a]) := by
            have hstep : (a :: b :: t).reverse = (b :: t).reverse ++ [a] := by
              simp
            rw [hstep, hu]
            simp
          rw [hrevc]
          have htake : (u :: (rest ++ [a])).take 1 = [u] := by simp
          rw [htake]
          have hgoal : (u :: (rest ++ [a])) ++ [u]
              = (u :: rest ++ [a]) ++ [u] := by simp
          rw [hgoal]
          refine List.chain'_append.mpr ⟨?_, List.chain'_singleton u, ?_⟩
          · simpa using hRau.2
          · intro x hx y hy
            have hx' : x = a := by
              rw [show (u :: rest ++ [a]) = ((u :: rest) ++ [a]) by simp] at hx
              rw [List.getLast?_concat] at hx
              exact (Option.some_inj.mp hx).symm
            have hy' : u = y := by simpa using hy
            subst hx'
            subst hy'
            exact hRau.1

/-- `min(cycle)` — Python `min` of a list of strings. -/
def pyMin (l : List String) : String :=
  match l with
  | [] => ""
  | h :: t => t.foldl min h

def ghcIdx (cycle : List String) : ℕ := cycle.indexOf (pyMin cycle)

def ghcIdx1 (cycle : List String) : ℕ :=
  if ghcIdx cycle < cycle.length - 1 then ghcIdx cycle + 1 else 0

def ghcPrev (cycle : List String) : String :=
  if ghcIdx cycle = 0 then cycle.getLastD ""
  else cycle.getD (ghcIdx cycle - 1) ""

/-- `get_hashable_cycle` (1625-1634): rotate the cycle so the minimal label
comes first, reversing the orientation when the neighbour comparison says
so (`cycle[mi-1] > cycle[mi_plus_1]`; `cycle[-1]` is the last element). -/
def getHashableCycle (cycle : List String) : List String :=
  if cycle.getD (ghcIdx1 cycle) "" < ghcPrev cycle then
    cycle.drop (ghcIdx cycle) ++ cycle.take (ghcIdx cycle)
  else
    (cycle.take (ghcIdx1 cycle)).reverse ++ (cycle.drop (ghcIdx1 cycle)).reverse

lemma getHashableCycle_isCycle {g : MGraph} {c : List String}
    (h : IsCycle g c) : IsCycle g (getHashableCycle c) := by
  unfold getHashableCycle
  have hmile : ghcIdx c ≤ c.length := List.indexOf_le_length
  have hmi1le : ghcIdx1 c ≤ c.length := by
    unfold ghcIdx1
    split <;> omega
  split
  · rw [← List.rotate_eq_drop_append_take hmile]
    exact isCycle_rotate h _
  · rw [← List.reverse_append, ← List.rotate_eq_drop_append_take hmi1le]
    exact isCycle_reverse (isCycle_rotate h _)

lemma reach_mono {g g' : MGraph} {s : String}
    (hadj : ∀ u v, adjB g u v = true → adjB g' u v = true) :
    ∀ {w}, Reach g s w → Reach g' s w := by
  intro w h
  induction h with
  | refl => exact Reach.refl
  | step _ hstep ih => exact Reach.step ih (hadj _ _ hstep)

/-- Adjacency only looks at edge endpoints, so any graph whose edge list
covers the same endpoint pairs (possibly with different attributes)
has at least the same adjacencies. -/
lemma adjB_mono_endpoints {g g' : MGraph}
    (hcov : ∀ e ∈ g.edges, ∃ e' ∈ g'.edges, e'.a = e.a ∧ e'.b = e.b) :
    ∀ u v, adjB g u v = true → adjB g' u v = true := by
  intro u v h
  rcases List.any_eq_true.mp h with ⟨e, he, hse⟩
  rcases hcov e he with ⟨e', he', ha, hb⟩
  refine List.any_eq_true.mpr ⟨e', he', ?_⟩
  simpa [sameEnds, ha, hb] using hse

/-- Walking a chain of adjacencies extends reachability to its last node. -/
lemma reach_of_chain {g : MGraph} {s : String} :
    ∀ (p : List String) (x : String), Reach g s x →
      List.Chain' (AdjP g) (x :: p) →
      Reach g s ((x :: p).getLast (by simp)) := by
  intro p
  induction p with
  | nil => intro x hx _; simpa using hx
  | cons y t ih =>
      intro x hx hch
      rcases List.chain'_cons.mp hch with ⟨hxy, htail⟩
      have := ih y (Reach.step hx hxy) htail
      simpa [List.getLast_cons] using this

/-- All node labels the DFS can ever see: the start node and every edge
endpoint. -/
def allLabels (g : MGraph) (s : String) : List String :=
  pyDedupBy id (s :: g.edges.foldr (fun e acc => e.a :: e.b :: acc) [])

/-- `output_cycles.add c` — Python set insertion, embedded in first-insertion
order (Python set iteration order is unspecified; every claim proved below
is insensitive to the order, only to the membership). -/
def setInsert (acc : List (List String)) (c : List String) :
    List (List String) :=
  if c ∈ acc then acc else acc ++ [c]

/-- The node labels of the DFS stack, innermost (current) first.  The
Python `cycle_stack` always equals `[n for n, it in stack]` (both get an
entry on push and lose it on pop), so it is `(stackNodes stack).reverse`. -/
def stackNodes (stack : List (String × List String)) : List String :=
  stack.map Prod.fst

/-- The explicit-stack DFS of `find_all_cycles` (1636-1657).  A stack frame
holds a node and the not-yet-consumed part of its neighbour iterator
`iter(G[node])`.  When the next child is already on the walk
(`cycle_stack`) at front-index `i < len(cycle_stack) - 2`, the slice
`cycle_stack[i:]` is recorded through `get_hashable_cycle`.  The fuel
argument only forces termination; `dfsFuel` below always suffices. -/
def dfsAux (g : MGraph) : ℕ → List (String × List String) →
    List (List String) → List (List String)
  | 0, _, acc => acc
  | _ + 1, [], acc => acc
  | fuel + 1, (parent, children) :: rest, acc =>
    match children with
    | [] => dfsAux g fuel rest acc
    | child :: more =>
      let stack' := (parent, more) :: rest
      let cpy := (stackNodes stack').reverse
      if child ∈ cpy then
        if cpy.indexOf child < cpy.length - 2 then
          dfsAux g fuel stack'
            (setInsert acc (getHashableCycle (cpy.drop (cpy.indexOf child))))
        else dfsAux g fuel stack' acc
      else dfsAux g fuel ((child, nbrs g child) :: stack') acc

def dfsFuel (g : MGraph) (s : String) : ℕ :=
  (g.edges.length + 2) ^ ((allLabels g s).length + 1) + 1

/-- Stable insertion into a length-sorted list (an earlier element stays
before later ones of the same length, as in Python's stable `sorted`). -/
def insertByLen (x : List String) : List (List String) →
    List (List String)
  | [] => [x]
  | y :: ys => if y.length < x.length then y :: insertByLen x ys
               else x :: y :: ys

/-- `sorted(..., key=lambda x: len(x))` — a stable sort by length. -/
def sortByLen (l : List (List String)) : List (List String) :=
  l.foldr insertByLen []

lemma insertByLen_mem (c x : List String) (l : List (List String)) :
    c ∈ insertByLen x l ↔ c = x ∨ c ∈ l := by
  induction l with
  | nil => simp [insertByLen]
  | cons y ys ih =>
      unfold insertByLen
      split
      · simp only [List.mem_cons, ih]
        tauto
      · simp only [List.mem_cons]

lemma insertByLen_length (x : List String) (l : List (List String)) :
    (insertByLen x l).length = l.length + 1 := by
  induction l with
  | nil => rfl
  | cons y ys ih =>
      unfold insertByLen
      split
      · simp only [List.length_cons, ih]
      · simp only [List.length_cons]

lemma sortByLen_mem (c : List String) (l : List (List String)) :
    c ∈ sortByLen l ↔ c ∈ l := by
  unfold sortByLen
  induction l with
  | nil => simp
  | cons y ys ih =>
      simp only [List.foldr_cons, insertByLen_mem, List.mem_cons, ih]

lemma sortByLen_length (l : List (List String)) :
    (sortByLen l).length = l.length := by
  unfold sortByLen
  induction l with
  | nil => rfl
  | cons y ys ih =>
      simp only [List.foldr_cons, insertByLen_length, List.length_cons, ih]

/-- `find_all_cycles(G)` (1619-1661): DFS from the substation node, then
`sorted(list(output_cycles), key=len)`. -/
def findAllCycles (g : MGraph) (s : String) : List (List String) :=
  sortByLen (dfsAux g (dfsFuel g s) [(s, nbrs g s)] [])

/-- Termination measure for the DFS: frames deeper in the stack weigh
exponentially more, so every step (pop, consume, push) strictly shrinks
it.  `d` is the exponent of the innermost frame. -/
def stackMeas (B : ℕ) : ℕ → List (String × List String) → ℕ
  | _, [] => 0
  | d, (_, rem) :: rest => rem.length * B ^ d + 1 + stackMeas B (d + 1) rest

lemma nbrs_adjB {g : MGraph} {v c : String} (h : c ∈ nbrs g v) :
    adjB g v c = true := by
  rw [nbrs, pyDedupBy_id_mem] at h
  rcases List.mem_map.mp h with ⟨e, he, hec⟩
  have htouch := (List.mem_filter.mp he).2
  refine List.any_eq_true.mpr ⟨e, (List.mem_filter.mp he).1, ?_⟩
  simp only [touchesE, Bool.or_eq_true, beq_iff_eq] at htouch
  by_cases hav : e.a = v
  · simp only [hav, beq_self_eq_true, if_pos, ite_true] at hec
    simp [sameEnds, hav, hec]
  · have : (e.a == v) = false := beq_eq_false_iff_ne.mpr hav
    rw [this] at hec
    simp only [if_false, Bool.false_eq_true] at hec
    have hbv : e.b = v := by tauto
    simp [sameEnds, hbv, hec]

lemma adjB_nbrs {g : MGraph} {v c : String} (h : adjB g v c = true) :
    c ∈ nbrs g v := by
  rcases List.any_eq_true.mp h with ⟨e, he, hse⟩
  rw [nbrs, pyDedupBy_id_mem]
  simp only [sameEnds, Bool.or_eq_true, Bool.and_eq_true, beq_iff_eq] at hse
  refine List.mem_map.mpr ⟨e, List.mem_filter.mpr ⟨he, ?_⟩, ?_⟩
  · rcases hse with ⟨ha, hb⟩ | ⟨ha, hb⟩ <;> simp [touchesE, ha, hb]
  · rcases hse with ⟨ha, hb⟩ | ⟨ha, hb⟩
    · simp [ha, hb]
    · by_cases hcv : c = v
      · simp [ha, hb, hcv]
      · have : (e.a == v) = false := by
          rw [ha]; exact beq_eq_false_iff_ne.mpr hcv
        rw [this]
        simpa using ha

lemma mem_foldr_endpoints {l : List MEdge} {e : MEdge} (h : e ∈ l) :
    e.a ∈ l.foldr (fun e acc => e.a :: e.b :: acc) [] ∧
    e.b ∈ l.foldr (fun e acc => e.a :: e.b :: acc) [] := by
  induction l with
  | nil => cases h
  | cons e' t ih =>
      rcases List.mem_cons.mp h with rfl | hmem
      · simp
      · rcases ih hmem with ⟨h1, h2⟩
        refine ⟨?_, ?_⟩ <;> simp only [List.foldr_cons, List.mem_cons] <;> tauto

lemma nbrs_mem_allLabels {g : MGraph} {s v c : String} (h : c ∈ nbrs g v) :
    c ∈ allLabels g s := by
  rw [nbrs, pyDedupBy_id_mem] at h
  rcases List.mem_map.mp h with ⟨e, he, hec⟩
  have hemem : e ∈ g.edges := (List.mem_filter.mp he).1
  rw [allLabels, pyDedupBy_id_mem]
  have hin := mem_foldr_endpoints hemem
  split at hec
  · exact List.mem_cons_of_mem _ (hec ▸ hin.2)
  · exact List.mem_cons_of_mem _ (hec ▸ hin.1)

lemma nbrs_length_le {g : MGraph} (v : String) :
    (nbrs g v).length ≤ g.edges.length := by
  calc (nbrs g v).length
      ≤ ((g.edges.filter (fun e => touchesE e v)).map
          (fun e => if e.a == v then e.b else e.a)).length :=
        pyDedupBy_id_length _
    _ = (g.edges.filter (fun e => touchesE e v)).length := List.length_map _ _
    _ ≤ g.edges.length := List.length_filter_le _ _

/-- DFS stack invariant: the walk nodes are distinct, consecutive walk
nodes are adjacent, each frame's unconsumed children are genuine
neighbours of the frame's node, and every walk node is a known label. -/
def goodStack (g : MGraph) (s : String)
    (stack : List (String × List String)) : Prop :=
  (stackNodes stack).Nodup ∧
  List.Chain' (AdjP g) (stackNodes stack).reverse ∧
  (∀ fr ∈ stack, ∀ c ∈ fr.2, c ∈ nbrs g fr.1) ∧
  (∀ x ∈ stackNodes stack, x ∈ allLabels g s)

lemma goodStack_init (g : MGraph) (s : String) :
    goodStack g s [(s, nbrs g s)] := by
  refine ⟨by simp [stackNodes], by simp [stackNodes], ?_, ?_⟩
  · intro fr hfr c hc
    rcases List.mem_singleton.mp hfr with rfl
    exact hc
  · intro x hx
    rcases List.mem_singleton.mp (by simpa [stackNodes] using hx) with rfl
    rw [allLabels, pyDedupBy_id_mem]
    exact List.mem_cons_self _ _

lemma goodStack_pop {g : MGraph} {s v : String}
    {rest : List (String × List String)}
    (h : goodStack g s ((v, []) :: rest)) : goodStack g s rest := by
  obtain ⟨hnd, hch, hrem, hlab⟩ := h
  refine ⟨?_, ?_, ?_, ?_⟩
  · exact (by simpa [stackNodes] using hnd : (v :: stackNodes rest).Nodup).of_cons
  · have : (stackNodes ((v, []) :: rest)).reverse
        = (stackNodes rest).reverse ++ [v] := by simp [stackNodes]
    rw [this] at hch
    exact (List.chain'_append.mp hch).1
  · intro fr hfr
    exact hrem fr (List.mem_cons_of_mem _ hfr)
  · intro x hx
    exact hlab x (by simp [stackNodes] at hx ⊢; tauto)

lemma goodStack_consume {g : MGraph} {s p : String} {c : String}
    {m : List String} {rest : List (String × List String)}
    (h : goodStack g s ((p, c :: m) :: rest)) :
    goodStack g s ((p, m) :: rest) := by
  obtain ⟨hnd, hch, hrem, hlab⟩ := h
  refine ⟨by simpa [stackNodes] using hnd, by simpa [stackNodes] using hch,
    ?_, by simpa [stackNodes] using hlab⟩
  intro fr hfr x hx
  rcases List.mem_cons.mp hfr with rfl | hmem
  · exact hrem (p, c :: m) (List.mem_cons_self _ _) x
      (List.mem_cons_of_mem _ hx)
  · exact hrem fr (List.mem_cons_of_mem _ hmem) x hx

lemma goodStack_push {g : MGraph} {s p c : String}
    {m : List String} {rest : List (String × List String)}
    (h : goodStack g s ((p, c :: m) :: rest))
    (hc : c ∉ stackNodes ((p, m) :: rest)) :
    goodStack g s ((c, nbrs g c) :: (p, m) :: rest) := by
  obtain ⟨hnd, hch, hrem, hlab⟩ := h
  have hcn : c ∈ nbrs g p :=
    hrem (p, c :: m) (List.mem_cons_self _ _) c (List.mem_cons_self _ _)
  refine ⟨?_, ?_, ?_, ?_⟩
  · have : stackNodes ((c, nbrs g c) :: (p, m) :: rest)
        = c :: stackNodes ((p, m) :: rest) := by simp [stackNodes]
    rw [this]
    exact List.nodup_cons.mpr ⟨hc, by simpa [stackNodes] using hnd⟩
  · have hshape : (stackNodes ((c, nbrs g c) :: (p, m) :: rest)).reverse
        = (stackNodes ((p, m) :: rest)).reverse ++ [c] := by
      simp [stackNodes]
    rw [hshape]
    refine List.chain'_append.mpr ⟨by simpa [stackNodes] using hch,
      List.chain'_singleton c, ?_⟩
    intro x hx y hy
    have hx' : x = p := by
      rw [List.getLast?_reverse] at hx
      have : (stackNodes ((p, m) :: rest)).head? = some p := by
        simp [stackNodes]
      rw [this] at hx
      exact (Option.some_inj.mp hx).symm
    have hy' : c = y := by simpa using hy
    subst hx'
    subst hy'
    exact nbrs_adjB hcn
  · intro fr hfr x hx
    rcases List.mem_cons.mp hfr with rfl | hmem
    · exact hx
    · rcases List.mem_cons.mp hmem with rfl | hmem2
      · exact hrem (p, c :: m) (List.mem_cons_self _ _) x
          (List.mem_cons_of_mem _ hx)
      · exact hrem fr (List.mem_cons_of_mem _ hmem2) x hx
  · intro x hx
    have : x = c ∨ x ∈ stackNodes ((p, m) :: rest) := by
      simpa [stackNodes] using hx
    rcases this with rfl | hmem
    · exact nbrs_mem_allLabels (s := s) hcn
    · exact hlab x (by simpa [stackNodes] using hmem)

lemma dfsAux_zero (g : MGraph) (stack : List (String × List String))
    (acc : List (List String)) : dfsAux g 0 stack acc = acc := rfl

lemma dfsAux_nilstack (g : MGraph) (n : ℕ) (acc : List (List String)) :
    dfsAux g (n + 1) [] acc = acc := rfl

lemma dfsAux_pop (g : MGraph) (n : ℕ) (parent : String)
    (rest : List (String × List String)) (acc : List (List String)) :
    dfsAux g (n + 1) ((parent, []) :: rest) acc = dfsAux g n rest acc := rfl

lemma dfsAux_cons (g : MGraph) (n : ℕ) (parent child : String)
    (more : List String) (rest : List (String × List String))
    (acc : List (List String)) :
    dfsAux g (n + 1) ((parent, child :: more) :: rest) acc =
      (if child ∈ (stackNodes ((parent, more) :: rest)).reverse then
        if (stackNodes ((parent, more) :: rest)).reverse.indexOf child
            < (stackNodes ((parent, more) :: rest)).reverse.length - 2 then
          dfsAux g n ((parent, more) :: rest)
            (setInsert acc (getHashableCycle
              ((stackNodes ((parent, more) :: rest)).reverse.drop
                ((stackNodes ((parent, more) :: rest)).reverse.indexOf child))))
        else dfsAux g n ((parent, more) :: rest) acc
      else dfsAux g n ((child, nbrs g child) :: (parent, more) :: rest) acc) :=
  rfl

/-- A slice `cycle_stack[i:]` recorded by the DFS is a genuine simple cycle
of the graph: its nodes are the tail of the current walk, consecutive ones
are adjacent, and the walk's top (`parent`) is adjacent to `child`, which
closes the loop. -/
lemma recorded_isCycle {g : MGraph} {s parent child : String}
    {more : List String} {rest : List (String × List String)}
    (hgs : goodStack g s ((parent, child :: more) :: rest))
    (hmem : child ∈ (stackNodes ((parent, more) :: rest)).reverse)
    (hidx : (stackNodes ((parent, more) :: rest)).reverse.indexOf child
      < (stackNodes ((parent, more) :: rest)).reverse.length - 2) :
    IsCycle g ((stackNodes ((parent, more) :: rest)).reverse.drop
      ((stackNodes ((parent, more) :: rest)).reverse.indexOf child)) := by
  obtain ⟨hnd, hch, hrem, _⟩ := hgs
  have hsn : stackNodes ((parent, child :: more) :: rest)
      = stackNodes ((parent, more) :: rest) := by simp [stackNodes]
  rw [hsn] at hnd hch
  set cpy := (stackNodes ((parent, more) :: rest)).reverse with hcpy
  set i := cpy.indexOf child with hi
  have hilt : i < cpy.length := List.indexOf_lt_length.mpr hmem
  have hndr : cpy.Nodup := by
    rw [hcpy]
    exact List.nodup_reverse.mpr hnd
  have hchc : List.Chain' (AdjP g) cpy := hch
  have hlen3 : 3 ≤ (cpy.drop i).length := by
    rw [List.length_drop]
    omega
  have hndseg : (cpy.drop i).Nodup := (List.drop_sublist i cpy).nodup hndr
  have hchseg : List.Chain' (AdjP g) (cpy.drop i) := by
    have := hchc
    rw [← List.take_append_drop i cpy] at this
    exact (List.chain'_append.mp this).2.1
  have hhead : (cpy.drop i).head? = some child := by
    rw [List.head?_drop]
    rw [List.getElem?_eq_getElem hilt]
    have hgi := List.indexOf_get (l := cpy) (a := child)
      (List.indexOf_lt_length.mpr hmem)
    simp only [List.get_eq_getElem] at hgi
    exact congrArg some hgi
  have hlast : (cpy.drop i).getLast? = some parent := by
    rw [List.getLast?_eq_getElem?]
    rw [List.getElem?_drop]
    have harith : i + ((cpy.drop i).length - 1) = cpy.length - 1 := by
      rw [List.length_drop]
      omega
    rw [harith]
    have : cpy[cpy.length - 1]? = cpy.getLast? := by
      rw [List.getLast?_eq_getElem?]
    rw [this, hcpy, List.getLast?_reverse]
    simp [stackNodes]
  have hadjpc : AdjP g parent child :=
    nbrs_adjB (hrem (parent, child :: more) (List.mem_cons_self _ _) child
      (List.mem_cons_self _ _))
  refine ⟨hlen3, hndseg, ?_⟩
  cases hseg : cpy.drop i with
  | nil => rw [hseg] at hlen3; simp at hlen3
  | cons h1 t1 =>
      have hh1 : h1 = child := by
        rw [hseg] at hhead
        simpa using hhead
      have htake : ((h1 :: t1).take 1) = [h1] := by simp
      rw [htake]
      refine List.chain'_append.mpr ⟨by rw [← hseg]; exact hchseg,
        List.chain'_singleton h1, ?_⟩
      intro x hx y hy
      have hx' : x = parent := by
        rw [← hseg] at hx
        rw [hlast] at hx
        exact (Option.some_inj.mp hx).symm
      have hy' : h1 = y := by simpa using hy
      subst hx'
      subst hy'
      rw [hh1]
      exact hadjpc

lemma setInsert_isCycle {g : MGraph} {acc : List (List String)}
    {x : List String} (hacc : ∀ c ∈ acc, IsCycle g c) (hx : IsCycle g x) :
    ∀ c ∈ setInsert acc x, IsCycle g c := by
  intro c hc
  unfold setInsert at hc
  split at hc
  · exact hacc c hc
  · rcases List.mem_append.mp hc with h1 | h2
    · exact hacc c h1
    · exact (List.mem_singleton.mp h2) ▸ hx

/-- DFS soundness: everything the DFS accumulates is a simple cycle of the
graph (on at least three distinct nodes). -/
lemma dfsAux_sound (g : MGraph) (s : String) :
    ∀ fuel stack acc, goodStack g s stack →
      (∀ c ∈ acc, IsCycle g c) →
      ∀ c ∈ dfsAux g fuel stack acc, IsCycle g c := by
  intro fuel
  induction fuel with
  | zero =>
      intro stack acc _ hacc c hc
      rw [dfsAux_zero] at hc
      exact hacc c hc
  | succ n ih =>
      intro stack acc hgs hacc c hc
      match stack with
      | [] =>
          rw [dfsAux_nilstack] at hc
          exact hacc c hc
      | (parent, []) :: rest =>
          rw [dfsAux_pop] at hc
          exact ih rest acc (goodStack_pop hgs) hacc c hc
      | (parent, child :: more) :: rest =>
          rw [dfsAux_cons] at hc
          split at hc
          · split at hc
            · refine ih _ _ (goodStack_consume hgs) ?_ c hc
              exact setInsert_isCycle hacc
                (getHashableCycle_isCycle (by
                  apply recorded_isCycle hgs <;> assumption))
            · exact ih _ _ (goodStack_consume hgs) hacc c hc
          · refine ih _ _ ?_ hacc c hc
            rename_i hns
            exact goodStack_push hgs
              (fun hmem => hns (List.mem_reverse.mpr hmem))

/-- A "lasso" from the walk `p` (in Python `cycle_stack` order): some
simple extension of `p` eventually steps back onto the walk at depth at
least two below the top — exactly the situation in which the DFS records a
cycle. -/
inductive LassoFrom (g : MGraph) : List String → Prop
  | record {p : List String} {t : String} :
      adjB g (p.getLastD "") t = true → t ∈ p.dropLast.dropLast →
      LassoFrom g p
  | extend {p : List String} {c : String} :
      adjB g (p.getLastD "") c = true → c ∉ p → LassoFrom g (p ++ [c]) →
      LassoFrom g p

/-- A record is still reachable from walk `p` using only the unconsumed
children `rem` of the top frame. -/
def Recordable (g : MGraph) (p : List String) (rem : List String) : Prop :=
  ∃ c ∈ rem, c ∈ p.dropLast.dropLast ∨ (c ∉ p ∧ LassoFrom g (p ++ [c]))

/-- No frame of the DFS stack can still produce a record. -/
def NoRec (g : MGraph) : List (String × List String) → Prop
  | [] => True
  | fr :: rest =>
      ¬ Recordable g (stackNodes (fr :: rest)).reverse fr.2 ∧ NoRec g rest

lemma mem_take_iff_indexOf_lt {α : Type} [DecidableEq α] :
    ∀ (l : List α) (c : α), c ∈ l → ∀ k, (c ∈ l.take k ↔ l.indexOf c < k) := by
  intro l
  induction l with
  | nil => intro c hc; cases hc
  | cons h t ih =>
      intro c hc k
      by_cases hch : c = h
      · subst hch
        rw [List.indexOf_cons_self]
        cases k with
        | zero => simp
        | succ k => simp
      · have hct : c ∈ t := by
          rcases List.mem_cons.mp hc with rfl | hm
          · exact absurd rfl hch
          · exact hm
        have hidx : (h :: t).indexOf c = t.indexOf c + 1 := by
          rw [List.indexOf_cons]
          have : (c == h) = false := beq_eq_false_iff_ne.mpr hch
          rw [show (h == c) = false from beq_eq_false_iff_ne.mpr
            (fun he => hch he.symm)]
          simp
        rw [hidx]
        cases k with
        | zero => simp
        | succ k =>
            rw [List.take_cons_succ]
            simp only [List.mem_cons]
            constructor
            · rintro (rfl | hm)
              · exact absurd rfl hch
              · exact Nat.succ_lt_succ ((ih c hct k).mp hm)
            · intro hlt
              right
              exact (ih c hct k).mpr (by omega)

lemma dropLast_dropLast_eq_take {α : Type} (l : List α) :
    l.dropLast.dropLast = l.take (l.length - 2) := by
  rw [List.dropLast_eq_take l, List.dropLast_eq_take, List.take_take,
    List.length_take]
  congr 1
  omega

lemma goodStack_length_le {g : MGraph} {s : String}
    {stack : List (String × List String)} (h : goodStack g s stack) :
    stack.length ≤ (allLabels g s).length := by
  have hnd := h.1
  have hsub : stackNodes stack ⊆ allLabels g s := fun x hx => h.2.2.2 x hx
  have := (List.subperm_of_subset hnd hsub).length_le
  simpa [stackNodes] using this

lemma dfsAux_acc_le (g : MGraph) :
    ∀ fuel stack acc, acc.length ≤ (dfsAux g fuel stack acc).length := by
  intro fuel
  induction fuel with
  | zero => intro stack acc; rw [dfsAux_zero]
  | succ n ih =>
      intro stack acc
      match stack with
      | [] => rw [dfsAux_nilstack]
      | (parent, []) :: rest =>
          rw [dfsAux_pop]
          exact ih rest acc
      | (parent, child :: more) :: rest =>
          rw [dfsAux_cons]
          split
          · split
            · refine le_trans ?_ (ih _ _)
              unfold setInsert
              split
              · exact le_rfl
              · simp
            · exact ih _ _
          · exact ih _ _

lemma stackMeas_nil (B d : ℕ) : stackMeas B d [] = 0 := rfl

lemma stackMeas_cons (B d : ℕ) (v : String) (rem : List String)
    (rest : List (String × List String)) :
    stackMeas B d ((v, rem) :: rest)
      = rem.length * B ^ d + 1 + stackMeas B (d + 1) rest := rfl

lemma NoRec_cons (g : MGraph) (fr : String × List String)
    (rest : List (String × List String)) :
    NoRec g (fr :: rest) ↔
      (¬ Recordable g (stackNodes (fr :: rest)).reverse fr.2 ∧ NoRec g rest) :=
  Iff.rfl

lemma dfsAux_ne_nil (g : MGraph) (fuel : ℕ)
    (stack : List (String × List String)) (acc : List (List String))
    (h : acc ≠ []) : dfsAux g fuel stack acc ≠ [] := by
  intro hq
  have hlen := dfsAux_acc_le g fuel stack acc
  rw [hq] at hlen
  simp only [List.length_nil, Nat.le_zero] at hlen
  exact h (List.length_eq_zero.mp hlen)

/-- DFS completeness invariant: a completed run that accumulated nothing
leaves no recordable lasso at any stack frame. -/
lemma dfsAux_complete (g : MGraph) (s : String) (B : ℕ)
    (hB : ∀ v, (nbrs g v).length + 2 ≤ B) (D : ℕ)
    (hD : (allLabels g s).length ≤ D) :
    ∀ fuel stack, goodStack g s stack →
      stackMeas B (D - stack.length) stack < fuel →
      dfsAux g fuel stack [] = [] → NoRec g stack := by
  have hB2 : 2 ≤ B := le_trans (by omega) (hB "")
  intro fuel
  induction fuel with
  | zero =>
      intro stack _ hm _
      exact absurd hm (Nat.not_lt_zero _)
  | succ n ih =>
      intro stack hgs hm hres
      match stack with
      | [] => exact trivial
      | (p, []) :: rest =>
          rw [dfsAux_pop] at hres
          have hle : rest.length + 1 ≤ D := by
            have := goodStack_length_le hgs
            simp only [List.length_cons] at this
            omega
          have hmr : stackMeas B (D - rest.length) rest < n := by
            simp only [List.length_cons] at hm
            rw [stackMeas_cons] at hm
            have hexp : D - rest.length = (D - (rest.length + 1)) + 1 := by
              omega
            rw [hexp]
            omega
          have hrec : NoRec g rest := ih rest (goodStack_pop hgs) hmr hres
          rw [NoRec_cons]
          exact ⟨fun ⟨c, hc, _⟩ => absurd hc (List.not_mem_nil c), hrec⟩
      | (p, c :: m) :: rest =>
          rw [dfsAux_cons] at hres
          have hlen1 : ((p, c :: m) :: rest).length = rest.length + 1 := rfl
          have hle : rest.length + 1 ≤ D := by
            have := goodStack_length_le hgs
            simp only [List.length_cons] at this
            omega
          have hY : 1 ≤ B ^ (D - (rest.length + 1)) :=
            Nat.one_le_pow _ _ (by omega)
          split at hres
          · rename_i hmem
            split at hres
            · exact absurd hres (dfsAux_ne_nil _ _ _ _ (by simp [setInsert]))
            · rename_i hidx
              have hmr : stackMeas B (D - ((p, m) :: rest).length)
                  ((p, m) :: rest) < n := by
                simp only [List.length_cons] at hm ⊢
                rw [stackMeas_cons] at hm ⊢
                simp only [List.length_cons] at hm
                rw [Nat.succ_mul] at hm
                omega
              have hNR := ih _ (goodStack_consume hgs) hmr hres
              rw [NoRec_cons] at hNR ⊢
              refine ⟨?_, hNR.2⟩
              rintro ⟨c', hc', hor⟩
              rcases List.mem_cons.mp hc' with rfl | hcm
              · rcases hor with hin | ⟨hnot, _⟩
                · rw [dropLast_dropLast_eq_take] at hin
                  exact hidx ((mem_take_iff_indexOf_lt _ _ hmem _).mp hin)
                · exact hnot hmem
              · exact hNR.1 ⟨c', hcm, hor⟩
          · rename_i hnmem
            have hcnot : c ∉ stackNodes ((p, m) :: rest) :=
              fun hmm => hnmem (List.mem_reverse.mpr hmm)
            have hgs' := goodStack_push hgs hcnot
            have hle' : rest.length + 2 ≤ D := by
              have := goodStack_length_le hgs'
              simp only [List.length_cons] at this
              omega
            have hmr : stackMeas B
                (D - ((c, nbrs g c) :: (p, m) :: rest).length)
                ((c, nbrs g c) :: (p, m) :: rest) < n := by
              simp only [List.length_cons] at hm ⊢
              rw [stackMeas_cons, stackMeas_cons]
              rw [stackMeas_cons] at hm
              simp only [List.length_cons] at hm
              have hnorm : rest.length + 1 + 1 = rest.length + 2 := by omega
              rw [hnorm]
              have hexp : D - (rest.length + 1)
                  = (D - (rest.length + 2)) + 1 := by omega
              rw [hexp] at hm
              rw [pow_succ] at hm ⊢
              rw [Nat.succ_mul] at hm
              have h1 : (nbrs g c).length * B ^ (D - (rest.length + 2))
                  + 2 * B ^ (D - (rest.length + 2))
                  ≤ B ^ (D - (rest.length + 2)) * B := by
                rw [mul_comm (B ^ (D - (rest.length + 2))) B]
                rw [← Nat.add_mul]
                exact Nat.mul_le_mul_right _ (hB c)
              have hY2 : 1 ≤ B ^ (D - (rest.length + 2)) :=
                Nat.one_le_pow _ _ (by omega)
              omega
            have hNR := ih _ hgs' hmr hres
            rw [NoRec_cons] at hNR
            have hsn : stackNodes ((c, nbrs g c) :: (p, m) :: rest)
                = c :: stackNodes ((p, m) :: rest) := rfl
            rw [hsn, List.reverse_cons] at hNR
            have hNR2 := hNR.2
            rw [NoRec_cons] at hNR2 ⊢
            refine ⟨?_, hNR2.2⟩
            rintro ⟨c', hc', hor⟩
            have hgl : ∀ (l : List String) (x : String),
                (l ++ [x]).getLastD "" = x := by
              intro l x
              simp [List.getLastD_eq_getLast?]
            rcases List.mem_cons.mp hc' with hceq | hcm
            · subst hceq
              rcases hor with hin | ⟨hnot, hlasso⟩
              · exact hnmem ((List.dropLast_sublist _).subset
                  ((List.dropLast_sublist _).subset hin))
              · cases hlasso with
                | record hadj hmem2 =>
                    rename_i t
                    apply hNR.1
                    rw [hgl] at hadj
                    exact ⟨t, adjB_nbrs hadj, Or.inl hmem2⟩
                | extend hadj hni hl2 =>
                    rename_i c2
                    apply hNR.1
                    rw [hgl] at hadj
                    exact ⟨c2, adjB_nbrs hadj, Or.inr ⟨hni, hl2⟩⟩
            · exact hNR2.1 ⟨c', hcm, hor⟩

lemma chain'_take {α : Type} {R : α → α → Prop} {l : List α}
    (h : List.Chain' R l) (n : ℕ) : List.Chain' R (l.take n) := by
  have := h
  rw [← List.take_append_drop n l] at this
  exact (List.chain'_append.mp this).1

lemma isCycle_chain {g : MGraph} {c : List String} (h : IsCycle g c) :
    List.Chain' (AdjP g) c :=
  (List.chain'_append.mp ((List.take_append_drop c.length (c ++ c.take 1))
    ▸ h.2.2 : List.Chain' (AdjP g) (c ++ c.take 1))).1

lemma isCycle_closing {g : MGraph} {c : List String} (h : IsCycle g c) :
    AdjP g (c.getLastD "") (c.headD "") := by
  obtain ⟨hlen, _, hch⟩ := h
  match c, hlen with
  | a :: t, _ =>
      have htake : (a :: t).take 1 = [a] := by simp
      rw [htake] at hch
      have hb := (List.chain'_append.mp hch).2.2
      have hlast : (a :: t).getLast? = some ((a :: t).getLast (by simp)) :=
        List.getLast?_eq_getLast _ (by simp)
      have := hb ((a :: t).getLast (by simp)) hlast a (by simp)
      simpa [List.getLastD_eq_getLast?, hlast] using this

lemma rotate_head_opt {α : Type} {c : List α} {i : ℕ} (h : i < c.length) :
    (c.rotate i).head? = some (c.get ⟨i, h⟩) := by
  rw [List.rotate_eq_drop_append_take (le_of_lt h)]
  have hdne : c.drop i ≠ [] := by
    intro hq
    have := congrArg List.length hq
    simp only [List.length_drop, List.length_nil] at this
    omega
  cases hd : c.drop i with
  | nil => exact absurd hd hdne
  | cons x xs =>
      have hsome : (c.drop i).head? = some x := by rw [hd]; rfl
      rw [List.head?_drop, List.getElem?_eq_getElem h] at hsome
      simp only [hd, List.cons_append, List.head?_cons]
      rw [List.get_eq_getElem]
      exact hsome.symm

/-- Everything `find_all_cycles` returns is a simple cycle of the graph. -/
lemma findAllCycles_sound {g : MGraph} {s : String} :
    ∀ c ∈ findAllCycles g s, IsCycle g c := by
  intro c hc
  rw [findAllCycles, sortByLen_mem] at hc
  exact dfsAux_sound g s _ _ _ (goodStack_init g s) (by intro x hx; cases hx)
    c hc

lemma findAllCycles_nil_noLasso {g : MGraph} {s : String}
    (h : findAllCycles g s = []) : ¬ LassoFrom g [s] := by
  have hdfs : dfsAux g (dfsFuel g s) [(s, nbrs g s)] [] = [] := by
    have hlen : (findAllCycles g s).length
        = (dfsAux g (dfsFuel g s) [(s, nbrs g s)] []).length := by
      rw [findAllCycles]
      exact sortByLen_length _
    rw [h] at hlen
    simp only [List.length_nil] at hlen
    exact List.length_eq_zero.mp hlen.symm
  set B := g.edges.length + 2 with hBdef
  set D := (allLabels g s).length with hDdef
  have hB : ∀ v, (nbrs g v).length + 2 ≤ B := by
    intro v
    have := nbrs_length_le (g := g) v
    omega
  have hD1 : 1 ≤ D := by
    have : s ∈ allLabels g s := by
      rw [allLabels, pyDedupBy_id_mem]
      exact List.mem_cons_self _ _
    have := List.length_pos.mpr (List.ne_nil_of_mem this)
    omega
  have hmeas : stackMeas B (D - ([(s, nbrs g s)] : List _).length)
      [(s, nbrs g s)] < dfsFuel g s := by
    simp only [List.length_singleton]
    rw [stackMeas_cons, stackMeas_nil]
    have hexp : D - 1 + 1 = D := by omega
    have hstep : (nbrs g s).length * B ^ (D - 1) + 2 * B ^ (D - 1)
        ≤ B ^ (D - 1) * B := by
      rw [mul_comm (B ^ (D - 1)) B, ← Nat.add_mul]
      exact Nat.mul_le_mul_right _ (hB s)
    have hpow : B ^ (D - 1) * B = B ^ D := by
      rw [← pow_succ, hexp]
    have hY : 1 ≤ B ^ (D - 1) := Nat.one_le_pow _ _ (by omega)
    have hmono : B ^ D ≤ B ^ (D + 1) :=
      Nat.pow_le_pow_right (by omega) (by omega)
    rw [dfsFuel, ← hBdef, ← hDdef]
    omega
  have hnr := dfsAux_complete g s B hB D le_rfl (dfsFuel g s)
    [(s, nbrs g s)] (goodStack_init g s) hmeas hdfs
  rw [NoRec_cons] at hnr
  intro hlasso
  apply hnr.1
  cases hlasso with
  | record hadj hmem => cases hmem
  | extend hadj hni hl2 =>
      rename_i c
      have hgl : (([s] : List String).getLastD "") = s := rfl
      rw [hgl] at hadj
      have hsn : (stackNodes [(s, nbrs g s)]).reverse = [s] := rfl
      rw [hsn]
      exact ⟨c, adjB_nbrs hadj, Or.inr ⟨hni, hl2⟩⟩

lemma head?_take {α : Type} (p : List α) (n : ℕ) (hn : 0 < n) :
    (p.take n).head? = p.head? := by
  cases p with
  | nil => simp
  | cons a t =>
      cases n with
      | zero => omega
      | succ n => simp

lemma take_indexOf_getLast {α : Type} [DecidableEq α] (p : List α) (w : α)
    (hw : w ∈ p) : (p.take (p.indexOf w + 1)).getLast? = some w := by
  have hwlt := List.indexOf_lt_length.mpr hw
  rw [List.getLast?_eq_getElem?]
  have hlen : (p.take (p.indexOf w + 1)).length = p.indexOf w + 1 := by
    rw [List.length_take]
    omega
  rw [hlen]
  simp only [Nat.add_sub_cancel]
  rw [List.getElem?_eq_getElem (by rw [hlen]; omega)]
  rw [List.getElem_take]
  have hg := List.indexOf_get (l := p) (a := w) hwlt
  simp only [List.get_eq_getElem] at hg
  rw [hg]

lemma head?_append_left {α : Type} (p : List α) (r : List α) (hp : p ≠ []) :
    (p ++ r).head? = p.head? := by
  cases p with
  | nil => exact absurd rfl hp
  | cons a t => simp

/-- Reachability yields a simple (duplicate-free) adjacency path. -/
lemma reach_simple_path {g : MGraph} {s : String} :
    ∀ {v}, Reach g s v → ∃ p, List.Chain' (AdjP g) p ∧ p.Nodup ∧
      p.head? = some s ∧ p.getLast? = some v := by
  intro v h
  induction h with
  | refl => exact ⟨[s], List.chain'_singleton s, by simp, rfl, rfl⟩
  | @step u w hr hadj ih =>
      obtain ⟨p, hch, hnd, hh, hl⟩ := ih
      have hpne : p ≠ [] := by
        intro hq
        rw [hq] at hh
        cases hh
      by_cases hw : w ∈ p
      · refine ⟨p.take (p.indexOf w + 1), chain'_take hch _,
          (List.take_sublist _ _).nodup hnd, ?_, take_indexOf_getLast p w hw⟩
        rw [head?_take p _ (by omega)]
        exact hh
      · refine ⟨p ++ [w], ?_, ?_, ?_, List.getLast?_concat _⟩
        · refine List.chain'_append.mpr ⟨hch, List.chain'_singleton w, ?_⟩
          intro x hx y hy
          have hx' : x = u := by
            rw [hl] at hx
            exact (Option.some_inj.mp hx).symm
          have hy' : w = y := by simpa using hy
          subst hx'
          subst hy'
          exact hadj
        · rw [List.nodup_append]
          refine ⟨hnd, by simp, ?_⟩
          intro a ha hamem
          rcases List.mem_singleton.mp hamem with rfl
          exact hw ha
        · rw [head?_append_left p [w] hpne]
          exact hh

/-- If a simple chain starting at `p` ends adjacent to a node at depth at
least two below its end, then `p` has a lasso. -/
lemma lasso_of_path {g : MGraph} {t : String} :
    ∀ (r p : List String), p ≠ [] →
      List.Chain' (AdjP g) (p ++ r) → (p ++ r).Nodup →
      adjB g ((p ++ r).getLastD "") t = true →
      t ∈ (p ++ r).dropLast.dropLast → LassoFrom g p := by
  intro r
  induction r with
  | nil =>
      intro p hp hch hnd hadj hmem
      rw [List.append_nil] at hadj hmem
      exact LassoFrom.record hadj hmem
  | cons c r' ih =>
      intro p hp hch hnd hadj hmem
      have hassoc : p ++ c :: r' = (p ++ [c]) ++ r' := by simp
      refine LassoFrom.extend (c := c) ?_ ?_ ?_
      · obtain ⟨x, hx⟩ : ∃ x, p.getLast? = some x := by
          cases p with
          | nil => exact absurd rfl hp
          | cons a tl => exact ⟨_, List.getLast?_eq_getLast _ (by simp)⟩
        have hb := (List.chain'_append.mp hch).2.2
        have hxc := hb x hx c (by simp)
        rw [List.getLastD_eq_getLast?, hx]
        exact hxc
      · intro hcp
        have hsplit := List.nodup_append.mp hnd
        exact hsplit.2.2 hcp (List.mem_cons_self c r')
      · refine ih (p ++ [c]) (by simp) ?_ ?_ ?_ ?_
        · rw [← hassoc]
          exact hch
        · rw [← hassoc]
          exact hnd
        · rw [← hassoc]
          exact hadj
        · rw [← hassoc]
          exact hmem

lemma mem_getLast?_some {α : Type} {l : List α} {a : α}
    (h : l.getLast? = some a) : a ∈ l := by
  have hm : a ∈ l.getLast? := by rw [h]; rfl
  obtain ⟨hne, rfl⟩ := List.mem_getLast?_eq_getLast hm
  exact List.getLast_mem hne

lemma take_getLast {α : Type} (p : List α) (k : ℕ) (hk : k < p.length) :
    (p.take (k + 1)).getLast? = some (p.get ⟨k, hk⟩) := by
  rw [List.getLast?_eq_getElem?]
  have hlen : (p.take (k + 1)).length = k + 1 := by
    rw [List.length_take]
    omega
  rw [hlen]
  simp only [Nat.add_sub_cancel]
  rw [List.getElem?_eq_getElem (by rw [hlen]; omega)]
  rw [List.getElem_take]
  rfl

/-- A ≥3-node simple cycle touching the component of `s` yields a lasso
from `[s]`: follow a simple path until it first meets the cycle, then walk
once around the cycle. -/
lemma lasso_of_reachCycle {g : MGraph} {s : String} (h : ReachCycle g s) :
    LassoFrom g [s] := by
  obtain ⟨c, hcyc, v, hvc, hreach⟩ := h
  obtain ⟨p, hch, hnd, hh, hl⟩ := reach_simple_path hreach
  have hvp : v ∈ p := mem_getLast?_some hl
  have hex : ∃ y ∈ p, (fun y => decide (y ∈ c)) y = true := ⟨v, hvp, by simpa⟩
  have hjlt : p.findIdx (fun y => decide (y ∈ c)) < p.length :=
    List.findIdx_lt_length_of_exists hex
  set j := p.findIdx (fun y => decide (y ∈ c)) with hj
  set x := p.get ⟨j, hjlt⟩ with hx
  have hxc : x ∈ c := by
    have hfi := List.findIdx_get (w := hjlt)
    simp only [decide_eq_true_eq] at hfi
    exact hfi
  have hqnotc : ∀ y ∈ p.take j, y ∉ c := by
    intro y hy hyc
    obtain ⟨i, hilt, hiy⟩ := List.getElem_of_mem hy
    have hij : i < j := by
      have h2 := hilt
      rw [List.length_take] at h2
      omega
    have hij' : i < List.findIdx (fun y => decide (y ∈ c)) p := hj ▸ hij
    have hnp := List.not_of_lt_findIdx hij' 
    rw [List.getElem_take] at hiy
    rw [hiy] at hnp
    simp only [decide_eq_false_iff_not] at hnp
    exact hnp hyc
  have hxcl : c.indexOf x < c.length := List.indexOf_lt_length.mpr hxc
  set c' := c.rotate (c.indexOf x) with hc'
  have hcyc' : IsCycle g c' := isCycle_rotate hcyc _
  have hc'h : c'.head? = some x := by
    rw [hc', rotate_head_opt hxcl]
    exact congrArg some (List.indexOf_get hxcl)
  obtain ⟨ctail, hctail⟩ : ∃ tl, c' = x :: tl :=
    ⟨c'.tail, (List.cons_head?_tail hc'h).symm⟩
  set L := p.take j ++ c' with hL
  have hc'len : 3 ≤ c'.length := hcyc'.1
  have hLlen : L.length = j + c'.length := by
    rw [hL, List.length_append, List.length_take]
    omega
  have hLhead : L.head? = some s := by
    by_cases hj0 : j = 0
    · rw [hL, hj0]
      simp only [List.take_zero, List.nil_append]
      rw [hctail]
      have hps : p.get ⟨0, by omega⟩ = s := by
        obtain ⟨pt, hpt⟩ : ∃ tl, p = s :: tl :=
          ⟨p.tail, (List.cons_head?_tail hh).symm⟩
        subst hpt
        rfl
      have hxs : x = s := by
        rw [hx]
        have hfin : (⟨j, hjlt⟩ : Fin p.length) = ⟨0, by omega⟩ :=
          Fin.ext hj0
        rw [hfin]
        exact hps
      rw [hxs]
      rfl
    · have htne : p.take j ≠ [] := by
        intro hq
        have := congrArg List.length hq
        rw [List.length_take] at this
        simp only [List.length_nil] at this
        omega
      rw [hL, head?_append_left _ _ htne, head?_take _ _ (by omega)]
      exact hh
  have hchL : List.Chain' (AdjP g) L := by
    rw [hL]
    refine List.chain'_append.mpr ⟨chain'_take hch j, isCycle_chain hcyc', ?_⟩
    intro a ha b hb
    have hbx : b = x := by
      rw [hc'h] at hb
      exact (Option.some_inj.mp hb).symm
    subst hbx
    cases hjz : j with
    | zero =>
        rw [hjz] at ha
        simp at ha
    | succ k =>
        rw [hjz] at ha
        have hklt : k < p.length := by omega
        rw [take_getLast p k hklt] at ha
        have hax : a = p.get ⟨k, hklt⟩ := (Option.some_inj.mp ha).symm
        subst hax
        have hadj := List.chain'_iff_get.mp hch k (by omega)
        have hgx : p.get ⟨k + 1, by omega⟩ = x := by
          rw [hx]
          congr 1
          exact Fin.ext (by simp only [Fin.val_mk]; omega)
        rw [hgx] at hadj
        exact hadj
  have hndL : L.Nodup := by
    rw [hL, List.nodup_append]
    refine ⟨(List.take_sublist _ _).nodup hnd, hcyc'.2.1, ?_⟩
    intro a ha hac
    exact hqnotc a ha (List.mem_rotate.mp (hc' ▸ hac))
  have hlastL : adjB g (L.getLastD "") x = true := by
    have hgl : L.getLastD "" = c'.getLastD "" := by
      rw [List.getLastD_eq_getLast?, List.getLastD_eq_getLast?, hL,
        List.getLast?_append_of_ne_nil]
      rw [hctail]
      simp
    rw [hgl]
    have hclose := isCycle_closing hcyc'
    have hhd : c'.headD "" = x := by
      rw [hctail]
      rfl
    rw [hhd] at hclose
    exact hclose
  have hlj : (p.take j).length = j := by
    rw [List.length_take]
    omega
  have hLj : L[j]? = some x := by
    rw [hL]
    rw [List.getElem?_append_right (le_of_eq hlj)]
    rw [hlj]
    simp only [Nat.sub_self]
    rw [hctail]
    simp
  have hmemL : x ∈ L.dropLast.dropLast := by
    rw [dropLast_dropLast_eq_take]
    obtain ⟨hjh, hje⟩ := (List.getElem?_eq_some).mp hLj
    have hxmem : x ∈ L := hje ▸ List.getElem_mem hjh
    rw [mem_take_iff_indexOf_lt L x hxmem]
    have hidxle : L.indexOf x ≤ j := by
      have hxtake : x ∈ L.take (j + 1) := by
        have hq : (L.take (j + 1))[j]? = L[j]? := by
          rw [List.getElem?_take]
          simp
        rw [hLj] at hq
        obtain ⟨hh2, he2⟩ := (List.getElem?_eq_some).mp hq
        exact he2 ▸ List.getElem_mem hh2
      have := (mem_take_iff_indexOf_lt L x hxmem (j + 1)).mp hxtake
      omega
    omega
  have hsl : [s] ++ L.tail = L := by
    rw [List.singleton_append]
    exact List.cons_head?_tail hLhead
  refine lasso_of_path (t := x) L.tail [s] (by simp) ?_ ?_ ?_ ?_
  · rw [hsl]
    exact hchL
  · rw [hsl]
    exact hndL
  · rw [hsl]
    exact hlastL
  · rw [hsl]
    exact hmemL

/-- `find_all_cycles` completeness: an empty result means no ≥3-node simple
cycle is reachable from the start node. -/
lemma findAllCycles_nil_noReachCycle {g : MGraph} {s : String}
    (h : findAllCycles g s = []) : ¬ ReachCycle g s :=
  fun hrc => findAllCycles_nil_noLasso h (lasso_of_reachCycle hrc)

lemma removeStep_edges (g : MGraph) (u v : String) :
    (removeStep g u v).edges = g.edges.filter (fun e => !(sameEnds e u v)) :=
  rfl

lemma removeStep_nodeKeys (g : MGraph) (u v : String) :
    (removeStep g u v).nodes.map Prod.fst = g.nodes.map Prod.fst := by
  show (((removeAllEdges g u v).nodes.map _).map _).map Prod.fst
      = g.nodes.map Prod.fst
  rw [List.map_map, List.map_map]
  rw [show (removeAllEdges g u v).nodes = g.nodes from rfl]
  apply List.map_congr_left
  intro pr _
  simp only [Function.comp_apply]
  split <;> (try split) <;> rfl

lemma removeStep_edges_lt {g : MGraph} {u v : String}
    (h : adjB g u v = true) :
    (removeStep g u v).edges.length < g.edges.length := by
  rw [removeStep_edges]
  rcases List.any_eq_true.mp h with ⟨e, he, hse⟩
  exact List.length_filter_lt_length_iff_exists.mpr ⟨e, he, by simp [hse]⟩

/-- `u` and `v` are cyclically adjacent on `c`: some rotation starts at one
of them and ends at the other. -/
def PairOnCycle (c : List String) (u v : String) : Prop :=
  (∃ k d, c.rotate k = u :: (d ++ [v])) ∨ (∃ k d, c.rotate k = v :: (d ++ [u]))

lemma adjB_removeStep_of_ne {g : MGraph} {u v a b : String}
    (h : adjB g a b = true)
    (hne : ¬((a = u ∧ b = v) ∨ (a = v ∧ b = u))) :
    adjB (removeStep g u v) a b = true := by
  rcases List.any_eq_true.mp h with ⟨e, he, hse⟩
  refine List.any_eq_true.mpr ⟨e, ?_, hse⟩
  rw [removeStep_edges]
  rw [List.mem_filter]
  refine ⟨he, ?_⟩
  simp only [Bool.not_eq_true', Bool.not_eq_true]
  by_contra hq
  rw [Bool.not_eq_false] at hq
  simp only [sameEnds, Bool.or_eq_true, Bool.and_eq_true, beq_iff_eq] at hse hq
  apply hne
  rcases hse with ⟨h1, h2⟩ | ⟨h1, h2⟩ <;> rcases hq with ⟨h3, h4⟩ | ⟨h3, h4⟩
  · exact Or.inl ⟨h1.symm.trans h3, h2.symm.trans h4⟩
  · exact Or.inr ⟨h1.symm.trans h3, h2.symm.trans h4⟩
  · exact Or.inr ⟨h2.symm.trans h4, h1.symm.trans h3⟩
  · exact Or.inl ⟨h2.symm.trans h4, h1.symm.trans h3⟩

/-- The rotation `u :: d ++ [v]` of a ≥3-node simple cycle is still a chain
after all `u`–`v` edges are removed: its consecutive pairs are the cyclic
pairs other than the closing `(v, u)` one, and by `Nodup` none of them is
`{u, v}`. -/
lemma detour_chain {g : MGraph} {u v : String} {c : List String}
    (hcyc : IsCycle g c) {k : ℕ} {d : List String}
    (hrot : c.rotate k = u :: (d ++ [v])) :
    List.Chain' (AdjP (removeStep g u v)) (u :: (d ++ [v])) := by
  have hcyc' : IsCycle g (c.rotate k) := isCycle_rotate hcyc k
  rw [hrot] at hcyc'
  obtain ⟨hlen, hnd, _⟩ := hcyc'
  have hch : List.Chain' (AdjP g) (u :: (d ++ [v])) := by
    have := isCycle_chain (hrot ▸ isCycle_rotate hcyc k)
    exact this
  rw [List.chain'_iff_get] at hch ⊢
  intro i hi
  have hadj := hch i hi
  refine adjB_removeStep_of_ne hadj ?_
  set r := u :: (d ++ [v]) with hr
  have hrlen : r.length = d.length + 2 := by
    rw [hr]
    simp
  have hu0 : r.get ⟨0, by rw [hrlen]; omega⟩ = u := rfl
  have hvlast : r.get ⟨r.length - 1, by rw [hrlen]; omega⟩ = v := by
    have hgl : r.getLast? = some v := by
      rw [hr, show u :: (d ++ [v]) = (u :: d) ++ [v] by simp]
      exact List.getLast?_concat _
    rw [List.getLast?_eq_getElem?] at hgl
    rw [List.get_eq_getElem]
    rw [List.getElem?_eq_getElem (by rw [hrlen]; omega)] at hgl
    exact Option.some_inj.mp hgl
  rintro (⟨hau, hbv⟩ | ⟨hav, hbu⟩)
  · have h0lt : 0 < r.length := by rw [hrlen]; omega
    have hieq : i = 0 := by
      have hq : r.get ⟨i, by omega⟩ = r.get ⟨0, h0lt⟩ := by
        rw [hu0]
        exact hau
      have hfe := (hnd.get_inj_iff).mp hq
      have hfv := congrArg Fin.val hfe
      simpa using hfv
    have h1v : r.get ⟨1, by omega⟩ = v := by
      have hfin : (⟨1, by omega⟩ : Fin r.length) = ⟨i + 1, by omega⟩ :=
        Fin.ext (by simp only [Fin.val_mk]; omega)
      rw [hfin]
      exact hbv
    have hlast1 : (1 : ℕ) = r.length - 1 := by
      have hq : r.get ⟨1, by omega⟩ = r.get ⟨r.length - 1, by omega⟩ := by
        rw [h1v, hvlast]
      have hfe := (hnd.get_inj_iff).mp hq
      have hfv := congrArg Fin.val hfe
      simpa using hfv
    omega
  · have hieq : i = r.length - 1 := by
      have hq : r.get ⟨i, by omega⟩ = r.get ⟨r.length - 1, by omega⟩ := by
        rw [hvlast]
        exact hav
      have hfe := (hnd.get_inj_iff).mp hq
      have hfv := congrArg Fin.val hfe
      simpa using hfv
    omega

lemma adjB_removeStep_comm (g : MGraph) (u v a b : String) :
    adjB (removeStep g u v) a b = adjB (removeStep g v u) a b := by
  have hedges : (removeStep g u v).edges = (removeStep g v u).edges := by
    rw [removeStep_edges, removeStep_edges]
    apply List.filter_congr
    intro e _
    rw [sameEnds_symm]
  rw [adjB, adjB, hedges]

lemma chain_reach_last {g' : MGraph} {s : String} {q : List String}
    (hch : List.Chain' (AdjP g') q) {x y : String}
    (hh : q.head? = some x) (hl : q.getLast? = some y)
    (hr : Reach g' s x) : Reach g' s y := by
  have hq : q = x :: q.tail := (List.cons_head?_tail hh).symm
  rw [hq] at hch hl
  have := reach_of_chain q.tail x hr hch
  have hgl : (x :: q.tail).getLast (by simp) = y := by
    rw [List.getLast?_eq_getLast _ (by simp)] at hl
    exact Option.some_inj.mp hl
  rwa [hgl] at this

lemma pairOnCycle_adjB {g : MGraph} {c : List String} {u v : String}
    (hcyc : IsCycle g c) (hpair : PairOnCycle c u v) :
    adjB g u v = true := by
  rcases hpair with ⟨k, d, hrot⟩ | ⟨k, d, hrot⟩
  · have hcyc' : IsCycle g (c.rotate k) := isCycle_rotate hcyc k
    rw [hrot] at hcyc'
    have hclose := isCycle_closing hcyc'
    have hgl : (u :: (d ++ [v])).getLastD "" = v := by
      rw [show u :: (d ++ [v]) = (u :: d) ++ [v] by simp,
        List.getLastD_eq_getLast?, List.getLast?_concat]
      rfl
    have hhd : (u :: (d ++ [v])).headD "" = u := rfl
    rw [hgl, hhd] at hclose
    rw [adjB_symm]
    exact hclose
  · have hcyc' : IsCycle g (c.rotate k) := isCycle_rotate hcyc k
    rw [hrot] at hcyc'
    have hclose := isCycle_closing hcyc'
    have hgl : (v :: (d ++ [u])).getLastD "" = u := by
      rw [show v :: (d ++ [u]) = (v :: d) ++ [u] by simp,
        List.getLastD_eq_getLast?, List.getLast?_concat]
      rfl
    have hhd : (v :: (d ++ [u])).headD "" = v := rfl
    rw [hgl, hhd] at hclose
    exact hclose

/-- Removing all parallel edges of a pair that lies on a ≥3-node simple
cycle cannot disconnect anything: the rest of the cycle is a detour. -/
lemma reach_removeStep {g : MGraph} {u v : String} {c : List String}
    (hcyc : IsCycle g c) (hpair : PairOnCycle c u v) {s : String} :
    ∀ {w}, Reach g s w → Reach (removeStep g u v) s w := by
  have huv : ∃ q, List.Chain' (AdjP (removeStep g u v)) q ∧
      q.head? = some u ∧ q.getLast? = some v := by
    rcases hpair with ⟨k, d, hrot⟩ | ⟨k, d, hrot⟩
    · refine ⟨u :: (d ++ [v]), detour_chain hcyc hrot, rfl, ?_⟩
      rw [show u :: (d ++ [v]) = (u :: d) ++ [v] by simp]
      exact List.getLast?_concat _
    · have hch := detour_chain (u := v) (v := u) hcyc hrot
      have hch' : List.Chain' (AdjP (removeStep g u v)) (v :: (d ++ [u])) :=
        hch.imp (fun a b hab => by
          unfold AdjP at hab ⊢
          rwa [adjB_removeStep_comm])
      refine ⟨(v :: (d ++ [u])).reverse, ?_, ?_, ?_⟩
      · exact (List.chain'_reverse).mpr
          (hch'.imp (fun _ _ hab => adjP_symm hab))
      · rw [List.head?_reverse]
        rw [show v :: (d ++ [u]) = (v :: d) ++ [u] by simp]
        exact List.getLast?_concat _
      · rw [List.getLast?_reverse]
        rfl
  obtain ⟨q, hqch, hqh, hql⟩ := huv
  have hdet : ∀ a b, ((a = u ∧ b = v) ∨ (a = v ∧ b = u)) →
      Reach (removeStep g u v) s a → Reach (removeStep g u v) s b := by
    rintro a b (⟨rfl, rfl⟩ | ⟨rfl, rfl⟩) hra
    · exact chain_reach_last hqch hqh hql hra
    · refine chain_reach_last (q := q.reverse)
        ((List.chain'_reverse).mpr (hqch.imp (fun _ _ hab => adjP_symm hab)))
        ?_ ?_ hra
      · rw [List.head?_reverse]
        exact hql
      · rw [List.getLast?_reverse]
        exact hqh
  intro w h
  induction h with
  | refl => exact Reach.refl
  | @step x y hr hadj ih =>
      by_cases hcase : (x = u ∧ y = v) ∨ (x = v ∧ y = u)
      · exact hdet x y hcase ih
      · exact Reach.step ih (adjB_removeStep_of_ne hadj hcase)

/-! ### The cycle-elimination loop (graphanalysis.py 1561-1708) -/

/-- Result of "método 1" (1567-1617): graph, error level, `bucle_found`,
`contr_lazos`, and the lengths of `list_cycle` / `list_cycle2`. -/
structure M1Out where
  g : MGraph
  err : ℕ
  bf : ℕ
  contr : ℕ
  len1 : ℕ
  len2 : ℕ
deriving Repr, DecidableEq

/-- `nx.find_cycle(G, source, orientation="ignore")` is third-party code,
abstracted as an oracle: `none` models the raised exception, `some l` the
returned edge list (only the first edge's endpoints and the length are
inspected by the caller). -/
def metodo1 (fc : MGraph → Option (List (String × String))) (g : MGraph)
    (err : ℕ) : M1Out :=
  match fc g with
  | none => { g := g, err := err, bf := 0, contr := 1, len1 := 0, len2 := 0 }
  | some l1 =>
    if 3 ≤ l1.length then
      let u := (l1.headD ("", "")).1
      let v := (l1.headD ("", "")).2
      let err1 := bumpErr err 2
      let gbf := if adjB g u v then (removeStep g u v, 0) else (g, 1)
      match fc gbf.1 with
      | none =>
          { g := gbf.1, err := err1, bf := gbf.2, contr := 1,
            len1 := l1.length, len2 := 0 }
      | some l2 =>
          { g := gbf.1, err := err1, bf := gbf.2,
            contr := if 3 ≤ l2.length then 0 else 1,
            len1 := l1.length, len2 := l2.length }
    else
      { g := g, err := err, bf := 0, contr := 1, len1 := l1.length,
        len2 := 0 }

/-- "Método 2" (1666-1696): while cycles remain, undo the farthest edge of
the shortest one and rescan.  The fuel is only there to make the recursion
structural; `edges.length + 1` provably suffices because every pass
removes at least one edge. -/
def metodo2 (s : String) : ℕ → MGraph → ℕ → ℕ → MGraph × ℕ × ℕ
  | 0, g, err, bf => (g, err, bf)
  | fuel + 1, g, err, bf =>
    let lb := findAllCycles g s
    if lb.length = 0 then (g, err, bf)
    else
      let err2 := bumpErr err 2
      let cy := lb.headD []
      let ni := cy.getD (cy.length - 2) ""
      let nf := cy.getD (cy.length - 1) ""
      let gbf := if adjB g ni nf then (removeStep g ni nf, 0) else (g, bf)
      metodo2 s fuel gbf.1 err2 gbf.2

/-- One pass of the outer `while contr_lazos == 0 and iter_lazos <= 20`
body: método 1, `find_all_cycles`, the método-2 trigger, and the trailing
`bucle_found` check.  Returns graph, error level and `contr_lazos`. -/
def buclesBody (fc : MGraph → Option (List (String × String))) (s : String)
    (g : MGraph) (err : ℕ) : MGraph × ℕ × ℕ :=
  let m1 := metodo1 fc g err
  let lb := findAllCycles m1.g s
  let m2 :=
    if m1.len1 = 2 ∨ m1.len2 = 2 ∨ m1.bf = 1 ∨ 0 < lb.length then
      metodo2 s (m1.g.edges.length + 1) m1.g m1.err m1.bf
    else (m1.g, m1.err, m1.bf)
  if m2.2.2 = 1 then (m2.1, bumpErr m2.2.1 3, 0)
  else (m2.1, m2.2.1, m1.contr)

/-- The outer loop (1561-1566): `iter_lazos` is incremented at the top of
every pass and the guard retests `iter_lazos <= 20`, so at most 21 passes
run; the fuel of 22 therefore never runs out. -/
def eliminaBuclesAux (fc : MGraph → Option (List (String × String)))
    (s : String) : ℕ → MGraph → ℕ → ℕ → MGraph × ℕ × ℕ
  | 0, g, err, iter => (g, err, iter)
  | b + 1, g, err, iter =>
    if iter ≤ 20 then
      let r := buclesBody fc s g err
      if r.2.2 = 0 then eliminaBuclesAux fc s b r.1 r.2.1 (iter + 1)
      else (r.1, r.2.1, iter + 1)
    else (g, err, iter)

/-- Cycle elimination (1561-1708): the outer loop followed by the
`if iter_lazos >= 20` quality-level check at 1705-1708.  Returns the graph,
the error level, and the final `iter_lazos`. -/
def eliminaBucles (fc : MGraph → Option (List (String × String)))
    (s : String) (g : MGraph) (err : ℕ) : MGraph × ℕ × ℕ :=
  let r := eliminaBuclesAux fc s 22 g err 0
  (r.1, if 20 ≤ r.2.2 then bumpErr r.2.1 3 else r.2.1, r.2.2)

/-- Soundness specification for the `nx.find_cycle` oracle: a returned
edge list of length ≥ 3 comes from a genuine ≥3-node simple cycle in the
component explored from `s`, and its first edge lies on that cycle. -/
def FcSound (fc : MGraph → Option (List (String × String))) (s : String) :
    Prop :=
  ∀ g l, fc g = some l → 3 ≤ l.length →
    ∃ c, IsCycle g c ∧ (∃ w ∈ c, Reach g s w) ∧
      PairOnCycle c (l.headD ("", "")).1 (l.headD ("", "")).2

lemma headD_mem {α : Type} {l : List α} (h : l ≠ []) (d : α) :
    l.headD d ∈ l := by
  cases l with
  | nil => exact absurd rfl h
  | cons a t => exact List.mem_cons_self _ _

/-- The last two nodes of a ≥3-node cycle are cyclically adjacent on it:
rotating the cycle to start at the last node ends at the second-to-last. -/
lemma lastTwo_pairOnCycle {c : List String} (h3 : 3 ≤ c.length) :
    PairOnCycle c (c.getD (c.length - 2) "") (c.getD (c.length - 1) "") := by
  refine Or.inr ⟨c.length - 1, c.take (c.length - 2), ?_⟩
  rw [List.rotate_eq_drop_append_take (by omega)]
  have hd : c.drop (c.length - 1) = [c.getD (c.length - 1) ""] := by
    rw [List.drop_eq_getElem_cons (by omega)]
    rw [show c.length - 1 + 1 = c.length by omega, List.drop_length]
    rw [List.getD_eq_getElem c "" (by omega)]
  have ht : c.take (c.length - 1)
      = c.take (c.length - 2) ++ [c.getD (c.length - 2) ""] := by
    rw [show c.length - 1 = (c.length - 2) + 1 by omega, List.take_succ]
    rw [List.getElem?_eq_getElem (by omega)]
    rw [List.getD_eq_getElem c "" (by omega)]
    rfl
  rw [hd, ht]
  simp

lemma metodo2_noop {s : String} {g : MGraph}
    (hclean : findAllCycles g s = []) :
    ∀ fuel err bf, metodo2 s fuel g err bf = (g, err, bf) := by
  intro fuel err bf
  cases fuel with
  | zero => rfl
  | succ n =>
      simp only [metodo2]
      rw [if_pos (by rw [hclean]; rfl)]

lemma metodo2_clears (s : String) :
    ∀ fuel g err bf, g.edges.length < fuel →
      findAllCycles (metodo2 s fuel g err bf).1 s = [] := by
  intro fuel
  induction fuel with
  | zero =>
      intro g _ _ h
      omega
  | succ n ih =>
      intro g err bf h
      simp only [metodo2]
      split
      · rename_i hlen0
        simpa using List.length_eq_zero.mp hlen0
      · rename_i hlenne
        have hne : findAllCycles g s ≠ [] := by
          intro hq
          apply hlenne
          rw [hq]
          rfl
        have hcymem : (findAllCycles g s).headD [] ∈ findAllCycles g s :=
          headD_mem hne []
        have hcyc := findAllCycles_sound _ hcymem
        have hpair := lastTwo_pairOnCycle (c := (findAllCycles g s).headD [])
          hcyc.1
        have hadj := pairOnCycle_adjB hcyc hpair
        rw [if_pos hadj]
        apply ih
        exact Nat.lt_of_lt_of_le (removeStep_edges_lt hadj)
          (Nat.le_of_lt_succ h)

lemma metodo2_reach (s s0 : String) :
    ∀ fuel g err bf {w}, Reach g s0 w →
      Reach (metodo2 s fuel g err bf).1 s0 w := by
  intro fuel
  induction fuel with
  | zero =>
      intro g err bf w hw
      exact hw
  | succ n ih =>
      intro g err bf w hw
      simp only [metodo2]
      split
      · exact hw
      · rename_i hlenne
        have hne : findAllCycles g s ≠ [] := by
          intro hq
          apply hlenne
          rw [hq]
          rfl
        have hcymem : (findAllCycles g s).headD [] ∈ findAllCycles g s :=
          headD_mem hne []
        have hcyc := findAllCycles_sound _ hcymem
        have hpair := lastTwo_pairOnCycle (c := (findAllCycles g s).headD [])
          hcyc.1
        have hadj := pairOnCycle_adjB hcyc hpair
        rw [if_pos hadj]
        exact ih _ _ _ (reach_removeStep hcyc hpair hw)

lemma metodo2_nodeKeys (s : String) :
    ∀ fuel g err bf, (metodo2 s fuel g err bf).1.nodes.map Prod.fst
      = g.nodes.map Prod.fst := by
  intro fuel
  induction fuel with
  | zero =>
      intro g err bf
      rfl
  | succ n ih =>
      intro g err bf
      simp only [metodo2]
      split
      · rfl
      · split
        · rw [ih]
          exact removeStep_nodeKeys _ _ _
        · exact ih _ _ _

lemma metodo1_contr (fc : MGraph → Option (List (String × String)))
    (g : MGraph) (err : ℕ) :
    (metodo1 fc g err).contr = 0 ∨ (metodo1 fc g err).contr = 1 := by
  unfold metodo1
  rcases fc g with _ | l1
  · right; rfl
  · simp only []
    split
    · rcases fc (if adjB g (l1.headD ("", "")).1 (l1.headD ("", "")).2 then
        (removeStep g (l1.headD ("", "")).1 (l1.headD ("", "")).2, 0)
        else (g, 1)).1 with _ | l2
      · right; rfl
      · simp only []
        split
        · left; rfl
        · right; rfl
    · right; rfl

lemma metodo1_facts {fc : MGraph → Option (List (String × String))}
    {s : String} (hfc : FcSound fc s) (g : MGraph) (err : ℕ) :
    (metodo1 fc g err).bf = 0 ∧
      ((metodo1 fc g err).g = g ∨ ∃ c u v, IsCycle g c ∧ PairOnCycle c u v ∧
        (metodo1 fc g err).g = removeStep g u v) := by
  unfold metodo1
  rcases hfg : fc g with _ | l1
  · exact ⟨rfl, Or.inl rfl⟩
  · simp only []
    split
    · rename_i h3
      obtain ⟨c, hcyc, _, hpair⟩ := hfc g l1 hfg h3
      have hadj := pairOnCycle_adjB hcyc hpair
      rw [if_pos hadj]
      rcases fc (removeStep g (l1.headD ("", "")).1 (l1.headD ("", "")).2)
        with _ | l2
      · exact ⟨rfl, Or.inr ⟨c, _, _, hcyc, hpair, rfl⟩⟩
      · exact ⟨rfl, Or.inr ⟨c, _, _, hcyc, hpair, rfl⟩⟩
    · exact ⟨rfl, Or.inl rfl⟩

lemma metodo1_clean {fc : MGraph → Option (List (String × String))}
    {s : String} (hfc : FcSound fc s) (g : MGraph) (err : ℕ)
    (hclean : findAllCycles g s = []) :
    (metodo1 fc g err).g = g ∧ (metodo1 fc g err).err = err ∧
      (metodo1 fc g err).bf = 0 ∧ (metodo1 fc g err).contr = 1 := by
  unfold metodo1
  rcases hfg : fc g with _ | l1
  · exact ⟨rfl, rfl, rfl, rfl⟩
  · simp only []
    split
    · rename_i h3
      obtain ⟨c, hcyc, htouch, _⟩ := hfc g l1 hfg h3
      exact absurd ⟨c, hcyc, htouch⟩ (findAllCycles_nil_noReachCycle hclean)
    · exact ⟨rfl, rfl, rfl, rfl⟩

lemma buclesBody_clears {fc : MGraph → Option (List (String × String))}
    {s : String} (hfc : FcSound fc s) (g : MGraph) (err : ℕ) :
    findAllCycles (buclesBody fc s g err).1 s = [] := by
  unfold buclesBody
  dsimp only
  split
  · rename_i htrig
    split <;>
    · simp only []
      exact metodo2_clears s _ _ _ _ (by omega)
  · rename_i htrig
    push_neg at htrig
    obtain ⟨_, _, _, hlb⟩ := htrig
    split <;>
    · simp only []
      exact List.length_eq_zero.mp (by omega)

lemma buclesBody_contr (fc : MGraph → Option (List (String × String)))
    (s : String) (g : MGraph) (err : ℕ) :
    (buclesBody fc s g err).2.2 = 0 ∨ (buclesBody fc s g err).2.2 = 1 := by
  unfold buclesBody
  dsimp only
  split <;> split
  · left; rfl
  · exact metodo1_contr fc g err
  · left; rfl
  · exact metodo1_contr fc g err

lemma buclesBody_clean {fc : MGraph → Option (List (String × String))}
    {s : String} (hfc : FcSound fc s) (g : MGraph) (err : ℕ)
    (hclean : findAllCycles g s = []) :
    buclesBody fc s g err = (g, err, 1) := by
  obtain ⟨hg, herr, hbf, hcontr⟩ := metodo1_clean hfc g err hclean
  unfold buclesBody
  dsimp only
  rw [hg, herr, hbf, hcontr]
  rw [metodo2_noop hclean]
  split
  · simp only []
    split
    · rename_i hq
      cases hq
    · rfl
  · simp only []
    split
    · rename_i hq
      cases hq
    · rfl

lemma buclesBody_reach {fc : MGraph → Option (List (String × String))}
    {s : String} (hfc : FcSound fc s) (g : MGraph) (err : ℕ) (s0 : String)
    {w : String} (hw : Reach g s0 w) :
    Reach (buclesBody fc s g err).1 s0 w := by
  obtain ⟨_, hg⟩ := metodo1_facts hfc g err
  have hw1 : Reach (metodo1 fc g err).g s0 w := by
    rcases hg with hid | ⟨c, u, v, hcyc, hpair, hrem⟩
    · rwa [hid]
    · rw [hrem]
      exact reach_removeStep hcyc hpair hw
  unfold buclesBody
  dsimp only
  split
  · split <;>
    · simp only []
      exact metodo2_reach s s0 _ _ _ _ hw1
  · split <;>
    · simp only []
      exact hw1

lemma metodo1_nodeKeys (fc : MGraph → Option (List (String × String)))
    (g : MGraph) (err : ℕ) :
    (metodo1 fc g err).g.nodes.map Prod.fst = g.nodes.map Prod.fst := by
  unfold metodo1
  rcases fc g with _ | l1
  · rfl
  · simp only []
    split
    · by_cases hadj : adjB g (l1.headD ("", "")).1 (l1.headD ("", "")).2
        = true
      · rw [if_pos hadj]
        dsimp only
        rcases fc (removeStep g (l1.headD ("", "")).1
          (l1.headD ("", "")).2) with _ | l2
        · exact removeStep_nodeKeys _ _ _
        · exact removeStep_nodeKeys _ _ _
      · rw [if_neg hadj]
        dsimp only
        rcases fc g with _ | l2
        · rfl
        · rfl
    · rfl

lemma buclesBody_nodeKeys (fc : MGraph → Option (List (String × String)))
    (s : String) (g : MGraph) (err : ℕ) :
    (buclesBody fc s g err).1.nodes.map Prod.fst
      = g.nodes.map Prod.fst := by
  have h1 := metodo1_nodeKeys fc g err
  unfold buclesBody
  dsimp only
  split
  · split <;>
    · simp only []
      rw [metodo2_nodeKeys]
      exact h1
  · split <;>
    · simp only []
      exact h1

lemma eliminaBuclesAux_step (fc : MGraph → Option (List (String × String)))
    (s : String) (b : ℕ) (g : MGraph) (err iter : ℕ) (hiter : iter ≤ 20) :
    eliminaBuclesAux fc s (b + 1) g err iter =
      (if (buclesBody fc s g err).2.2 = 0 then
        eliminaBuclesAux fc s b (buclesBody fc s g err).1
          (buclesBody fc s g err).2.1 (iter + 1)
      else ((buclesBody fc s g err).1, (buclesBody fc s g err).2.1,
        iter + 1)) := by
  simp only [eliminaBuclesAux]
  rw [if_pos hiter]

/-- Under a sound `find_cycle` oracle the outer loop stabilises after at
most two passes: the first pass removes every reachable ≥3-node cycle
(método 2 rescans until `find_all_cycles` is empty), so a second pass—if
`contr_lazos` requested one—finds nothing and stops. -/
lemma eliminaBuclesAux_two {fc : MGraph → Option (List (String × String))}
    {s : String} (hfc : FcSound fc s) (g : MGraph) (err : ℕ) :
    (eliminaBuclesAux fc s 22 g err 0).2.2 ≤ 2 ∧
      findAllCycles (eliminaBuclesAux fc s 22 g err 0).1 s = [] := by
  have hclears := buclesBody_clears hfc g err
  rw [show (22 : ℕ) = 21 + 1 from rfl,
    eliminaBuclesAux_step fc s 21 g err 0 (by omega)]
  rcases buclesBody_contr fc s g err with h0 | h1
  · rw [if_pos h0]
    have hbody2 := buclesBody_clean hfc (buclesBody fc s g err).1
      (buclesBody fc s g err).2.1 hclears
    rw [show (21 : ℕ) = 20 + 1 from rfl,
      eliminaBuclesAux_step fc s 20 _ _ 1 (by omega), hbody2]
    simp only []
    rw [if_neg (by omega)]
    exact ⟨by norm_num, hclears⟩
  · rw [if_neg (by omega)]
    exact ⟨by norm_num, hclears⟩

/-- C5 core: the final `iter_lazos` is at most 2, so the
`if iter_lazos >= 20` degradation at 1705-1708 never fires. -/
lemma eliminaBucles_iter_le_two
    {fc : MGraph → Option (List (String × String))} {s : String}
    (hfc : FcSound fc s) (g : MGraph) (err : ℕ) :
    (eliminaBucles fc s g err).2.2 ≤ 2 ∧
      (eliminaBucles fc s g err).2.1
        = (eliminaBuclesAux fc s 22 g err 0).2.1 ∧
      findAllCycles (eliminaBucles fc s g err).1 s = [] := by
  obtain ⟨hle, hclean⟩ := eliminaBuclesAux_two hfc g err
  unfold eliminaBucles
  dsimp only
  rw [if_neg (by omega)]
  exact ⟨hle, rfl, hclean⟩

/-- C5: under a sound `nx.find_cycle` oracle the cycle-elimination loop of
`genera_grafo` performs at most 2 (hence at most 20) outer passes, it
terminates by construction (all recursions are fuelled), and the
`if iter_lazos >= 20` quality-level-3 degradation at 1705-1708 never
applies: the returned error level is exactly the loop's own error level. -/
theorem C5_cycle_elimination_bounded
    (fc : MGraph → Option (List (String × String))) (s : String)
    (g : MGraph) (err : ℕ) (hfc : FcSound fc s) :
    (eliminaBucles fc s g err).2.2 ≤ 20 ∧
      (eliminaBucles fc s g err).2.1
        = (eliminaBuclesAux fc s 22 g err 0).2.1 := by
  obtain ⟨h2, herr, _⟩ := eliminaBucles_iter_le_two hfc g err
  exact ⟨by omega, herr⟩

theorem C5_cycle_elimination_bounded_witness :
    FcSound (fun _ => none) "CT" ∧
      (eliminaBucles (fun _ => none) "CT"
        { nodes := [("CT", {})], edges := [] } 0).2.2 ≤ 20 := by
  have hfc : FcSound (fun _ => none) "CT" := by
    intro g l h
    cases h
  exact ⟨hfc, (C5_cycle_elimination_bounded (fun _ => none) "CT"
    { nodes := [("CT", {})], edges := [] } 0 hfc).1⟩

lemma noCycle_of_edges_nil {g : MGraph} (h : g.edges = []) :
    ∀ c, ¬ IsCycle g c := by
  rintro c ⟨h3, _, hch⟩
  match c, h3 with
  | a :: b :: t, _ =>
      rw [show ((a :: b :: t) ++ (a :: b :: t).take 1)
          = a :: b :: (t ++ [a]) by simp] at hch
      have hadj := (List.chain'_cons.mp hch).1
      unfold AdjP adjB at hadj
      rw [h] at hadj
      simp at hadj

/-- C7: on a graph that already has no ≥3-node simple cycle, cycle
elimination (with a sound oracle) removes nothing: the graph, the error
level, and hence the node and span counts are returned unchanged, after a
single pass. -/
theorem C7_acyclic_elimination_noop
    (fc : MGraph → Option (List (String × String))) (s : String)
    (g : MGraph) (err : ℕ) (hfc : FcSound fc s)
    (hacyc : ∀ c, ¬ IsCycle g c) :
    eliminaBucles fc s g err = (g, err, 1) := by
  have hclean : findAllCycles g s = [] :=
    List.eq_nil_iff_forall_not_mem.mpr
      (fun c hc => hacyc c (findAllCycles_sound c hc))
  have hbody := buclesBody_clean hfc g err hclean
  unfold eliminaBucles
  dsimp only
  rw [show (22 : ℕ) = 21 + 1 from rfl,
    eliminaBuclesAux_step fc s 21 g err 0 (by omega), hbody]
  norm_num

/-- A two-node, zero-span graph used to witness C7. -/
def C7g : MGraph := { nodes := [("CT", {}), ("A", {})], edges := [] }

theorem C7_acyclic_elimination_noop_witness :
    (∀ c, ¬ IsCycle C7g c) ∧
      eliminaBucles (fun _ => none) "CT" C7g 0 = (C7g, 0, 1) := by
  have hacyc := noCycle_of_edges_nil (g := C7g) rfl
  have hfc : FcSound (fun _ => none) "CT" := by
    intro g l h
    cases h
  exact ⟨hacyc,
    C7_acyclic_elimination_noop (fun _ => none) "CT" C7g 0 hfc hacyc⟩

/-! ### The path-existence repair pass (graphanalysis.py 1506-1553) -/

def nodeAttrOf (g : MGraph) (v : String) : NodeAttr :=
  match g.nodes.find? (fun pr => pr.1 == v) with
  | some pr => pr.2
  | none => {}

def nodePos (g : MGraph) (v : String) : ℚ × ℚ :=
  ((nodeAttrOf g v).posX, (nodeAttrOf g v).posY)

/-- `G.edges[list(G.edges(nodo))[0][0], list(G.edges(nodo))[0][1], 0]
['CABLE']` with the `except` default `df_traza_ct.CABLE[0]`: the cable of
the first edge incident to `v` (which is necessarily the key-0 edge of its
endpoint pair), or the default cable when `v` has no edges. -/
def firstCableOf (g : MGraph) (v : String) (cable0 : String) : String :=
  match g.edges.find? (fun e => touchesE e v) with
  | some e => e.cable
  | none => cable0

/-- Python `str.split(sep)` over the character list (separators are kept
as empty fields, `''.split(c) == ['']`). -/
def splitCharsOn (c : Char) : List Char → List (List Char)
  | [] => [[]]
  | ch :: rest =>
      let r := splitCharsOn c rest
      if ch = c then [] :: r
      else
        match r with
        | [] => [[ch]]
        | h :: t => (ch :: h) :: t

/-- `nodo.split('_')`. -/
def splitUnderscore (s : String) : List String :=
  (splitCharsOn '_' s.data).map (fun cs => String.mk cs)

/-- The `nodo_origen` chosen at 1518-1530: `id_ct + '_' + nodo.split('_')[1]`
when that expression evaluates and the node exists (so the `pos` lookup in
the same `try` succeeds); otherwise the first LBT of the node's
transformer, whose lookup raises (crash, `none`) when the transformer has
no LBT row. -/
def chooseTarget (idCT : String) (lbtOf : String → Option String)
    (g : MGraph) (v : String) (tr : String) : Option String :=
  if 2 ≤ (splitUnderscore v).length ∧
      g.hasNode (idCT ++ "_" ++ (splitUnderscore v).getD 1 "") = true then
    some (idCT ++ "_" ++ (splitUnderscore v).getD 1 "")
  else
    match lbtOf tr with
    | some lbt => some (idCT ++ "_" ++ lbt)
    | none => none

/-- Replace the attributes of the key-0 (first-inserted) edge of the pair. -/
def updateFirstEdge : List MEdge → String → String → String → ℚ → String →
    List MEdge
  | [], _, _, _, _, _ => []
  | e :: es, t, v, tr, long, cb =>
      if sameEnds e t v then
        { e with idTraza := 0, tr := tr, long := long, cable := cb,
                 qbt := 400 } :: es
      else e :: updateFirstEdge es t v tr long cb

/-- `G.add_edge(nodo_origen, nodo, 0, ID_traza=0, TR=..., Long=...,
CABLE=..., QBT_TENSION=400)`: with the explicit key `0`, networkx updates
the existing key-0 edge when the pair already has one, else adds a new
edge. -/
def addFixEdge (g : MGraph) (t v : String) (tr : String) (long : ℚ)
    (cb : String) : MGraph :=
  if adjB g t v then
    { g with edges := updateFirstEdge g.edges t v tr long cb }
  else
    { g with edges := g.edges ++
        [{ a := t, b := v, idTraza := 0, tr := tr, long := long,
             cable := cb, qbt := 400 }] }

/-- `if Tipo_Nodo not in ('CT', 'CT_Virtual'): G.nodes[nodo]['N_ant'] += 1`. -/
def bumpNAnt (g : MGraph) (v : String) : MGraph :=
  { g with nodes := g.nodes.map (fun pr =>
      if pr.1 == v && !(pr.2.tipoNodo == "CT")
          && !(pr.2.tipoNodo == "CT_Virtual") then
        (pr.1, { pr.2 with nAnt := pr.2.nAnt + 1 })
      else pr) }

/-- One iteration of the `for nodo, data in G.nodes(...)` loop at
1506-1553: probe `nx.shortest_path` (the `sp` oracle); on failure link the
node to the chosen `CT_...` target — a missing target would make
`add_edge` insert a new node while `G.nodes` is being iterated, which
raises in Python, embedded as `none` — then refresh the node's
`Enlaces_orig`/`Enlaces_iter`. -/
def passStep (sp : MGraph → String → String → Option (List String))
    (sqrtF : ℚ → ℚ) (lbtOf : String → Option String) (cable0 : String)
    (idCT : String) (st : Option (MGraph × ℕ)) (v : String) :
    Option (MGraph × ℕ) :=
  match st with
  | none => none
  | some (g, cont) =>
    let fixed : Option (MGraph × ℕ) :=
      match sp g idCT v with
      | some _ => some (g, cont)
      | none =>
          match chooseTarget idCT lbtOf g v (nodeAttrOf g v).tr with
          | none => none
          | some t =>
              if g.hasNode t then
                let pv := nodePos g v
                let pt := nodePos g t
                let long := sqrtF ((pv.1 - pt.1) ^ 2 + (pv.2 - pt.2) ^ 2)
                let cb := firstCableOf g v cable0
                some (bumpNAnt (addFixEdge g t v (nodeAttrOf g v).tr long cb)
                  v, cont + 1)
              else none
    match fixed with
    | none => none
    | some (g', cont') => some (setEnlaces g' v, cont')

/-- The whole pass: fold the per-node step over the node list (edge-only
mutation keeps the iterated node set fixed, as Python requires). -/
def passFix (sp : MGraph → String → String → Option (List String))
    (sqrtF : ℚ → ℚ) (lbtOf : String → Option String) (cable0 : String)
    (idCT : String) (g0 : MGraph) (cont0 : ℕ) : Option (MGraph × ℕ) :=
  (g0.nodes.map Prod.fst).foldl (passStep sp sqrtF lbtOf cable0 idCT)
    (some (g0, cont0))

/-- Soundness of the `nx.shortest_path` oracle: a returned path certifies
reachability. -/
def SpSound (sp : MGraph → String → String → Option (List String))
    (s : String) : Prop :=
  ∀ g v p, sp g s v = some p → Reach g s v

/-- Static part of the node table preserved by the pass: same node keys,
same transformer attribute, and at least the original adjacencies. -/
def PassInv (g0 g : MGraph) : Prop :=
  (∀ t, g.hasNode t = g0.hasNode t) ∧
  (∀ v, (nodeAttrOf g v).tr = (nodeAttrOf g0 v).tr) ∧
  (∀ u w, adjB g0 u w = true → adjB g u w = true)

lemma passInv_refl (g : MGraph) : PassInv g g :=
  ⟨fun _ => rfl, fun _ => rfl, fun _ _ h => h⟩

lemma hasNode_mapFst {g : MGraph} {f : String × NodeAttr → String × NodeAttr}
    (hf : ∀ pr, (f pr).1 = pr.1) (w : String) :
    MGraph.hasNode { g with nodes := g.nodes.map f } w = g.hasNode w := by
  unfold MGraph.hasNode
  simp only []
  induction g.nodes with
  | nil => rfl
  | cons pr t ih =>
      simp only [List.map_cons, List.any_cons, hf pr]
      rw [ih]

lemma nodeAttrOf_mapFst_tr {g : MGraph}
    {f : String × NodeAttr → String × NodeAttr}
    (hf : ∀ pr, (f pr).1 = pr.1) (hf2 : ∀ pr, ((f pr).2).tr = pr.2.tr)
    (w : String) :
    (nodeAttrOf { g with nodes := g.nodes.map f } w).tr
      = (nodeAttrOf g w).tr := by
  unfold nodeAttrOf
  simp only []
  induction g.nodes with
  | nil => rfl
  | cons pr t ih =>
      simp only [List.map_cons, List.find?_cons]
      rw [show ((f pr).1 == w) = (pr.1 == w) by rw [hf pr]]
      cases hc : (pr.1 == w)
      · simpa using ih
      · simpa using hf2 pr

lemma bumpNAnt_hasNode (g : MGraph) (v w : String) :
    (bumpNAnt g v).hasNode w = g.hasNode w := by
  apply hasNode_mapFst
  intro pr
  split <;> rfl

lemma bumpNAnt_tr (g : MGraph) (v w : String) :
    (nodeAttrOf (bumpNAnt g v) w).tr = (nodeAttrOf g w).tr := by
  apply nodeAttrOf_mapFst_tr
  · intro pr
    split <;> rfl
  · intro pr
    split <;> rfl

lemma setEnlaces_hasNode (g : MGraph) (v w : String) :
    (setEnlaces g v).hasNode w = g.hasNode w := by
  apply hasNode_mapFst
  intro pr
  split <;> rfl

lemma setEnlaces_tr (g : MGraph) (v w : String) :
    (nodeAttrOf (setEnlaces g v) w).tr = (nodeAttrOf g w).tr := by
  apply nodeAttrOf_mapFst_tr
  · intro pr
    split <;> rfl
  · intro pr
    split <;> rfl

lemma addFixEdge_nodes (g : MGraph) (t v tr : String) (long : ℚ)
    (cb : String) : (addFixEdge g t v tr long cb).nodes = g.nodes := by
  unfold addFixEdge
  split <;> rfl

lemma updateFirstEdge_cover (t v tr : String) (long : ℚ) (cb : String) :
    ∀ (l : List MEdge), ∀ e ∈ l,
      ∃ e' ∈ updateFirstEdge l t v tr long cb, e'.a = e.a ∧ e'.b = e.b := by
  intro l
  induction l with
  | nil => intro e he; cases he
  | cons e0 es ih =>
      intro e he
      rcases List.mem_cons.mp he with rfl | hmem
      · unfold updateFirstEdge
        split
        · exact ⟨_, List.mem_cons_self _ _, rfl, rfl⟩
        · exact ⟨e, List.mem_cons_self _ _, rfl, rfl⟩
      · unfold updateFirstEdge
        split
        · exact ⟨e, List.mem_cons_of_mem _ hmem, rfl, rfl⟩
        · obtain ⟨e', he', h1, h2⟩ := ih e hmem
          exact ⟨e', List.mem_cons_of_mem _ he', h1, h2⟩

lemma addFixEdge_adjB_mono (g : MGraph) (t v tr : String) (long : ℚ)
    (cb : String) (u w : String) (h : adjB g u w = true) :
    adjB (addFixEdge g t v tr long cb) u w = true := by
  unfold addFixEdge
  split
  · exact adjB_mono_endpoints (updateFirstEdge_cover t v tr long cb g.edges)
      u w h
  · refine adjB_mono_endpoints ?_ u w h
    intro e he
    exact ⟨e, List.mem_append_left _ he, rfl, rfl⟩

lemma addFixEdge_self (g : MGraph) (t v tr : String) (long : ℚ)
    (cb : String) : adjB (addFixEdge g t v tr long cb) t v = true := by
  unfold addFixEdge
  split
  · rename_i hadj
    exact adjB_mono_endpoints (updateFirstEdge_cover t v tr long cb g.edges)
      t v hadj
  · refine List.any_eq_true.mpr ⟨_, List.mem_append_right _
      (List.mem_singleton.mpr rfl), ?_⟩
    simp [sameEnds]

lemma passInv_fixStep {g0 g : MGraph} (hinv : PassInv g0 g) (t v tr : String)
    (long : ℚ) (cb : String) :
    PassInv g0 (setEnlaces (bumpNAnt (addFixEdge g t v tr long cb) v) v) := by
  obtain ⟨h1, h2, h3⟩ := hinv
  refine ⟨?_, ?_, ?_⟩
  · intro w
    rw [setEnlaces_hasNode, bumpNAnt_hasNode]
    unfold MGraph.hasNode
    rw [addFixEdge_nodes]
    exact h1 w
  · intro w
    rw [setEnlaces_tr, bumpNAnt_tr]
    unfold nodeAttrOf
    rw [addFixEdge_nodes]
    exact h2 w
  · intro u w h
    have : adjB (addFixEdge g t v tr long cb) u w = true :=
      addFixEdge_adjB_mono g t v tr long cb u w (h3 u w h)
    exact this

lemma passInv_enlacesStep {g0 g : MGraph} (hinv : PassInv g0 g)
    (v : String) : PassInv g0 (setEnlaces g v) := by
  obtain ⟨h1, h2, h3⟩ := hinv
  exact ⟨fun w => (setEnlaces_hasNode g v w).trans (h1 w),
    fun w => (setEnlaces_tr g v w).trans (h2 w), h3⟩

lemma chooseTarget_inv {g0 g : MGraph} (hinv : PassInv g0 g)
    (idCT : String) (lbtOf : String → Option String) (v tr : String) :
    chooseTarget idCT lbtOf g v tr = chooseTarget idCT lbtOf g0 v tr := by
  unfold chooseTarget
  rw [hinv.1]

lemma reach_setEnlaces {g : MGraph} {s v w : String} (h : Reach g s w) :
    Reach (setEnlaces g v) s w := by
  induction h with
  | refl => exact Reach.refl
  | step _ hadj ih => exact Reach.step ih hadj

lemma passFix_fold
    {sp : MGraph → String → String → Option (List String)}
    {sqrtF : ℚ → ℚ} {lbtOf : String → Option String} {cable0 idCT : String}
    {g0 : MGraph} (hsp : SpSound sp idCT)
    (htargets : ∀ v ∈ g0.nodes.map Prod.fst, ∃ t,
      chooseTarget idCT lbtOf g0 v (nodeAttrOf g0 v).tr = some t ∧
      g0.hasNode t = true ∧ Reach g0 idCT t) :
    ∀ (vs : List String), (∀ v ∈ vs, v ∈ g0.nodes.map Prod.fst) →
      ∀ (g : MGraph) (cont : ℕ), PassInv g0 g →
      ∃ g1 cont1,
        vs.foldl (passStep sp sqrtF lbtOf cable0 idCT) (some (g, cont))
          = some (g1, cont1) ∧ PassInv g0 g1 ∧
        (∀ u w, adjB g u w = true → adjB g1 u w = true) ∧
        (∀ v ∈ vs, Reach g1 idCT v) := by
  intro vs
  induction vs with
  | nil =>
      intro _ g cont hinv
      refine ⟨g, cont, rfl, hinv, fun _ _ h => h, ?_⟩
      intro v hv
      cases hv
  | cons v rest ih =>
      intro hvs g cont hinv
      have hv0 : v ∈ g0.nodes.map Prod.fst := hvs v (List.mem_cons_self _ _)
      rcases hspv : sp g idCT v with _ | p
      · obtain ⟨t, hct, hhn, hrt⟩ := htargets v hv0
        have hct' : chooseTarget idCT lbtOf g v (nodeAttrOf g v).tr
            = some t := by
          rw [hinv.2.1 v, chooseTarget_inv hinv]
          exact hct
        have hhn' : g.hasNode t = true := by
          rw [hinv.1]
          exact hhn
        have hstep : passStep sp sqrtF lbtOf cable0 idCT (some (g, cont)) v
            = some (setEnlaces (bumpNAnt (addFixEdge g t v
                (nodeAttrOf g v).tr
                (sqrtF (((nodePos g v).1 - (nodePos g t).1) ^ 2
                  + ((nodePos g v).2 - (nodePos g t).2) ^ 2))
                (firstCableOf g v cable0)) v) v, cont + 1) := by
          simp only [passStep, hspv, hct', hhn', if_true]
        set gmid := addFixEdge g t v (nodeAttrOf g v).tr
          (sqrtF (((nodePos g v).1 - (nodePos g t).1) ^ 2
            + ((nodePos g v).2 - (nodePos g t).2) ^ 2))
          (firstCableOf g v cable0) with hgmid
        have hinv' : PassInv g0 (setEnlaces (bumpNAnt gmid v) v) :=
          passInv_fixStep hinv t v _ _ _
        have hmono : ∀ u w, adjB g u w = true →
            adjB (setEnlaces (bumpNAnt gmid v) v) u w = true := by
          intro u w h
          exact addFixEdge_adjB_mono g t v _ _ _ u w h
        have hreachv : Reach (setEnlaces (bumpNAnt gmid v) v) idCT v := by
          have hrt' : Reach g idCT t :=
            reach_mono (fun u w h => hinv.2.2 u w h) hrt
          have hrt'' : Reach (setEnlaces (bumpNAnt gmid v) v) idCT t :=
            reach_mono hmono hrt'
          refine Reach.step hrt'' ?_
          exact addFixEdge_self g t v _ _ _
        rw [List.foldl_cons, hstep]
        obtain ⟨g1, cont1, hfold, hinv1, hmono1, hrest⟩ :=
          ih (fun w hw => hvs w (List.mem_cons_of_mem _ hw))
            (setEnlaces (bumpNAnt gmid v) v) (cont + 1) hinv'
        refine ⟨g1, cont1, hfold, hinv1, ?_, ?_⟩
        · intro u w h
          exact hmono1 u w (hmono u w h)
        · intro w hw
          rcases List.mem_cons.mp hw with rfl | hwr
          · exact reach_mono hmono1 hreachv
          · exact hrest w hwr
      · have hstep : passStep sp sqrtF lbtOf cable0 idCT (some (g, cont)) v
            = some (setEnlaces g v, cont) := by
          simp only [passStep, hspv]
        have hinv' : PassInv g0 (setEnlaces g v) :=
          passInv_enlacesStep hinv v
        have hreachv : Reach (setEnlaces g v) idCT v :=
          reach_setEnlaces (hsp g v p hspv)
        rw [List.foldl_cons, hstep]
        obtain ⟨g1, cont1, hfold, hinv1, hmono1, hrest⟩ :=
          ih (fun w hw => hvs w (List.mem_cons_of_mem _ hw))
            (setEnlaces g v) cont hinv'
        refine ⟨g1, cont1, hfold, hinv1, ?_, ?_⟩
        · intro u w h
          exact hmono1 u w h
        · intro w hw
          rcases List.mem_cons.mp hw with rfl | hwr
          · exact reach_mono hmono1 hreachv
          · exact hrest w hwr

/-- The repair pass (1506-1553) succeeds and leaves every node of the
substation graph reachable from the substation, provided the
`shortest_path` oracle is sound and every node's fallback target exists
and is itself reachable. -/
lemma passFix_reach
    {sp : MGraph → String → String → Option (List String)}
    {sqrtF : ℚ → ℚ} {lbtOf : String → Option String} {cable0 idCT : String}
    {g0 : MGraph} (cont0 : ℕ) (hsp : SpSound sp idCT)
    (htargets : ∀ v ∈ g0.nodes.map Prod.fst, ∃ t,
      chooseTarget idCT lbtOf g0 v (nodeAttrOf g0 v).tr = some t ∧
      g0.hasNode t = true ∧ Reach g0 idCT t) :
    ∃ g1 cont1, passFix sp sqrtF lbtOf cable0 idCT g0 cont0
        = some (g1, cont1) ∧ PassInv g0 g1 ∧
      ∀ v ∈ g0.nodes.map Prod.fst, Reach g1 idCT v := by
  obtain ⟨g1, cont1, hfold, hinv, _, hreach⟩ :=
    passFix_fold hsp htargets (g0.nodes.map Prod.fst) (fun _ h => h) g0
      cont0 (passInv_refl g0)
  exact ⟨g1, cont1, hfold, hinv, hreach⟩

lemma eliminaBucles_reach {fc : MGraph → Option (List (String × String))}
    {s : String} (hfc : FcSound fc s) (g : MGraph) (err : ℕ) (s0 : String)
    {w : String} (hw : Reach g s0 w) :
    Reach (eliminaBucles fc s g err).1 s0 w := by
  have hb1 : Reach (buclesBody fc s g err).1 s0 w :=
    buclesBody_reach hfc g err s0 hw
  unfold eliminaBucles
  dsimp only
  rw [show (22 : ℕ) = 21 + 1 from rfl,
    eliminaBuclesAux_step fc s 21 g err 0 (by omega)]
  rcases buclesBody_contr fc s g err with h0 | h1
  · rw [if_pos h0]
    rw [show (21 : ℕ) = 20 + 1 from rfl,
      eliminaBuclesAux_step fc s 20 _ _ 1 (by omega),
      buclesBody_clean hfc (buclesBody fc s g err).1
        (buclesBody fc s g err).2.1 (buclesBody_clears hfc g err)]
    rw [if_neg (by norm_num)]
    exact hb1
  · rw [if_neg (by omega)]
    exact hb1

/-- C6 (amended): after the path-existence repair pass (1506-1553) and
cycle elimination (1561-1708), with sound `shortest_path` / `find_cycle`
oracles and every fallback target present and reachable, every node of the
substation graph still has a path from the substation and no simple cycle
on three or more distinct nodes is reachable from it.  (Two-node cycles
made of parallel spans are NOT removed — see the counterexample — so the
claim's unqualified "zero cycles" does not hold.) -/
theorem C6_terminal_state_amended
    (sp : MGraph → String → String → Option (List String)) (sqrtF : ℚ → ℚ)
    (lbtOf : String → Option String) (cable0 : String)
    (fc : MGraph → Option (List (String × String))) (idCT : String)
    (g0 : MGraph) (cont0 err : ℕ)
    (hsp : SpSound sp idCT) (hfc : FcSound fc idCT)
    (htargets : ∀ v ∈ g0.nodes.map Prod.fst, ∃ t,
      chooseTarget idCT lbtOf g0 v (nodeAttrOf g0 v).tr = some t ∧
      g0.hasNode t = true ∧ Reach g0 idCT t) :
    ∃ g1 cont1, passFix sp sqrtF lbtOf cable0 idCT g0 cont0
        = some (g1, cont1) ∧
      (∀ v ∈ g0.nodes.map Prod.fst,
        Reach (eliminaBucles fc idCT g1 err).1 idCT v) ∧
      ¬ ReachCycle (eliminaBucles fc idCT g1 err).1 idCT := by
  obtain ⟨g1, cont1, hp, _, hreach⟩ := passFix_reach cont0 hsp htargets
  refine ⟨g1, cont1, hp, ?_, ?_⟩
  · intro v hv
    exact eliminaBucles_reach hfc g1 err idCT (hreach v hv)
  · exact findAllCycles_nil_noReachCycle
      (eliminaBucles_iter_le_two hfc g1 err).2.2

/-- Substation graph with two parallel spans between `A` and `B`: a
two-node cycle in the multigraph. -/
def C6g : MGraph :=
  { nodes := [("CT", {}), ("A", {}), ("B", {})],
    edges := [{ a := "CT", b := "A" }, { a := "A", b := "B" },
      { a := "A", b := "B" }] }

/-- A faithful `find_cycle` behaviour on `C6g`: it reports the two-edge
cycle `A-B-A` (the situation the source comments call ambiguous), so
`len(list_cycle) >= 3` never holds. -/
def C6fc : MGraph → Option (List (String × String)) :=
  fun _ => some [("A", "B"), ("B", "A")]

/-- C6 counterexample: cycle elimination returns `C6g` unchanged although
the pair of parallel `A`–`B` spans is a reachable two-node cycle — método 1
ignores cycles shorter than 3 edges and the DFS of método 2 only records
cycles on ≥ 3 distinct nodes, so the graph keeps a cycle reachable from
the substation, contradicting the claimed "zero cycles reachable". -/
theorem C6_two_node_cycle_survives :
    eliminaBucles C6fc "CT" C6g 0 = (C6g, 0, 1) ∧
    2 ≤ (C6g.edges.filter (fun e => sameEnds e "A" "B")).length ∧
    ("A" : String) ≠ "B" ∧
    Reach (eliminaBucles C6fc "CT" C6g 0).1 "CT" "A" := by
  have h : eliminaBucles C6fc "CT" C6g 0 = (C6g, 0, 1) := by decide
  refine ⟨h, by decide, by decide, ?_⟩
  rw [h]
  exact Reach.step Reach.refl (by decide)

/-- Substation graph used to witness the amended C6 theorem. -/
def C6wg : MGraph :=
  { nodes := [("CT", {}), ("CT_L1", {}), ("N_L1", {})],
    edges := [{ a := "CT", b := "CT_L1" }] }

theorem C6_terminal_state_amended_witness :
    ∃ g1 cont1, passFix (fun _ _ _ => none) (fun _ => 0)
        (fun _ => some "L1") "X" "CT" C6wg 0 = some (g1, cont1) ∧
      (∀ v ∈ C6wg.nodes.map Prod.fst,
        Reach (eliminaBucles (fun _ => none) "CT" g1 0).1 "CT" v) ∧
      ¬ ReachCycle (eliminaBucles (fun _ => none) "CT" g1 0).1 "CT" := by
  apply C6_terminal_state_amended
  · intro g v p h
    cases h
  · intro g l h
    cases h
  · intro v hv
    fin_cases hv <;>
      exact ⟨"CT_L1", by decide, by decide,
        Reach.step Reach.refl (by decide)⟩

/-! ### Customer attachment (`add_cups_grafo`, non-GISS branch) and the
50 m distance cap (graphanalysis.py 1714-1990). -/

/-- `df_matr_dist.loc[df_matr_dist['CUPS'] == cups][...][0]`: the first
distance-matrix row of the customer gives `(ID_Nodo_Cercano, Distancia)`;
an empty selection raises `KeyError` (`none`). -/
def lookupMatr (matr : List (String × String × ℚ)) (c : String) :
    Option (String × ℚ) :=
  (matr.find? (fun p => p.1 == c)).map (fun p => p.2)

/-- `str.replace('.0', '')`: drop every (left-to-right, non-overlapping)
occurrence of the two-character substring. -/
def replaceDot0 : List Char → List Char
  | [] => []
  | '.' :: '0' :: rest => replaceDot0 rest
  | c :: rest => c :: replaceDot0 rest

def stripDot0 (s : String) : String := ⟨replaceDot0 s.data⟩

/-- `G.add_edges_from([(u, v)])` creates missing endpoints. -/
def ensureNode (g : MGraph) (v : String) : MGraph :=
  if g.hasNode v then g else { g with nodes := g.nodes ++ [(v, {})] }

/-- `G.add_edges_from([(u, v)])`: add both endpoints if absent, then a
bare edge (key `0`, every attribute at its default). -/
def addCupsEdge (g : MGraph) (u v : String) : MGraph :=
  let g1 := ensureNode (ensureNode g u) v
  { g1 with edges := g1.edges ++ [{ a := u, b := v }] }

/-- The `G.nodes[str(row.CUPS)][...] = ...` attribute block at 1944-1976:
zero the six phase accumulators, mark the node `CUPS`, record transformer,
voltage, position and `N_ant = 1`. -/
def setCupsNode (g : MGraph) (v trafo amm tipoCon : String) (qv : ℤ)
    (x y : ℚ) : MGraph :=
  { g with nodes := g.nodes.map (fun p =>
      if p.1 == v then
        (p.1, { p.2 with pR := 0, qR := 0, pS := 0, qS := 0, pT := 0,
                         qT := 0, tipoConexion := tipoCon, ammFase := amm,
                         tipoNodo := "CUPS", tr := trafo,
                         qbt := qv, posX := x, posY := y, nAnt := 1 })
      else p) }

/-- The `G.edges[(arqueta_cup_lbt_id, str(row.CUPS), 0)][...] = ...` block
at 1978-1988: overwrite `Long`, the six phase-loss accumulators, `TR` and
`QBT_TENSION` of the first (key-0) edge joining the pair; `KeyError`
(`none`) if no such edge exists. -/
def setCupsEdge (u v trc : String) (long : ℚ) (qv : ℤ) :
    List MEdge → Option (List MEdge)
  | [] => none
  | e :: es =>
    if sameEnds e u v then
      some ({ e with long := long, pRL := 0, qRL := 0, pSL := 0, qSL := 0,
                     pTL := 0, qTL := 0, tr := trc, qbt := qv } :: es)
    else
      (setCupsEdge u v trc long qv es).map (fun t => e :: t)

/-- The key-0 edge `G.edges[(u, v, 0)]` of the pair. -/
def firstEdgeBetween (es : List MEdge) (u v : String) : Option MEdge :=
  es.find? (fun e => sameEnds e u v)

/-- The non-GISS branch of `add_cups_grafo` for one customer row
(graphanalysis.py 1772-1988): look up the nearest node `arqueta` and its
distance in `df_matr_dist` (`KeyError` on a missing customer); form
`arqueta_cup_lbt_id`, rewritten to `id_ct + '_' + row.LBT_ID` when the
stripped `arqueta` is `'1'`; on `'0'` the `else` block is skipped and
`longitud` is never bound, so the final `float(longitud)` raises
(`none`); otherwise fall back to the first `LBT_ID_list` node of the same
transformer when the id is not in the graph, cap `Distancia` at 50, run
the 230 V duplication block (`dup230`, here an opaque graph transformer:
it never touches `longitud`) and suffix `'_230'` when
`200 <= int(qbt_tension) < 350`, else unify the voltage to 400; finally
attach the customer with a bare edge when it is a new node, set the node
attributes and overwrite the span attributes of the key-0 edge.  Returns
the updated graph together with the final `arqueta_cup_lbt_id`. -/
def addCupsRowNG (dup230 : MGraph → String → Option MGraph) (idCT : String)
    (matr : List (String × String × ℚ)) (lbt : List (String × String))
    (g : MGraph) (r : CupsRow) (lbtN : String) : Option (MGraph × String) :=
  let amm := if r.ammFase == "R" || r.ammFase == "S" || r.ammFase == "T"
    then r.ammFase else "R"
  match lookupMatr matr r.cups with
  | none => none
  | some (arq, dist) =>
    let a1 := arq ++ "_" ++ lbtN
    let a2 := if stripDot0 arq == "1" then idCT ++ "_" ++ r.lbtId else a1
    if stripDot0 arq == "0" then none
    else
      let a3 := if g.hasNode a2 then a2 else
        (match lbt.find? (fun p =>
            g.hasNode (arq ++ "_" ++ p.1) && p.2 == r.trafo) with
         | some p => arq ++ "_" ++ p.1
         | none => a2)
      let longitud := if (50 : ℚ) < dist then (50 : ℚ) else dist
      match (if 200 ≤ r.qbtTension ∧ r.qbtTension < 350 then
               (dup230 g a3).map (fun g1 => (g1, a3 ++ "_230", (230 : ℤ)))
             else some (g, a3, (400 : ℤ))) with
      | none => none
      | some (g1, a4, qv) =>
        let g2 := if g1.hasNode r.cups then g1 else addCupsEdge g1 a4 r.cups
        let g3 := setCupsNode g2 r.cups r.trafo amm r.tipoConexion qv
          r.cupsX r.cupsY
        match setCupsEdge a4 r.cups r.trafo longitud qv g3.edges with
        | none => none
        | some es => some ({ g3 with edges := es }, a4)

lemma setCupsEdge_find (u v trc : String) (long : ℚ) (qv : ℤ) :
    ∀ {es es' : List MEdge}, setCupsEdge u v trc long qv es = some es' →
      ∃ e, firstEdgeBetween es' u v = some e ∧ e.long = long := by
  intro es
  induction es with
  | nil => intro es' h; exact Option.noConfusion h
  | cons e t ih =>
      intro es' h
      rw [setCupsEdge] at h
      split at h
      · rename_i hse
        injection h with h'
        refine ⟨{ e with long := long, pRL := 0, qRL := 0, pSL := 0,
                          qSL := 0, pTL := 0, qTL := 0, tr := trc,
                          qbt := qv },
          ?_, rfl⟩
        rw [← h']
        exact List.find?_cons_of_pos _ hse
      · rename_i hse
        have hse2 : sameEnds e u v = false := by
          cases hb : sameEnds e u v
          · rfl
          · exact absurd hb hse
        rcases Option.map_eq_some'.mp h with ⟨t', ht', hes⟩
        subst hes
        rcases ih ht' with ⟨e0, hf, hl⟩
        refine ⟨e0, ?_, hl⟩
        simp only [firstEdgeBetween, List.find?_cons, hse2]
        exact hf

/-- C10: in the non-GISS branch of `add_cups_grafo`, whenever one
customer row is processed to completion, the span stored between the
resolved nearest node and the customer carries
`Long = Distancia` capped at 50 (lines 1819-1822 and 1979-1980): the
stored length is the distance-matrix value when it is at most 50, and
exactly 50 whenever that value exceeds 50. -/
theorem C10_customer_span_capped
    (dup230 : MGraph → String → Option MGraph) (idCT : String)
    (matr : List (String × String × ℚ)) (lbt : List (String × String))
    (g : MGraph) (r : CupsRow) (lbtN : String) (g' : MGraph) (a : String)
    (arq : String) (dist : ℚ)
    (hm : lookupMatr matr r.cups = some (arq, dist))
    (h : addCupsRowNG dup230 idCT matr lbt g r lbtN = some (g', a)) :
    ∃ e, firstEdgeBetween g'.edges a r.cups = some e ∧
      e.long = (if 50 < dist then 50 else dist) ∧
      (50 < dist → e.long = 50) := by
  unfold addCupsRowNG at h
  rw [hm] at h
  dsimp only at h
  split at h
  · exact Option.noConfusion h
  · split at h
    · exact Option.noConfusion h
    · rename_i g1 a4 qv hveq
      split at h
      · exact Option.noConfusion h
      · rename_i es hsce
        injection h with h'
        have hg : _ = g' := congrArg Prod.fst h'
        have ha : a4 = a := congrArg Prod.snd h'
        subst hg
        subst ha
        rcases setCupsEdge_find _ _ _ _ _ hsce with ⟨e0, hf, hl⟩
        refine ⟨e0, hf, hl, ?_⟩
        intro hd
        rw [hl, if_pos hd]

/-- Input graph for the C10 witness: substation `CT` and the node
`N1_L1` the distance matrix resolves the customer to. -/
def C10g : MGraph := { nodes := [("CT", {}), ("N1_L1", {})], edges := [] }

/-- The customer row of the C10 witness (400 V, transformer `T1`). -/
def C10row : CupsRow :=
  { cups := "CUP1", lbtId := "L1", trafo := "T1", qbtTension := 400 }

/-- Output graph of `addCupsRowNG` on the C10 witness input: the
customer node is attached to `N1_L1` by a span whose length is capped
at 50 although the distance-matrix value is 60. -/
def C10out : MGraph :=
  { nodes := [("CT", {}), ("N1_L1", {}),
      ("CUP1", { tr := "T1", tipoNodo := "CUPS", nAnt := 1,
                 ammFase := "R" })],
    edges := [{ a := "N1_L1", b := "CUP1", tr := "T1", long := 50 }] }

theorem C10_customer_span_capped_witness :
    ∃ e, firstEdgeBetween C10out.edges "N1_L1" "CUP1" = some e ∧
      e.long = (if (50 : ℚ) < 60 then (50 : ℚ) else 60) ∧
      ((50 : ℚ) < 60 → e.long = 50) :=
  C10_customer_span_capped (fun _ _ => none) "CT"
    [("CUP1", "N1", 60)] [] C10g C10row "L1" C10out "N1_L1" "N1" 60
    (by decide) (by decide)

/-! ### The hourly resolution loop of `main` (graphanalysis.py 2887-3453)
and the unconditional early `return` that precedes it. -/

/-- One date's hour loop (the `for colum_hora in diccionario_horas.keys()`
loop at 2987-3453): each iteration injects the hour's load curves and
invokes `resuelve_grafo` once; `if CCH_Data_Error == 4: break` at
3012-3015 leaves the hour loop; the zero-aggregate branch at 3306-3310
advances `fecha_datetime` by one day and `continue`s with the next hour.
`errOf h` is the `CCH_Data_Error` the resolver returns for hour column
`h` and `zAgg h` whether the zero-aggregate branch fires.  Returns the
number of `resuelve_grafo` invocations performed and the number of extra
day advances the zero-aggregate branch produced. -/
def hourLoop (errOf : ℕ → ℕ) (zAgg : ℕ → Bool) : List ℕ → ℕ × ℕ
  | [] => (0, 0)
  | h :: hs =>
    if errOf h == 4 then (1, 0)
    else
      let r := hourLoop errOf zAgg hs
      (1 + r.1, (if zAgg h then 1 else 0) + r.2)

/-- The date loop of `main` (`while fecha_datetime < fecha_fin + 1 day` at
2904-3453): dates whose load-curve selection is empty are skipped with a
one-day advance (2976-2978); otherwise the hour loop runs, and the day
then advances by one (3453) on top of any zero-aggregate advances.  The
fuel argument only bounds the recursion: each pass advances the day by at
least one, so `finD + 1 - iniD` passes always suffice.  Counts the
`resuelve_grafo` invocations. -/
def dateLoopAux (hasCch : ℕ → Bool) (errOf : ℕ → ℕ → ℕ)
    (zAgg : ℕ → ℕ → Bool) (hours : List ℕ) (finD : ℕ) :
    ℕ → ℕ → ℕ
  | 0, _ => 0
  | fuel + 1, cur =>
    if cur < finD + 1 then
      if hasCch cur then
        (hourLoop (errOf cur) (zAgg cur) hours).1 +
          dateLoopAux hasCch errOf zAgg hours finD fuel
            (cur + (hourLoop (errOf cur) (zAgg cur) hours).2 + 1)
      else
        dateLoopAux hasCch errOf zAgg hours finD fuel (cur + 1)
    else 0

/-- The date loop started at `fecha_ini` (`iniD`) with sufficient fuel. -/
def dateLoopCalls (hasCch : ℕ → Bool) (errOf : ℕ → ℕ → ℕ)
    (zAgg : ℕ → ℕ → Bool) (hours : List ℕ) (iniD finD : ℕ) : ℕ :=
  dateLoopAux hasCch errOf zAgg hours finD (finD + 1 - iniD) iniD

/-- The reachable tail of `main` after graph assembly and analysis: the
"ELIMINAR" debug block at 2887-2889 is `print(cups_agregado_CT); return`,
an unconditional return, so `main` exits before the load-curve reading at
2895-2902 and before the whole date loop at 2904-3453.  The translation
of the statements `main` actually reaches performs zero `resuelve_grafo`
invocations, whatever the date range and load curves are; `dateLoopCalls`
above is the translation of the dead loop that follows the `return`. -/
def mainTailCalls (hasCch : ℕ → Bool) (errOf : ℕ → ℕ → ℕ)
    (zAgg : ℕ → ℕ → Bool) (hours : List ℕ) (iniD finD : ℕ) : ℕ := 0

lemma hourLoop_clean {errOf : ℕ → ℕ} {zAgg : ℕ → Bool}
    (he : ∀ h, errOf h ≠ 4) (hz : ∀ h, zAgg h = false) (hs : List ℕ) :
    hourLoop errOf zAgg hs = (hs.length, 0) := by
  induction hs with
  | nil => rfl
  | cons h t ih =>
      rw [hourLoop]
      have h4 : (errOf h == 4) = false := by
        simp only [beq_eq_false_iff_ne, ne_eq]
        exact he h
      rw [h4]
      dsimp only
      rw [ih, hz h]
      simp [Nat.add_comm]

lemma dateLoopAux_clean {hasCch : ℕ → Bool} {errOf : ℕ → ℕ → ℕ}
    {zAgg : ℕ → ℕ → Bool} {hours : List ℕ} {finD : ℕ}
    (he : ∀ d h, errOf d h ≠ 4) (hz : ∀ d h, zAgg d h = false)
    (hc : ∀ d, hasCch d = true) :
    ∀ fuel cur, finD + 1 - cur ≤ fuel →
      dateLoopAux hasCch errOf zAgg hours finD fuel cur
        = (finD + 1 - cur) * hours.length := by
  intro fuel
  induction fuel with
  | zero =>
      intro cur hle
      rw [dateLoopAux]
      have h0 : finD + 1 - cur = 0 := by omega
      rw [h0, Nat.zero_mul]
  | succ n ih =>
      intro cur hle
      rw [dateLoopAux]
      by_cases hcur : cur < finD + 1
      · rw [if_pos hcur, if_pos (hc cur)]
        rw [hourLoop_clean (he cur) (hz cur)]
        dsimp only
        rw [ih (cur + 0 + 1) (by omega)]
        have h1 : finD + 1 - cur = (finD + 1 - (cur + 0 + 1)) + 1 := by
          omega
        rw [h1, Nat.succ_mul]
        omega
      · rw [if_neg hcur]
        have h0 : finD + 1 - cur = 0 := by omega
        rw [h0, Nat.zero_mul]

/-- C1: the engine never invokes the hourly load-propagation and
loss-resolution step: the unconditional `return` in the "ELIMINAR" debug
block at graphanalysis.py 2887-2889 makes `main` exit right after graph
assembly, so the per-date hour loop at 2904-3453 is dead code.  Had the
loop been reachable, it would have invoked `resuelve_grafo` exactly once
per hour column of every date of the configured range (shown here for
runs with load curves on every date and no error-4 or zero-aggregate
outcome), but `main` as written performs zero invocations. -/
theorem C1_hourly_resolution_unreachable
    (hasCch : ℕ → Bool) (errOf : ℕ → ℕ → ℕ) (zAgg : ℕ → ℕ → Bool)
    (hours : List ℕ) (iniD finD : ℕ)
    (he : ∀ d h, errOf d h ≠ 4) (hz : ∀ d h, zAgg d h = false)
    (hc : ∀ d, hasCch d = true) :
    mainTailCalls hasCch errOf zAgg hours iniD finD = 0 ∧
      dateLoopCalls hasCch errOf zAgg hours iniD finD
        = (finD + 1 - iniD) * hours.length := by
  refine ⟨rfl, ?_⟩
  unfold dateLoopCalls
  exact dateLoopAux_clean he hz hc (finD + 1 - iniD) iniD (le_refl _)

theorem C1_hourly_resolution_unreachable_witness :
    mainTailCalls (fun _ => true) (fun _ _ => 0) (fun _ _ => false)
        [1, 2] 0 0 = 0 ∧
      dateLoopCalls (fun _ => true) (fun _ _ => 0) (fun _ _ => false)
        [1, 2] 0 0 = (0 + 1 - 0) * [1, 2].length :=
  C1_hourly_resolution_unreachable (fun _ => true) (fun _ _ => 0)
    (fun _ _ => false) [1, 2] 0 0 (fun _ _ => by norm_num)
    (fun _ _ => rfl) (fun _ => rfl)

lemma hourLoop_break {errOf : ℕ → ℕ} {zAgg : ℕ → Bool} {h0 : ℕ}
    (h4 : errOf h0 = 4) :
    ∀ hs1 hs2 : List ℕ, (∀ x ∈ hs1, errOf x ≠ 4) →
      (hourLoop errOf zAgg (hs1 ++ h0 :: hs2)).1 = hs1.length + 1 := by
  intro hs1
  induction hs1 with
  | nil =>
      intro hs2 _
      rw [List.nil_append, hourLoop]
      have h4b : (errOf h0 == 4) = true := by
        simp only [beq_iff_eq]
        exact h4
      rw [h4b, if_pos rfl]
      rfl
  | cons a t ih =>
      intro hs2 hok
      rw [List.cons_append, hourLoop]
      have ha : (errOf a == 4) = false := by
        simp only [beq_eq_false_iff_ne, ne_eq]
        exact hok a (List.mem_cons_self a t)
      rw [ha]
      dsimp only
      rw [ih hs2 (fun x hx => hok x (List.mem_cons_of_mem a hx))]
      simp [List.length_cons]
      omega

/-- C3 counterexample: with three hour columns and an error-4 resolution
at the second one, the hour loop performs only 2 of the 3 resolver
invocations — the `break` at 3012-3015 also skips the third hour, so the
abort is NOT confined to "that hour only"; the second conjunct shows the
date loop still processes the following date (2 invocations on each of
the two dates), so the rest of the run is indeed not skipped. -/
theorem C3_error4_skips_rest_of_day :
    (hourLoop (fun h => if h == 2 then 4 else 0) (fun _ => false)
        [1, 2, 3]).1 = 2 ∧
      dateLoopCalls (fun _ => true) (fun _ h => if h == 2 then 4 else 0)
        (fun _ _ => false) [1, 2, 3] 0 1 = 4 := by decide

/-- C3 (amended): when a run of the splitting-node loop makes no progress,
`resuelve_grafo` reports `CCH_Data_Error = 4` and `main` breaks out of the
hour loop: the resolver is invoked once for every hour column before the
failing one and once for the failing hour itself, and the REMAINING hour
columns of that date are skipped as well (not "that hour only"); the date
loop then continues with the following dates, so the rest of the run is
preserved. -/
theorem C3_error4_day_break_amended
    (hasCch : ℕ → Bool) (errOf : ℕ → ℕ → ℕ) (zAgg : ℕ → ℕ → Bool)
    (hours hs1 hs2 : List ℕ) (h0 : ℕ) (finD fuel cur : ℕ)
    (hsplit : hours = hs1 ++ h0 :: hs2)
    (hok : ∀ x ∈ hs1, errOf cur x ≠ 4) (h4 : errOf cur h0 = 4)
    (hcch : hasCch cur = true) (hlt : cur < finD + 1) :
    (hourLoop (errOf cur) (zAgg cur) hours).1 = hs1.length + 1 ∧
      dateLoopAux hasCch errOf zAgg hours finD (fuel + 1) cur
        = (hs1.length + 1)
          + dateLoopAux hasCch errOf zAgg hours finD fuel
              (cur + (hourLoop (errOf cur) (zAgg cur) hours).2 + 1) := by
  have h1 : (hourLoop (errOf cur) (zAgg cur) hours).1 = hs1.length + 1 := by
    rw [hsplit]
    exact hourLoop_break h4 hs1 hs2 hok
  refine ⟨h1, ?_⟩
  rw [dateLoopAux, if_pos hlt, if_pos hcch, h1]

theorem C3_error4_day_break_amended_witness :
    (hourLoop (fun h => if h == 2 then 4 else 0) (fun _ => false)
        [1, 2, 3]).1 = 2 ∧
      dateLoopAux (fun _ => true) (fun _ h => if h == 2 then 4 else 0)
          (fun _ _ => false) [1, 2, 3] 1 2 0
        = 2 + dateLoopAux (fun _ => true)
            (fun _ h => if h == 2 then 4 else 0) (fun _ _ => false)
            [1, 2, 3] 1 1
            (0 + (hourLoop (fun h => if h == 2 then 4 else 0)
              (fun _ => false) [1, 2, 3]).2 + 1) :=
  C3_error4_day_break_amended (fun _ => true)
    (fun _ h => if h == 2 then 4 else 0) (fun _ _ => false)
    [1, 2, 3] [1] [3] 2 1 1 0 (by decide) (by decide) (by decide)
    (by decide) (by decide)

/-! ### Load injection (`add_cch_grafo`, graphanalysis.py 2081-2254) and
hourly resolution (`resuelve_grafo`, 2259-2545). -/

/-- The two zeroing loops at the head of `add_cch_grafo` (2102-2117):
every span's six phase-loss accumulators and every node's six phase
accumulators are set to `0` before the hour's load curves are applied. -/
def zeroAccums (g : MGraph) : MGraph :=
  { nodes := g.nodes.map (fun p =>
      (p.1, { p.2 with pR := 0, qR := 0, pS := 0, qS := 0, pT := 0,
                       qT := 0 })),
    edges := g.edges.map (fun e =>
      { e with pRL := 0, qRL := 0, pSL := 0, qSL := 0, pTL := 0,
               qTL := 0 }) }

/-- `G.nodes[v]` as a read (`KeyError` is `none`). -/
def getAttr? (g : MGraph) (v : String) : Option NodeAttr :=
  (g.nodes.find? (fun pr => pr.1 == v)).map Prod.snd

/-- `G.nodes[v][...] = ...`: pointwise attribute update of node `v`. -/
def updNode (g : MGraph) (v : String) (f : NodeAttr → NodeAttr) : MGraph :=
  { g with nodes := g.nodes.map (fun p =>
      if p.1 == v then (p.1, f p.2) else p) }

/-- `str(list(G.edges(v))[0][1])`: the opposite endpoint of the first edge
incident to `v`; `IndexError` (`none`) when `v` has no edge. -/
def firstNbr (g : MGraph) (v : String) : Option String :=
  match g.edges.filter (fun e => touchesE e v) with
  | [] => none
  | e :: _ => some (if e.a == v then e.b else e.a)

/-- `df.loc[df['CUPS'] == c].sort_values(colum_hora, ascending=False)
.reset_index(drop=True)[colum_hora][0]`: the first row of the stable
descending sort carries the maximum hour value among the rows of customer
`c`; `none` when the customer has no row (the `len(...) >= 1` guard). -/
def maxValFor (rows : List (String × ℚ)) (c : String) : Option ℚ :=
  match (rows.filter (fun r => r.1 == c)).map Prod.snd with
  | [] => none
  | v :: vs => some (vs.foldl max v)

/-- Read of the dynamic attribute name `'P_' + fase + '_0'`
(`fase` is always one of `R`, `S`, `T`). -/
def getPph (a : NodeAttr) (f : String) : ℚ :=
  if f == "S" then a.pS else if f == "T" then a.pT else a.pR

def getQph (a : NodeAttr) (f : String) : ℚ :=
  if f == "S" then a.qS else if f == "T" then a.qT else a.qR

def setPph (a : NodeAttr) (f : String) (v : ℚ) : NodeAttr :=
  if f == "S" then { a with pS := v }
  else if f == "T" then { a with pT := v }
  else { a with pR := v }

def setQph (a : NodeAttr) (f : String) (v : ℚ) : NodeAttr :=
  if f == "S" then { a with qS := v }
  else if f == "T" then { a with qT := v }
  else { a with qR := v }

/-- One row of the consumption loop of `add_cch_grafo` (2120-2188): take
the customer's maximum hour value; when it is positive read the phase and
connection type from the customer node (`KeyError` when the customer is
not a graph node; phase falls back to `R`), else default to zero power on
phase `R`, single-phase; find the node the customer hangs from
(`IndexError` when it has no edge) and add the power there: single-phase
on the measured phase (the customer's own attribute is assigned), or a
third per phase when three-phase; an unrecognised connection type only
logs. -/
def injectAE (rows : List (String × ℚ)) (g : MGraph) (c : String) :
    Option MGraph :=
  match maxValFor rows c with
  | none => some g
  | some mx =>
    match (if 0 < mx then
             match getAttr? g c with
             | none => none
             | some a =>
               some (if 0 < mx then mx else 0, (0 : ℚ),
                 if a.ammFase == "R" || a.ammFase == "S" ||
                     a.ammFase == "T" then a.ammFase else "R",
                 a.tipoConexion)
           else some ((0 : ℚ), (0 : ℚ), "R", "MONOFASICO")) with
    | none => none
    | some (p, qv, fase, tipo) =>
      match firstNbr g c with
      | none => none
      | some nd =>
        if tipo == "MONOFASICO" then
          let g1 := updNode g c (fun a => setQph (setPph a fase p) fase qv)
          let g2 := updNode g1 nd (fun a =>
            setPph a fase (getPph a fase + p))
          some (updNode g2 nd (fun a =>
            setQph a fase (getQph a fase +
              getQph (nodeAttrOf g2 c) fase)))
        else if tipo == "TRIFASICO" then
          let g1 := updNode g c (fun a =>
            { a with pR := p / 3, qR := qv / 3, pS := p / 3, qS := qv / 3,
                     pT := p / 3, qT := qv / 3 })
          some (updNode g1 nd (fun a =>
            { a with pR := a.pR + p / 3, qR := a.qR + qv / 3,
                     pS := a.pS + p / 3, qS := a.qS + qv / 3,
                     pT := a.pT + p / 3, qT := a.qT + qv / 3 }))
        else some g

/-- One row of the self-consumption loop (2192-2252): identical shape but
the power is the negated maximum (`-1 * float(...)`, clamped to `0` when
not negative) and the customer's own attributes are incremented (`+=`)
instead of assigned. -/
def injectAS (rows : List (String × ℚ)) (g : MGraph) (c : String) :
    Option MGraph :=
  match maxValFor rows c with
  | none => some g
  | some mx =>
    match (if 0 < mx then
             match getAttr? g c with
             | none => none
             | some a =>
               some (if -mx < 0 then -mx else 0, (0 : ℚ),
                 if a.ammFase == "R" || a.ammFase == "S" ||
                     a.ammFase == "T" then a.ammFase else "R",
                 a.tipoConexion)
           else some ((0 : ℚ), (0 : ℚ), "R", "MONOFASICO")) with
    | none => none
    | some (p, qv, fase, tipo) =>
      match firstNbr g c with
      | none => none
      | some nd =>
        if tipo == "MONOFASICO" then
          let g1 := updNode g c (fun a =>
            setQph (setPph a fase (getPph a fase + p)) fase
              (getQph a fase + qv))
          let g2 := updNode g1 nd (fun a =>
            setPph a fase (getPph a fase + p))
          some (updNode g2 nd (fun a =>
            setQph a fase (getQph a fase +
              getQph (nodeAttrOf g2 c) fase)))
        else if tipo == "TRIFASICO" then
          let g1 := updNode g c (fun a =>
            { a with pR := a.pR + p / 3, qR := a.qR + qv / 3,
                     pS := a.pS + p / 3, qS := a.qS + qv / 3,
                     pT := a.pT + p / 3, qT := a.qT + qv / 3 })
          some (updNode g1 nd (fun a =>
            { a with pR := a.pR + p / 3, qR := a.qR + qv / 3,
                     pS := a.pS + p / 3, qS := a.qS + qv / 3,
                     pT := a.pT + p / 3, qT := a.qT + qv / 3 }))
        else some g

/-- `for index, row in df.iterrows()` driving one of the injection
loops. -/
def foldRows (inj : MGraph → String → Option MGraph) :
    List (String × ℚ) → MGraph → Option MGraph
  | [], g => some g
  | r :: rs, g =>
    match inj g r.1 with
    | none => none
    | some g1 => foldRows inj rs g1

/-- `add_cch_grafo` for one hour column: the rows of `df_AE_fecha` and
`df_AS_fecha` are pre-projected to `(CUPS, hour value)` pairs.  Zero every
accumulator, then run the consumption loop and the self-consumption
loop. -/
def addCch (aeR asR : List (String × ℚ)) (g : MGraph) : Option MGraph :=
  match foldRows (injectAE aeR) aeR (zeroAccums g) with
  | none => none
  | some g1 => foldRows (injectAS asR) asR g1

/-- Head of `resuelve_grafo` (2283-2285): every node that is not a
customer gets `Enlaces_iter` reset from `Enlaces_orig`. -/
def resetIter (g : MGraph) : MGraph :=
  { g with nodes := g.nodes.map (fun p =>
      if p.2.tipoNodo != "CUPS" && p.2.tipoNodo != "CUPS_TR" then
        (p.1, { p.2 with enlacesIter := p.2.enlacesOrig })
      else p) }

/-- The parallel edges between a pair, in key order: the
`for i in range(0,1000000): try G.edges[(row2, nodo_old, i)]` counting
loop (2297-2303) sees exactly these. -/
def matchingEdges (g : MGraph) (u v : String) : List MEdge :=
  g.edges.filter (fun e => sameEnds e u v)

/-- Update the key-`i` edge of the pair `u`-`v` in place. -/
def updMatchingList (u v : String) (i : ℕ) (f : MEdge → MEdge) :
    List MEdge → List MEdge
  | [] => []
  | e :: es =>
    if sameEnds e u v then
      (if i == 0 then f e :: es else e :: updMatchingList u v (i - 1) f es)
    else e :: updMatchingList u v i f es

def updEdgeAt (g : MGraph) (u v : String) (i : ℕ) (f : MEdge → MEdge) :
    MGraph :=
  { g with edges := updMatchingList u v i f g.edges }

/-- One phase's span loss (2311-2355): current
`I = sqrt((P*1000)^2 + (Q*1000)^2) / (V_Linea / sqrt(3)) / N_anteriores`,
resistance from the Conductor model (`Rof` is
`Conductor(); fload_library(cable); fset_t1(temp); fset_i(I);
fcompute_r()` — a pure function of the cable name and current at the
run's fixed temperature) scaled by `Long/1000`, and the pair
`(R*I^2/1000, X_cable*I^2/1000)` in kW. -/
def phaseLoss (sq : ℚ → ℚ) (Rof : String → ℚ → ℚ) (xc : ℚ)
    (v n : ℚ) (cb : String) (lg p q : ℚ) : ℚ × ℚ :=
  let i := sq ((p * 1000) ^ 2 + (q * 1000) ^ 2) / (v / sq 3) / n
  let r := Rof cb i * lg / 1000
  (r * i ^ 2 / 1000, xc * i ^ 2 / 1000)

/-- The `for i in range(0, N_anteriores)` body (2305-2398): pick
`V_Linea` from `QBT_TENSION` (the Python local keeps its previous value
on any other voltage and is unbound — a crash — on first use), compute
the three phase losses from the lower node's accumulators, add them to
the key-`i` span (subtract when the phase power is negative:
self-consumption), and accumulate onto the upper node — the lower node's
power is carried over only at `i == 0`. -/
def edgeIter (sq : ℚ → ℚ) (Rof : String → ℚ → ℚ) (v4 v2 xc : ℚ)
    (row2 old : String) (n : ℚ) :
    List MEdge → ℕ → MGraph → Option ℚ → Option (MGraph × Option ℚ)
  | [], _, g, vl => some (g, vl)
  | e :: es, i, g, vl =>
    match (if e.qbt == 400 then some v4
           else if e.qbt == 230 then some v2 else vl) with
    | none => none
    | some v =>
      let a := nodeAttrOf g old
      let rr := phaseLoss sq Rof xc v n e.cable e.long a.pR a.qR
      let rs := phaseLoss sq Rof xc v n e.cable e.long a.pS a.qS
      let rt := phaseLoss sq Rof xc v n e.cable e.long a.pT a.qT
      let g1 := updEdgeAt g row2 old i (fun ed =>
        { ed with
          pRL := if a.pR < 0 then ed.pRL - rr.1 else ed.pRL + rr.1,
          qRL := if a.pR < 0 then ed.qRL - rr.2 else ed.qRL + rr.2,
          pSL := if a.pS < 0 then ed.pSL - rs.1 else ed.pSL + rs.1,
          qSL := if a.pS < 0 then ed.qSL - rs.2 else ed.qSL + rs.2,
          pTL := if a.pT < 0 then ed.pTL - rt.1 else ed.pTL + rt.1,
          qTL := if a.pT < 0 then ed.qTL - rt.2 else ed.qTL + rt.2 })
      let g2 := updNode g1 row2 (fun b =>
        if i == 0 then
          { b with pR := b.pR + a.pR + rr.1, qR := b.qR + a.qR + rr.2,
                   pS := b.pS + a.pS + rs.1, qS := b.qS + a.qS + rs.2,
                   pT := b.pT + a.pT + rt.1, qT := b.qT + a.qT + rt.2 }
        else
          { b with pR := b.pR + rr.1, qR := b.qR + rr.2,
                   pS := b.pS + rs.1, qS := b.qS + rs.2,
                   pT := b.pT + rt.1, qT := b.qT + rt.2 })
      edgeIter sq Rof v4 v2 xc row2 old n es (i + 1) g2 (some v)

/-- The upward walk of the end-node pass (2295-2410): hop by hop along
the reversed route, run the span loop, decrement the lower node's
`Enlaces_iter`, and on reaching a splitting node decrement it too and
stop. -/
def walk1 (sq : ℚ → ℚ) (Rof : String → ℚ → ℚ) (v4 v2 xc : ℚ)
    (splitting : List String) :
    List String → String → MGraph → Option ℚ → Option (MGraph × Option ℚ)
  | [], _, g, vl => some (g, vl)
  | row2 :: rest, old, g, vl =>
    let ms := matchingEdges g row2 old
    match edgeIter sq Rof v4 v2 xc row2 old (ms.length : ℚ) ms 0 g vl with
    | none => none
    | some (g1, vl1) =>
      let g2 := updNode g1 old (fun b =>
        { b with enlacesIter := b.enlacesIter - 1 })
      if splitting.contains row2 then
        some (updNode g2 row2 (fun b =>
          { b with enlacesIter := b.enlacesIter - 1 }), vl1)
      else walk1 sq Rof v4 v2 xc splitting rest row2 g2 vl1

/-- Python `list.remove(x)`: drop the first occurrence. -/
def removeFirst (x : String) : List String → List String
  | [] => []
  | y :: ys => if y == x then ys else y :: removeFirst x ys

/-- The end-node pass (2288-2410): for each terminal node take the
shortest path from the substation (a raised `NetworkXNoPath` is `none`),
drop the node itself and walk it upward. -/
def phase1 (sp : MGraph → String → String → Option (List String))
    (sq : ℚ → ℚ) (Rof : String → ℚ → ℚ) (v4 v2 xc : ℚ) (ct : String)
    (splitting : List String) :
    List String → MGraph → Option ℚ → Option (MGraph × Option ℚ)
  | [], g, vl => some (g, vl)
  | r :: rs, g, vl =>
    match sp g ct r with
    | none => none
    | some ruta =>
      match walk1 sq Rof v4 v2 xc splitting
          ((removeFirst r ruta).reverse) r g vl with
      | none => none
      | some (g1, vl1) => phase1 sp sq Rof v4 v2 xc ct splitting rs g1 vl1

/-- The upward walk of the splitting pass (2420-2537): like `walk1`, but
a splitting node with `Enlaces_iter > 2` is decremented, sets
`salir_bucle` and stops, while one with at most 2 is recorded in
`nodos_utilizados` and the walk continues through it. -/
def walk2 (sq : ℚ → ℚ) (Rof : String → ℚ → ℚ) (v4 v2 xc : ℚ)
    (splitting : List String) :
    List String → String → MGraph → Option ℚ → List String →
      Option (MGraph × Option ℚ × List String × Bool)
  | [], _, g, vl, used => some (g, vl, used, false)
  | row2 :: rest, old, g, vl, used =>
    let ms := matchingEdges g row2 old
    match edgeIter sq Rof v4 v2 xc row2 old (ms.length : ℚ) ms 0 g vl with
    | none => none
    | some (g1, vl1) =>
      let g2 := updNode g1 old (fun b =>
        { b with enlacesIter := b.enlacesIter - 1 })
      if splitting.contains row2 then
        (if 2 < (nodeAttrOf g2 row2).enlacesIter then
          some (updNode g2 row2 (fun b =>
            { b with enlacesIter := b.enlacesIter - 1 }), vl1, used, true)
        else walk2 sq Rof v4 v2 xc splitting rest row2 g2 vl1
          (used ++ [row2]))
      else walk2 sq Rof v4 v2 xc splitting rest row2 g2 vl1 used

/-- One `for row in splitting_nodes_sin_cups` pass of the iterative stage
(2413-2539): rows whose `Enlaces_iter` has reached exactly 1 and that were
not used yet are walked upward; each one resets the no-progress flag `a`,
is appended to `nodos_utilizados` and the list is deduplicated. -/
def pass2 (sp : MGraph → String → String → Option (List String))
    (sq : ℚ → ℚ) (Rof : String → ℚ → ℚ) (v4 v2 xc : ℚ) (ct : String)
    (splitting : List String) :
    List String → MGraph → Option ℚ → List String → Bool → Bool →
      Option (MGraph × Option ℚ × List String × Bool × Bool)
  | [], g, vl, used, a, salir => some (g, vl, used, a, salir)
  | r :: rs, g, vl, used, a, salir =>
    if (nodeAttrOf g r).enlacesIter == 1 && !(used.contains r) then
      match sp g ct r with
      | none => none
      | some ruta =>
        match walk2 sq Rof v4 v2 xc splitting
            ((removeFirst r ruta).reverse) r g vl used with
        | none => none
        | some (g1, vl1, used1, sal1) =>
          pass2 sp sq Rof v4 v2 xc ct splitting rs g1 vl1
            (pyDedupBy id (used1 ++ [r])) false (salir || sal1)
    else pass2 sp sq Rof v4 v2 xc ct splitting rs g vl used a salir

/-- The `while len(nodos_utilizados) < len(splitting...) and
salir_bucle == 0` loop (2412-2545): run passes until every splitting node
is used or `salir_bucle` fires; a pass that finds no workable node leaves
`a == 1`, reports `CCH_Data_Error = 4` and stops.  Every productive pass
grows `nodos_utilizados` by at least the fresh node it processed, so
`splitting.length + 1` rounds of fuel always suffice. -/
def loop2 (sp : MGraph → String → String → Option (List String))
    (sq : ℚ → ℚ) (Rof : String → ℚ → ℚ) (v4 v2 xc : ℚ) (ct : String)
    (splitting : List String) :
    ℕ → MGraph → Option ℚ → List String → Bool → ℕ →
      Option (MGraph × ℕ)
  | 0, _, _, _, _, _ => none
  | fuel + 1, g, vl, used, salir, err =>
    if used.length < splitting.length && salir == false then
      match pass2 sp sq Rof v4 v2 xc ct splitting splitting g vl used
          true salir with
      | none => none
      | some (g1, vl1, used1, a1, salir1) =>
        if a1 then some (g1, 4)
        else loop2 sp sq Rof v4 v2 xc ct splitting fuel g1 vl1 used1
          salir1 err
    else some (g, err)

/-- `resuelve_grafo` (2259-2545): reset the non-customer `Enlaces_iter`
counters, run the end-node pass and then the iterative splitting stage.
Returns the updated graph and `CCH_Data_Error` (unchanged unless the
splitting stage stalls, which sets it to 4).  The parameter
`nodos_cups_descendientes` of the source is never read by the body and is
omitted. -/
def resuelve (sp : MGraph → String → String → Option (List String))
    (sq : ℚ → ℚ) (Rof : String → ℚ → ℚ) (v4 v2 xc : ℚ) (ct : String)
    (endNodes splitting : List String) (g : MGraph) (err : ℕ) :
    Option (MGraph × ℕ) :=
  match phase1 sp sq Rof v4 v2 xc ct splitting endNodes (resetIter g)
      none with
  | none => none
  | some (g1, vl1) =>
    loop2 sp sq Rof v4 v2 xc ct splitting (splitting.length + 1) g1 vl1
      [] false err

/-! ### Idempotence machinery: the injection step rewrites every
accumulator from non-accumulator data, so states that agree outside the
accumulators (and outside the iteration counters, which the resolver
itself resets) drive the two functions in lockstep. -/

/-- Blank out `Enlaces_iter`. -/
def maskIterA (a : NodeAttr) : NodeAttr := { a with enlacesIter := 0 }

/-- Blank out the six node phase accumulators. -/
def maskAccA (a : NodeAttr) : NodeAttr :=
  { a with pR := 0, qR := 0, pS := 0, qS := 0, pT := 0, qT := 0 }

/-- Blank out the six span loss accumulators. -/
def maskAccE (e : MEdge) : MEdge :=
  { e with pRL := 0, qRL := 0, pSL := 0, qSL := 0, pTL := 0, qTL := 0 }

/-- Customer node kinds (`Tipo_Nodo` of `CUPS` and `CUPS_TR`). -/
def cupsKind (t : String) : Bool := t == "CUPS" || t == "CUPS_TR"

def phi1 (p : String × NodeAttr) : String × NodeAttr := (p.1, maskIterA p.2)

def phi2 (p : String × NodeAttr) : String × NodeAttr :=
  (p.1, if cupsKind p.2.tipoNodo then maskIterA p.2 else p.2)

def phi0 (p : String × NodeAttr) : String × NodeAttr :=
  (p.1, maskIterA (maskAccA p.2))

/-- States that agree except on `Enlaces_iter`. -/
def E1 (g g' : MGraph) : Prop :=
  g.nodes.map phi1 = g'.nodes.map phi1 ∧ g.edges = g'.edges

/-- States that agree except on the customers' `Enlaces_iter`. -/
def E2 (g g' : MGraph) : Prop :=
  g.nodes.map phi2 = g'.nodes.map phi2 ∧ g.edges = g'.edges

/-- States that agree except on the accumulators and `Enlaces_iter` —
exactly the fields the injection/resolution pair may rewrite. -/
def R0 (g g' : MGraph) : Prop :=
  g.nodes.map phi0 = g'.nodes.map phi0 ∧
    g.edges.map maskAccE = g'.edges.map maskAccE

/-- The `Tipo_Nodo` column, unchanged by injection and resolution. -/
def tipos (g : MGraph) : List (String × String) :=
  g.nodes.map (fun p => (p.1, p.2.tipoNodo))

/-- `nodeAttrOf` over a bare node list. -/
def attrFind (ns : List (String × NodeAttr)) (v : String) : NodeAttr :=
  match ns.find? (fun pr => pr.1 == v) with
  | some pr => pr.2
  | none => {}

lemma nodeAttrOf_attrFind (g : MGraph) (v : String) :
    nodeAttrOf g v = attrFind g.nodes v := rfl

lemma phi2_parts {p q : String × NodeAttr} (h : phi2 p = phi2 q) :
    p.1 = q.1 ∧ p.2.tipoNodo = q.2.tipoNodo ∧
      maskIterA p.2 = maskIterA q.2 ∧
      (cupsKind p.2.tipoNodo = false → p.2 = q.2) := by
  have hk := congrArg Prod.fst h
  have ha := congrArg Prod.snd h
  simp only [phi2] at hk ha
  have hty : p.2.tipoNodo = q.2.tipoNodo := by
    have h2 := congrArg NodeAttr.tipoNodo ha
    by_cases hc : cupsKind p.2.tipoNodo = true <;>
      by_cases hc2 : cupsKind q.2.tipoNodo = true
    · rw [if_pos hc, if_pos hc2] at h2; exact h2
    · rw [if_pos hc, if_neg hc2] at h2; exact h2
    · rw [if_neg hc, if_pos hc2] at h2; exact h2
    · rw [if_neg hc, if_neg hc2] at h2; exact h2
  refine ⟨hk, hty, ?_, ?_⟩
  · by_cases hc : cupsKind p.2.tipoNodo = true
    · have hc2 : cupsKind q.2.tipoNodo = true := by rw [← hty]; exact hc
      rw [if_pos hc, if_pos hc2] at ha
      exact ha
    · have hc2 : ¬ cupsKind q.2.tipoNodo = true := by
        rw [← hty]; exact hc
      rw [if_neg hc, if_neg hc2] at ha
      rw [ha]
  · intro hc
    have hc' : ¬ cupsKind p.2.tipoNodo = true := by
      rw [hc]; exact Bool.false_ne_true
    have hc2 : ¬ cupsKind q.2.tipoNodo = true := by
      rw [← hty]; exact hc'
    rw [if_neg hc', if_neg hc2] at ha
    exact ha

lemma attrFind_phi2 : ∀ {ns ns' : List (String × NodeAttr)},
    ns.map phi2 = ns'.map phi2 → ∀ v,
      (attrFind ns v).tipoNodo = (attrFind ns' v).tipoNodo ∧
      maskIterA (attrFind ns v) = maskIterA (attrFind ns' v) ∧
      (cupsKind (attrFind ns v).tipoNodo = false →
        attrFind ns v = attrFind ns' v) := by
  intro ns
  induction ns with
  | nil =>
      intro ns' h v
      cases ns' with
      | nil => exact ⟨rfl, rfl, fun _ => rfl⟩
      | cons q t' => simp at h
  | cons p t ih =>
      intro ns' h v
      cases ns' with
      | nil => simp at h
      | cons q t' =>
          simp only [List.map_cons, List.cons.injEq] at h
          obtain ⟨hk, hty, hm, hnc⟩ := phi2_parts h.1
          by_cases hv : (p.1 == v) = true
          · have hv' : (q.1 == v) = true := by rw [← hk]; exact hv
            simp only [attrFind, List.find?_cons, hv, hv']
            exact ⟨hty, hm, hnc⟩
          · have hv' : ¬ (q.1 == v) = true := by rw [← hk]; exact hv
            rw [Bool.not_eq_true] at hv hv'
            simp only [attrFind, List.find?_cons, hv, hv']
            exact ih h.2 v

lemma map_comm_of_pointwise {α β : Type} (φ : α → β) (u : α → α)
    (w : β → β) (hpt : ∀ a, φ (u a) = w (φ a)) :
    ∀ l : List α, (l.map u).map φ = (l.map φ).map w := by
  intro l
  induction l with
  | nil => rfl
  | cons a t ih => simp only [List.map_cons, hpt, ih]

lemma attrFind_phi1 : ∀ {ns ns' : List (String × NodeAttr)},
    ns.map phi1 = ns'.map phi1 → ∀ v,
      maskIterA (attrFind ns v) = maskIterA (attrFind ns' v) := by
  intro ns
  induction ns with
  | nil =>
      intro ns' h v
      cases ns' with
      | nil => rfl
      | cons q t' => simp at h
  | cons p t ih =>
      intro ns' h v
      cases ns' with
      | nil => simp at h
      | cons q t' =>
          simp only [List.map_cons, List.cons.injEq] at h
          have hk0 := congrArg Prod.fst h.1
          have hm0 := congrArg Prod.snd h.1
          have hk : p.1 = q.1 := hk0
          have hm : maskIterA p.2 = maskIterA q.2 := hm0
          by_cases hv : (p.1 == v) = true
          · have hv' : (q.1 == v) = true := by rw [← hk]; exact hv
            simp only [attrFind, List.find?_cons, hv, hv']
            exact hm
          · have hv' : ¬ (q.1 == v) = true := by rw [← hk]; exact hv
            rw [Bool.not_eq_true] at hv hv'
            simp only [attrFind, List.find?_cons, hv, hv']
            exact ih h.2 v

lemma find_phi1 : ∀ {ns ns' : List (String × NodeAttr)},
    ns.map phi1 = ns'.map phi1 → ∀ v,
      (ns.find? (fun pr => pr.1 == v)).map phi1
        = (ns'.find? (fun pr => pr.1 == v)).map phi1 := by
  intro ns
  induction ns with
  | nil =>
      intro ns' h v
      cases ns' with
      | nil => rfl
      | cons q t' => simp at h
  | cons p t ih =>
      intro ns' h v
      cases ns' with
      | nil => simp at h
      | cons q t' =>
          simp only [List.map_cons, List.cons.injEq] at h
          have hk0 := congrArg Prod.fst h.1
          have hk : p.1 = q.1 := hk0
          by_cases hv : (p.1 == v) = true
          · have hv' : (q.1 == v) = true := by rw [← hk]; exact hv
            simp only [List.find?_cons, hv, hv', Option.map_some]
            exact congrArg some h.1
          · have hv' : ¬ (q.1 == v) = true := by rw [← hk]; exact hv
            rw [Bool.not_eq_true] at hv hv'
            simp only [List.find?_cons, hv, hv']
            exact ih h.2 v

lemma keys_of_phi1 {ns ns' : List (String × NodeAttr)}
    (h : ns.map phi1 = ns'.map phi1) :
    ns.map Prod.fst = ns'.map Prod.fst := by
  have h1 := congrArg (List.map Prod.fst) h
  rw [List.map_map, List.map_map] at h1
  exact h1

lemma keys_of_phi2 {ns ns' : List (String × NodeAttr)}
    (h : ns.map phi2 = ns'.map phi2) :
    ns.map Prod.fst = ns'.map Prod.fst := by
  have h1 := congrArg (List.map Prod.fst) h
  rw [List.map_map, List.map_map] at h1
  exact h1

def wAcc (v : String) (f : NodeAttr → NodeAttr)
    (q : String × NodeAttr) : String × NodeAttr :=
  if q.1 == v then (q.1, f q.2) else q

def wIter (v : String) (f : NodeAttr → NodeAttr)
    (q : String × NodeAttr) : String × NodeAttr :=
  if q.1 == v then
    (q.1, if cupsKind q.2.tipoNodo then q.2 else f q.2)
  else q

lemma updNode_nodes (g : MGraph) (v : String) (f : NodeAttr → NodeAttr) :
    (updNode g v f).nodes = g.nodes.map (wAcc v f) := by
  show g.nodes.map _ = g.nodes.map (wAcc v f)
  apply List.map_congr_left
  intro p _
  obtain ⟨k, a⟩ := p
  rfl

lemma wAcc_phi1_comm (v : String) (f : NodeAttr → NodeAttr)
    (hcm : ∀ a, maskIterA (f a) = f (maskIterA a)) :
    ∀ p, phi1 (wAcc v f p) = wAcc v f (phi1 p) := by
  intro p
  obtain ⟨k, a⟩ := p
  dsimp only [wAcc, phi1]
  by_cases hv : (k == v) = true
  · rw [if_pos hv, if_pos hv]
    dsimp only [phi1]
    exact congrArg (fun x => (k, x)) (hcm a)
  · rw [if_neg hv, if_neg hv]

lemma updNode_E1 {g g' : MGraph} (h : E1 g g') (v : String)
    (f : NodeAttr → NodeAttr)
    (hcm : ∀ a, maskIterA (f a) = f (maskIterA a)) :
    E1 (updNode g v f) (updNode g' v f) := by
  refine ⟨?_, h.2⟩
  rw [updNode_nodes, updNode_nodes]
  rw [map_comm_of_pointwise phi1 (wAcc v f) (wAcc v f)
    (wAcc_phi1_comm v f hcm) g.nodes]
  rw [map_comm_of_pointwise phi1 (wAcc v f) (wAcc v f)
    (wAcc_phi1_comm v f hcm) g'.nodes]
  rw [h.1]

lemma wAcc_phi2_comm (v : String) (f : NodeAttr → NodeAttr)
    (hty : ∀ a, (f a).tipoNodo = a.tipoNodo)
    (hcm : ∀ a, maskIterA (f a) = f (maskIterA a)) :
    ∀ p, phi2 (wAcc v f p) = wAcc v f (phi2 p) := by
  intro p
  obtain ⟨k, a⟩ := p
  dsimp only [wAcc, phi2]
  by_cases hv : (k == v) = true
  · rw [if_pos hv]
    dsimp only [phi2]
    rw [if_pos hv, hty a]
    by_cases hc : cupsKind a.tipoNodo = true
    · rw [if_pos hc, if_pos hc, hcm a]
    · rw [if_neg hc, if_neg hc]
  · rw [if_neg hv]
    dsimp only [phi2]
    rw [if_neg hv]

lemma updNode_E2_acc {g g' : MGraph} (h : E2 g g') (v : String)
    (f : NodeAttr → NodeAttr)
    (hty : ∀ a, (f a).tipoNodo = a.tipoNodo)
    (hcm : ∀ a, maskIterA (f a) = f (maskIterA a)) :
    E2 (updNode g v f) (updNode g' v f) := by
  refine ⟨?_, h.2⟩
  rw [updNode_nodes, updNode_nodes]
  rw [map_comm_of_pointwise phi2 (wAcc v f) (wAcc v f)
    (wAcc_phi2_comm v f hty hcm) g.nodes]
  rw [map_comm_of_pointwise phi2 (wAcc v f) (wAcc v f)
    (wAcc_phi2_comm v f hty hcm) g'.nodes]
  rw [h.1]

lemma wIter_phi2_comm (v : String) (f : NodeAttr → NodeAttr)
    (hty : ∀ a, (f a).tipoNodo = a.tipoNodo)
    (hmm : ∀ a, maskIterA (f a) = maskIterA a) :
    ∀ p, phi2 (wAcc v f p) = wIter v f (phi2 p) := by
  intro p
  obtain ⟨k, a⟩ := p
  dsimp only [wAcc, wIter, phi2]
  by_cases hv : (k == v) = true
  · rw [if_pos hv]
    dsimp only [phi2]
    rw [if_pos hv, hty a]
    by_cases hc : cupsKind a.tipoNodo = true
    · rw [if_pos hc, if_pos hc]
      have hmt : (maskIterA a).tipoNodo = a.tipoNodo := rfl
      rw [hmt, if_pos hc, hmm a]
    · rw [if_neg hc, if_neg hc, if_neg hc]
  · rw [if_neg hv]
    dsimp only [phi2]
    rw [if_neg hv]

lemma updNode_E2_iter {g g' : MGraph} (h : E2 g g') (v : String)
    (f : NodeAttr → NodeAttr)
    (hty : ∀ a, (f a).tipoNodo = a.tipoNodo)
    (hmm : ∀ a, maskIterA (f a) = maskIterA a) :
    E2 (updNode g v f) (updNode g' v f) := by
  refine ⟨?_, h.2⟩
  rw [updNode_nodes, updNode_nodes]
  rw [map_comm_of_pointwise phi2 (wAcc v f) (wIter v f)
    (wIter_phi2_comm v f hty hmm) g.nodes]
  rw [map_comm_of_pointwise phi2 (wAcc v f) (wIter v f)
    (wIter_phi2_comm v f hty hmm) g'.nodes]
  rw [h.1]

lemma updEdgeAt_E2 {g g' : MGraph} (h : E2 g g') (u v : String) (i : ℕ)
    (f : MEdge → MEdge) :
    E2 (updEdgeAt g u v i f) (updEdgeAt g' u v i f) := by
  refine ⟨h.1, ?_⟩
  show updMatchingList u v i f g.edges = updMatchingList u v i f g'.edges
  rw [h.2]

/-- Lockstep relation on optional results: equal definedness and related
values. -/
def ORel {α α' : Type} (r : α → α' → Prop) : Option α → Option α' → Prop
  | none, none => True
  | some x, some y => r x y
  | _, _ => False

/-- `nx.shortest_path` reads only the topology (node set and edge
endpoints), never the attribute dictionaries. -/
def SpTopo (sp : MGraph → String → String → Option (List String)) :
    Prop :=
  ∀ g g' s t, g.nodes.map Prod.fst = g'.nodes.map Prod.fst →
    g.edges.map (fun e => (e.a, e.b)) = g'.edges.map (fun e => (e.a, e.b)) →
    sp g s t = sp g' s t

lemma sp_E2 {sp : MGraph → String → String → Option (List String)}
    (hsp : SpTopo sp) {g g' : MGraph} (h : E2 g g') (s t : String) :
    sp g s t = sp g' s t :=
  hsp g g' s t (keys_of_phi2 h.1) (congrArg _ h.2)

lemma E2_attr {g g' : MGraph} (h : E2 g g') (v : String) :
    (nodeAttrOf g v).tipoNodo = (nodeAttrOf g' v).tipoNodo ∧
    maskIterA (nodeAttrOf g v) = maskIterA (nodeAttrOf g' v) ∧
    (cupsKind (nodeAttrOf g v).tipoNodo = false →
      nodeAttrOf g v = nodeAttrOf g' v) :=
  attrFind_phi2 h.1 v

lemma find_phi2 : ∀ {ns ns' : List (String × NodeAttr)},
    ns.map phi2 = ns'.map phi2 → ∀ v,
      (ns.find? (fun pr => pr.1 == v)).map phi2
        = (ns'.find? (fun pr => pr.1 == v)).map phi2 := by
  intro ns
  induction ns with
  | nil =>
      intro ns' h v
      cases ns' with
      | nil => rfl
      | cons q t' => simp at h
  | cons p t ih =>
      intro ns' h v
      cases ns' with
      | nil => simp at h
      | cons q t' =>
          simp only [List.map_cons, List.cons.injEq] at h
          have hk0 := congrArg Prod.fst h.1
          have hk : p.1 = q.1 := hk0
          by_cases hv : (p.1 == v) = true
          · have hv' : (q.1 == v) = true := by rw [← hk]; exact hv
            simp only [List.find?_cons, hv, hv', Option.map_some]
            exact congrArg some h.1
          · have hv' : ¬ (q.1 == v) = true := by rw [← hk]; exact hv
            rw [Bool.not_eq_true] at hv hv'
            simp only [List.find?_cons, hv, hv']
            exact ih h.2 v

/-- `Enlaces_iter` as read by the resolver's control flow. -/
def iterAt (g : MGraph) (r : String) : ℤ := (nodeAttrOf g r).enlacesIter

lemma attrFind_wAcc (v r : String) (f : NodeAttr → NodeAttr) :
    ∀ ns : List (String × NodeAttr),
      attrFind (ns.map (wAcc v f)) r
        = (match ns.find? (fun pr => pr.1 == r) with
           | none => ({} : NodeAttr)
           | some pr => if pr.1 == v then f pr.2 else pr.2) := by
  intro ns
  induction ns with
  | nil => rfl
  | cons p t ih =>
      obtain ⟨k, a⟩ := p
      by_cases hv : (k == v) = true <;> by_cases hr : (k == r) = true
      · simp only [List.map_cons, attrFind, wAcc, List.find?_cons, hv, hr,
          if_pos]
      · simp only [List.map_cons, wAcc] at *
        rw [if_pos hv]
        simp only [attrFind, List.find?_cons] at *
        rw [Bool.not_eq_true] at hr
        simp only [hr]
        exact ih
      · simp only [List.map_cons, wAcc] at *
        rw [if_neg hv]
        simp only [attrFind, List.find?_cons] at *
        simp only [hr]
        rw [Bool.not_eq_true] at hv
        simp only [hv]
        rfl
      · simp only [List.map_cons, wAcc] at *
        rw [if_neg hv]
        simp only [attrFind, List.find?_cons] at *
        rw [Bool.not_eq_true] at hr
        simp only [hr]
        exact ih

lemma iterAt_updNode {g g' : MGraph} (h : E2 g g') (v : String)
    (f : NodeAttr → NodeAttr)
    (hif : ∀ a a', a.enlacesIter = a'.enlacesIter →
      maskIterA a = maskIterA a' →
      (f a).enlacesIter = (f a').enlacesIter)
    (r : String) (hpre : iterAt g r = iterAt g' r) :
    iterAt (updNode g v f) r = iterAt (updNode g' v f) r := by
  have hfind := find_phi2 h.1 r
  unfold iterAt at hpre ⊢
  rw [nodeAttrOf_attrFind] at hpre ⊢
  rw [nodeAttrOf_attrFind] at hpre ⊢
  rw [updNode_nodes, updNode_nodes, attrFind_wAcc, attrFind_wAcc]
  unfold attrFind at hpre
  cases hA : g.nodes.find? (fun pr => pr.1 == r) with
  | none =>
      cases hB : g'.nodes.find? (fun pr => pr.1 == r) with
      | none => rfl
      | some q => rw [hA, hB] at hfind; simp at hfind
  | some p =>
      cases hB : g'.nodes.find? (fun pr => pr.1 == r) with
      | none => rw [hA, hB] at hfind; simp at hfind
      | some q =>
          rw [hA, hB] at hfind hpre
          simp only [Option.map_some', Option.some.injEq] at hfind
          obtain ⟨hk, _, hm, _⟩ := phi2_parts hfind
          dsimp only at hpre ⊢
          by_cases hv : (p.1 == v) = true
          · have hv' : (q.1 == v) = true := by rw [← hk]; exact hv
            rw [if_pos hv, if_pos hv']
            exact hif p.2 q.2 hpre hm
          · have hv' : ¬ (q.1 == v) = true := by rw [← hk]; exact hv
            rw [if_neg hv, if_neg hv']
            exact hpre

/-- Lockstep state relation for the resolver: agreement outside the
customers' `Enlaces_iter`, plus agreement of the counters the control
flow actually reads (those of the splitting nodes). -/
def GRel (splitting : List String) (g g' : MGraph) : Prop :=
  E2 g g' ∧ ∀ r ∈ splitting, iterAt g r = iterAt g' r

lemma iterAt_updEdgeAt (g : MGraph) (u v : String) (i : ℕ)
    (f : MEdge → MEdge) (r : String) :
    iterAt (updEdgeAt g u v i f) r = iterAt g r := rfl

lemma edgeIter_GRel (splitting : List String) (sq : ℚ → ℚ)
    (Rof : String → ℚ → ℚ) (v4 v2 xc : ℚ) (row2 old : String) (n : ℚ) :
    ∀ (es : List MEdge) (i : ℕ) (g g' : MGraph) (vl : Option ℚ),
      GRel splitting g g' →
      ORel (fun p p' => GRel splitting p.1 p'.1 ∧ p.2 = p'.2)
        (edgeIter sq Rof v4 v2 xc row2 old n es i g vl)
        (edgeIter sq Rof v4 v2 xc row2 old n es i g' vl) := by
  intro es
  induction es with
  | nil =>
      intro i g g' vl hg
      exact ⟨hg, rfl⟩
  | cons e t ih =>
      intro i g g' vl hg
      rw [edgeIter, edgeIter]
      cases hveq : (if (e.qbt == 400) = true then some v4
          else if (e.qbt == 230) = true then some v2 else vl) with
      | none => trivial
      | some v =>
          dsimp only
          have hm := (E2_attr hg.1 old).2.1
          have hpR0 := congrArg NodeAttr.pR hm
          have hqR0 := congrArg NodeAttr.qR hm
          have hpS0 := congrArg NodeAttr.pS hm
          have hqS0 := congrArg NodeAttr.qS hm
          have hpT0 := congrArg NodeAttr.pT hm
          have hqT0 := congrArg NodeAttr.qT hm
          have hpR : (nodeAttrOf g old).pR = (nodeAttrOf g' old).pR := hpR0
          have hqR : (nodeAttrOf g old).qR = (nodeAttrOf g' old).qR := hqR0
          have hpS : (nodeAttrOf g old).pS = (nodeAttrOf g' old).pS := hpS0
          have hqS : (nodeAttrOf g old).qS = (nodeAttrOf g' old).qS := hqS0
          have hpT : (nodeAttrOf g old).pT = (nodeAttrOf g' old).pT := hpT0
          have hqT : (nodeAttrOf g old).qT = (nodeAttrOf g' old).qT := hqT0
          simp only [hpR, hqR, hpS, hqS, hpT, hqT]
          apply ih
          constructor
          · apply updNode_E2_acc (updEdgeAt_E2 hg.1 row2 old i _) row2 _
              ?_ ?_
            · intro b
              by_cases hI : (i == 0) = true
              · rw [if_pos hI]
              · rw [if_neg hI]
            · intro b
              by_cases hI : (i == 0) = true
              · rw [if_pos hI, if_pos hI]
                exact rfl
              · rw [if_neg hI, if_neg hI]
                exact rfl
          · intro r hr
            apply iterAt_updNode (updEdgeAt_E2 hg.1 row2 old i _) row2 _
              ?_ r ?_
            · intro a a' h1 h2
              by_cases hI : (i == 0) = true
              · rw [if_pos hI, if_pos hI]
                exact h1
              · rw [if_neg hI, if_neg hI]
                exact h1
            · rw [iterAt_updEdgeAt, iterAt_updEdgeAt]
              exact hg.2 r hr

lemma GRel_decNode {splitting : List String} {g g' : MGraph}
    (h : GRel splitting g g') (v : String) :
    GRel splitting
      (updNode g v (fun b => { b with enlacesIter := b.enlacesIter - 1 }))
      (updNode g' v
        (fun b => { b with enlacesIter := b.enlacesIter - 1 })) := by
  constructor
  · exact updNode_E2_iter h.1 v _ (fun a => rfl) (fun a => rfl)
  · intro r hr
    apply iterAt_updNode h.1 v _ ?_ r (h.2 r hr)
    intro a a' h1 h2
    dsimp only
    omega

lemma walk1_GRel (splitting : List String) (sq : ℚ → ℚ)
    (Rof : String → ℚ → ℚ) (v4 v2 xc : ℚ) :
    ∀ (route : List String) (old : String) (g g' : MGraph)
      (vl : Option ℚ), GRel splitting g g' →
      ORel (fun p p' => GRel splitting p.1 p'.1 ∧ p.2 = p'.2)
        (walk1 sq Rof v4 v2 xc splitting route old g vl)
        (walk1 sq Rof v4 v2 xc splitting route old g' vl) := by
  intro route
  induction route with
  | nil => intro old g g' vl hg; exact ⟨hg, rfl⟩
  | cons row2 rest ih =>
      intro old g g' vl hg
      rw [walk1, walk1]
      have hms : matchingEdges g row2 old = matchingEdges g' row2 old := by
        unfold matchingEdges
        rw [hg.1.2]
      dsimp only
      rw [hms]
      have hrel := edgeIter_GRel splitting sq Rof v4 v2 xc row2 old
        ((matchingEdges g' row2 old).length : ℚ)
        (matchingEdges g' row2 old) 0 g g' vl hg
      cases hA : edgeIter sq Rof v4 v2 xc row2 old
          ((matchingEdges g' row2 old).length : ℚ)
          (matchingEdges g' row2 old) 0 g vl with
      | none =>
          cases hB : edgeIter sq Rof v4 v2 xc row2 old
              ((matchingEdges g' row2 old).length : ℚ)
              (matchingEdges g' row2 old) 0 g' vl with
          | none => trivial
          | some pB => rw [hA, hB] at hrel; exact hrel.elim
      | some pA =>
          cases hB : edgeIter sq Rof v4 v2 xc row2 old
              ((matchingEdges g' row2 old).length : ℚ)
              (matchingEdges g' row2 old) 0 g' vl with
          | none => rw [hA, hB] at hrel; exact hrel.elim
          | some pB =>
              rw [hA, hB] at hrel
              obtain ⟨g1, vl1⟩ := pA
              obtain ⟨g1', vl1'⟩ := pB
              obtain ⟨hg1, hvl⟩ := hrel
              dsimp only at hvl ⊢
              subst hvl
              by_cases hct : splitting.contains row2 = true
              · rw [if_pos hct, if_pos hct]
                exact ⟨GRel_decNode (GRel_decNode hg1 old) row2, rfl⟩
              · rw [if_neg hct, if_neg hct]
                exact ih row2 _ _ vl1 (GRel_decNode hg1 old)

lemma phase1_GRel {sp : MGraph → String → String → Option (List String)}
    (hsp : SpTopo sp) (sq : ℚ → ℚ) (Rof : String → ℚ → ℚ)
    (v4 v2 xc : ℚ) (ct : String) (splitting : List String) :
    ∀ (ends : List String) (g g' : MGraph) (vl : Option ℚ),
      GRel splitting g g' →
      ORel (fun p p' => GRel splitting p.1 p'.1 ∧ p.2 = p'.2)
        (phase1 sp sq Rof v4 v2 xc ct splitting ends g vl)
        (phase1 sp sq Rof v4 v2 xc ct splitting ends g' vl) := by
  intro ends
  induction ends with
  | nil => intro g g' vl hg; exact ⟨hg, rfl⟩
  | cons r rs ih =>
      intro g g' vl hg
      rw [phase1, phase1]
      rw [sp_E2 hsp hg.1 ct r]
      cases hP : sp g' ct r with
      | none => trivial
      | some ruta =>
          dsimp only
          have hw := walk1_GRel splitting sq Rof v4 v2 xc
            ((removeFirst r ruta).reverse) r g g' vl hg
          cases hA : walk1 sq Rof v4 v2 xc splitting
              ((removeFirst r ruta).reverse) r g vl with
          | none =>
              cases hB : walk1 sq Rof v4 v2 xc splitting
                  ((removeFirst r ruta).reverse) r g' vl with
              | none => trivial
              | some pB => rw [hA, hB] at hw; exact hw.elim
          | some pA =>
              cases hB : walk1 sq Rof v4 v2 xc splitting
                  ((removeFirst r ruta).reverse) r g' vl with
              | none => rw [hA, hB] at hw; exact hw.elim
              | some pB =>
                  rw [hA, hB] at hw
                  obtain ⟨g1, vl1⟩ := pA
                  obtain ⟨g1', vl1'⟩ := pB
                  obtain ⟨hg1, hvl⟩ := hw
                  dsimp only at hvl ⊢
                  subst hvl
                  exact ih g1 g1' vl1 hg1

lemma walk2_GRel (splitting : List String) (sq : ℚ → ℚ)
    (Rof : String → ℚ → ℚ) (v4 v2 xc : ℚ) :
    ∀ (route : List String) (old : String) (g g' : MGraph)
      (vl : Option ℚ) (used : List String), GRel splitting g g' →
      ORel (fun p p' => GRel splitting p.1 p'.1 ∧ p.2 = p'.2)
        (walk2 sq Rof v4 v2 xc splitting route old g vl used)
        (walk2 sq Rof v4 v2 xc splitting route old g' vl used) := by
  intro route
  induction route with
  | nil => intro old g g' vl used hg; exact ⟨hg, rfl⟩
  | cons row2 rest ih =>
      intro old g g' vl used hg
      rw [walk2, walk2]
      have hms : matchingEdges g row2 old = matchingEdges g' row2 old := by
        unfold matchingEdges
        rw [hg.1.2]
      dsimp only
      rw [hms]
      have hrel := edgeIter_GRel splitting sq Rof v4 v2 xc row2 old
        ((matchingEdges g' row2 old).length : ℚ)
        (matchingEdges g' row2 old) 0 g g' vl hg
      cases hA : edgeIter sq Rof v4 v2 xc row2 old
          ((matchingEdges g' row2 old).length : ℚ)
          (matchingEdges g' row2 old) 0 g vl with
      | none =>
          cases hB : edgeIter sq Rof v4 v2 xc row2 old
              ((matchingEdges g' row2 old).length : ℚ)
              (matchingEdges g' row2 old) 0 g' vl with
          | none => trivial
          | some pB => rw [hA, hB] at hrel; exact hrel.elim
      | some pA =>
          cases hB : edgeIter sq Rof v4 v2 xc row2 old
              ((matchingEdges g' row2 old).length : ℚ)
              (matchingEdges g' row2 old) 0 g' vl with
          | none => rw [hA, hB] at hrel; exact hrel.elim
          | some pB =>
              rw [hA, hB] at hrel
              obtain ⟨g1, vl1⟩ := pA
              obtain ⟨g1', vl1'⟩ := pB
              obtain ⟨hg1, hvl⟩ := hrel
              dsimp only at hvl ⊢
              subst hvl
              by_cases hct : splitting.contains row2 = true
              · rw [if_pos hct, if_pos hct]
                have hmem : row2 ∈ splitting := by simpa using hct
                have hdec := GRel_decNode hg1 old
                have hiter := hdec.2 row2 hmem
                have hiter2 : (nodeAttrOf (updNode g1 old (fun b =>
                    { b with enlacesIter := b.enlacesIter - 1 }))
                    row2).enlacesIter
                  = (nodeAttrOf (updNode g1' old (fun b =>
                    { b with enlacesIter := b.enlacesIter - 1 }))
                    row2).enlacesIter := hiter
                rw [hiter2]
                by_cases h2 : 2 < (nodeAttrOf (updNode g1' old (fun b =>
                    { b with enlacesIter := b.enlacesIter - 1 }))
                    row2).enlacesIter
                · rw [if_pos h2, if_pos h2]
                  exact ⟨GRel_decNode hdec row2, rfl⟩
                · rw [if_neg h2, if_neg h2]
                  exact ih row2 _ _ vl1 (used ++ [row2]) hdec
              · rw [if_neg hct, if_neg hct]
                exact ih row2 _ _ vl1 used (GRel_decNode hg1 old)

lemma pass2_GRel {sp : MGraph → String → String → Option (List String)}
    (hsp : SpTopo sp) (sq : ℚ → ℚ) (Rof : String → ℚ → ℚ)
    (v4 v2 xc : ℚ) (ct : String) (splitting : List String) :
    ∀ (rows : List String), (∀ x ∈ rows, x ∈ splitting) →
      ∀ (g g' : MGraph) (vl : Option ℚ) (used : List String)
        (a salir : Bool), GRel splitting g g' →
      ORel (fun p p' => GRel splitting p.1 p'.1 ∧ p.2 = p'.2)
        (pass2 sp sq Rof v4 v2 xc ct splitting rows g vl used a salir)
        (pass2 sp sq Rof v4 v2 xc ct splitting rows g' vl used a salir) := by
  intro rows
  induction rows with
  | nil => intro _ g g' vl used a salir hg; exact ⟨hg, rfl⟩
  | cons r rs ih =>
      intro hsub g g' vl used a salir hg
      rw [pass2, pass2]
      have hiter := hg.2 r (hsub r (List.mem_cons_self r rs))
      have hiter2 : (nodeAttrOf g r).enlacesIter
          = (nodeAttrOf g' r).enlacesIter := hiter
      rw [hiter2]
      have hsub' : ∀ x ∈ rs, x ∈ splitting :=
        fun x hx => hsub x (List.mem_cons_of_mem r hx)
      by_cases hcond : ((nodeAttrOf g' r).enlacesIter == 1
          && !(used.contains r)) = true
      · rw [if_pos hcond, if_pos hcond]
        rw [sp_E2 hsp hg.1 ct r]
        cases hP : sp g' ct r with
        | none => trivial
        | some ruta =>
            dsimp only
            have hw := walk2_GRel splitting sq Rof v4 v2 xc
              ((removeFirst r ruta).reverse) r g g' vl used hg
            cases hA : walk2 sq Rof v4 v2 xc splitting
                ((removeFirst r ruta).reverse) r g vl used with
            | none =>
                cases hB : walk2 sq Rof v4 v2 xc splitting
                    ((removeFirst r ruta).reverse) r g' vl used with
                | none => trivial
                | some pB => rw [hA, hB] at hw; exact hw.elim
            | some pA =>
                cases hB : walk2 sq Rof v4 v2 xc splitting
                    ((removeFirst r ruta).reverse) r g' vl used with
                | none => rw [hA, hB] at hw; exact hw.elim
                | some pB =>
                    rw [hA, hB] at hw
                    obtain ⟨g1, vl1, used1, sal1⟩ := pA
                    obtain ⟨g1', vl1', used1', sal1'⟩ := pB
                    obtain ⟨hg1, hrest⟩ := hw
                    dsimp only at hrest ⊢
                    injection hrest with hv1 hrest
                    injection hrest with hu1 hs1
                    subst hv1
                    subst hu1
                    subst hs1
                    exact ih hsub' g1 g1' vl1
                      (pyDedupBy id (used1 ++ [r])) false (salir || sal1)
                      hg1
      · rw [if_neg hcond, if_neg hcond]
        exact ih hsub' g g' vl used a salir hg

lemma loop2_GRel {sp : MGraph → String → String → Option (List String)}
    (hsp : SpTopo sp) (sq : ℚ → ℚ) (Rof : String → ℚ → ℚ)
    (v4 v2 xc : ℚ) (ct : String) (splitting : List String) :
    ∀ (fuel : ℕ) (g g' : MGraph) (vl : Option ℚ) (used : List String)
      (salir : Bool) (err : ℕ), GRel splitting g g' →
      ORel (fun p p' => E2 p.1 p'.1 ∧ p.2 = p'.2)
        (loop2 sp sq Rof v4 v2 xc ct splitting fuel g vl used salir err)
        (loop2 sp sq Rof v4 v2 xc ct splitting fuel g' vl used salir
          err) := by
  intro fuel
  induction fuel with
  | zero => intro g g' vl used salir err hg; trivial
  | succ n ih =>
      intro g g' vl used salir err hg
      rw [loop2, loop2]
      by_cases hc : (used.length < splitting.length
          && salir == false) = true
      · rw [if_pos hc, if_pos hc]
        have hp := pass2_GRel hsp sq Rof v4 v2 xc ct splitting splitting
          (fun x hx => hx) g g' vl used true salir hg
        cases hA : pass2 sp sq Rof v4 v2 xc ct splitting splitting g vl
            used true salir with
        | none =>
            cases hB : pass2 sp sq Rof v4 v2 xc ct splitting splitting g'
                vl used true salir with
            | none => trivial
            | some pB => rw [hA, hB] at hp; exact hp.elim
        | some pA =>
            cases hB : pass2 sp sq Rof v4 v2 xc ct splitting splitting g'
                vl used true salir with
            | none => rw [hA, hB] at hp; exact hp.elim
            | some pB =>
                rw [hA, hB] at hp
                obtain ⟨g1, vl1, used1, a1, sal1⟩ := pA
                obtain ⟨g1', vl1', used1', a1', sal1'⟩ := pB
                obtain ⟨hg1, hrest⟩ := hp
                dsimp only at hrest ⊢
                injection hrest with hv1 hrest
                injection hrest with hu1 hrest
                injection hrest with ha1 hs1
                subst hv1
                subst hu1
                subst ha1
                subst hs1
                by_cases hA1 : a1 = true
                · rw [if_pos hA1, if_pos hA1]
                  exact ⟨hg1.1, rfl⟩
                · rw [if_neg hA1, if_neg hA1]
                  exact ih g1 g1' vl1 used1 sal1 err hg1
      · rw [if_neg hc, if_neg hc]
        exact ⟨hg.1, rfl⟩

lemma map_rel_of_pointwise2 {α β γ : Type} (φ : α → β) (ψ : α → γ)
    (u : α → α) (hpt : ∀ p q, φ p = φ q → ψ (u p) = ψ (u q)) :
    ∀ {l l' : List α}, l.map φ = l'.map φ →
      (l.map u).map ψ = (l'.map u).map ψ := by
  intro l
  induction l with
  | nil =>
      intro l' h
      cases l' with
      | nil => rfl
      | cons q t' => simp at h
  | cons p t ih =>
      intro l' h
      cases l' with
      | nil => simp at h
      | cons q t' =>
          simp only [List.map_cons, List.cons.injEq] at h ⊢
          exact ⟨hpt p q h.1, ih h.2⟩

lemma cupsKind_not (t : String) :
    (t != "CUPS" && t != "CUPS_TR") = !cupsKind t := by
  unfold cupsKind
  cases h1 : t == "CUPS" <;> cases h2 : t == "CUPS_TR" <;>
    simp [bne, h1, h2]

/-- The attribute rewrite of `resetIter`. -/
def resetRho (a : NodeAttr) : NodeAttr :=
  if a.tipoNodo != "CUPS" && a.tipoNodo != "CUPS_TR" then
    { a with enlacesIter := a.enlacesOrig }
  else a

lemma resetIter_nodes (g : MGraph) :
    (resetIter g).nodes = g.nodes.map (fun p => (p.1, resetRho p.2)) := by
  show g.nodes.map _ = _
  apply List.map_congr_left
  intro p _
  obtain ⟨k, a⟩ := p
  dsimp only [resetRho]
  by_cases hgd : (a.tipoNodo != "CUPS" && a.tipoNodo != "CUPS_TR") = true
  · rw [if_pos hgd, if_pos hgd]
  · rw [if_neg hgd, if_neg hgd]

lemma reset_pt {p q : String × NodeAttr} (h : phi1 p = phi1 q) :
    phi2 (p.1, resetRho p.2) = phi2 (q.1, resetRho q.2) := by
  obtain ⟨k, a⟩ := p
  obtain ⟨k', a'⟩ := q
  have hk0 := congrArg Prod.fst h
  have hk : k = k' := hk0
  have hm0 := congrArg Prod.snd h
  have hm : maskIterA a = maskIterA a' := hm0
  have hty0 := congrArg NodeAttr.tipoNodo hm
  have hty : a.tipoNodo = a'.tipoNodo := hty0
  have horig0 := congrArg NodeAttr.enlacesOrig hm
  have horig : a.enlacesOrig = a'.enlacesOrig := horig0
  subst hk
  dsimp only [resetRho, phi2]
  by_cases hgd : (a.tipoNodo != "CUPS" && a.tipoNodo != "CUPS_TR") = true
  · have hgd' : (a'.tipoNodo != "CUPS" && a'.tipoNodo != "CUPS_TR")
        = true := by rw [← hty]; exact hgd
    rw [if_pos hgd, if_pos hgd']
    have hcups : cupsKind a.tipoNodo = false := by
      have := cupsKind_not a.tipoNodo
      rw [hgd] at this
      cases hcc : cupsKind a.tipoNodo
      · rfl
      · rw [hcc] at this; simp at this
    have hcups' : cupsKind a'.tipoNodo = false := by rw [← hty]; exact hcups
    have hmt : ({ a with enlacesIter := a.enlacesOrig } :
        NodeAttr).tipoNodo = a.tipoNodo := rfl
    have hmt' : ({ a' with enlacesIter := a'.enlacesOrig } :
        NodeAttr).tipoNodo = a'.tipoNodo := rfl
    rw [hmt, hmt', if_neg (by rw [hcups]; exact Bool.false_ne_true),
      if_neg (by rw [hcups']; exact Bool.false_ne_true)]
    have h1 : ({ a with enlacesIter := a.enlacesOrig } : NodeAttr)
        = { maskIterA a with enlacesIter := a.enlacesOrig } := rfl
    have h2 : ({ a' with enlacesIter := a'.enlacesOrig } : NodeAttr)
        = { maskIterA a' with enlacesIter := a'.enlacesOrig } := rfl
    rw [h1, h2, hm, horig]
  · have hgd' : ¬ (a'.tipoNodo != "CUPS" && a'.tipoNodo != "CUPS_TR")
        = true := by rw [← hty]; exact hgd
    rw [if_neg hgd, if_neg hgd']
    have hcups : cupsKind a.tipoNodo = true := by
      have := cupsKind_not a.tipoNodo
      rw [Bool.not_eq_true] at hgd
      rw [hgd] at this
      cases hcc : cupsKind a.tipoNodo
      · rw [hcc] at this; simp at this
      · rfl
    have hcups' : cupsKind a'.tipoNodo = true := by rw [← hty]; exact hcups
    rw [if_pos hcups, if_pos hcups', hm]

lemma attrFind_map_rho (ρ : NodeAttr → NodeAttr) (r : String) :
    ∀ ns : List (String × NodeAttr),
      attrFind (ns.map (fun p => (p.1, ρ p.2))) r
        = (match ns.find? (fun pr => pr.1 == r) with
           | none => ({} : NodeAttr)
           | some pr => ρ pr.2) := by
  intro ns
  induction ns with
  | nil => rfl
  | cons p t ih =>
      obtain ⟨k, a⟩ := p
      by_cases hr : (k == r) = true
      · simp only [List.map_cons, attrFind, List.find?_cons, hr]
      · rw [Bool.not_eq_true] at hr
        simp only [List.map_cons, attrFind, List.find?_cons, hr] at *
        exact ih

lemma resetIter_GRel {g g' : MGraph} (h : E1 g g')
    (splitting : List String)
    (hsplit : ∀ r ∈ splitting,
      cupsKind ((nodeAttrOf g r).tipoNodo) = false) :
    GRel splitting (resetIter g) (resetIter g') := by
  constructor
  · refine ⟨?_, h.2⟩
    rw [resetIter_nodes, resetIter_nodes]
    exact map_rel_of_pointwise2 phi1 phi2
      (fun p => (p.1, resetRho p.2)) (fun p q hp => reset_pt hp) h.1
  · intro r hr
    have hfind := find_phi1 h.1 r
    have hsp := hsplit r hr
    rw [nodeAttrOf_attrFind] at hsp
    unfold iterAt
    rw [nodeAttrOf_attrFind, nodeAttrOf_attrFind, resetIter_nodes,
      resetIter_nodes, attrFind_map_rho, attrFind_map_rho]
    unfold attrFind at hsp
    cases hA : g.nodes.find? (fun pr => pr.1 == r) with
    | none =>
        cases hB : g'.nodes.find? (fun pr => pr.1 == r) with
        | none => rfl
        | some q => rw [hA, hB] at hfind; simp at hfind
    | some p =>
        cases hB : g'.nodes.find? (fun pr => pr.1 == r) with
        | none => rw [hA, hB] at hfind; simp at hfind
        | some q =>
            rw [hA, hB] at hfind
            rw [hA] at hsp
            simp only [Option.map_some', Option.some.injEq] at hfind
            have hm0 := congrArg Prod.snd hfind
            have hm : maskIterA p.2 = maskIterA q.2 := hm0
            have hty0 := congrArg NodeAttr.tipoNodo hm
            have hty : p.2.tipoNodo = q.2.tipoNodo := hty0
            have horig0 := congrArg NodeAttr.enlacesOrig hm
            have horig : p.2.enlacesOrig = q.2.enlacesOrig := horig0
            dsimp only at hsp ⊢
            have hgd : (p.2.tipoNodo != "CUPS"
                && p.2.tipoNodo != "CUPS_TR") = true := by
              rw [cupsKind_not, hsp]
              rfl
            have hgd' : (q.2.tipoNodo != "CUPS"
                && q.2.tipoNodo != "CUPS_TR") = true := by
              rw [← hty]; exact hgd
            unfold resetRho
            rw [if_pos hgd, if_pos hgd']
            exact horig

lemma resuelve_E2 {sp : MGraph → String → String → Option (List String)}
    (hsp : SpTopo sp) (sq : ℚ → ℚ) (Rof : String → ℚ → ℚ)
    (v4 v2 xc : ℚ) (ct : String) (endNodes splitting : List String)
    {g g' : MGraph} (err : ℕ) (h : E1 g g')
    (hsplit : ∀ r ∈ splitting,
      cupsKind ((nodeAttrOf g r).tipoNodo) = false) :
    ORel (fun p p' => E2 p.1 p'.1 ∧ p.2 = p'.2)
      (resuelve sp sq Rof v4 v2 xc ct endNodes splitting g err)
      (resuelve sp sq Rof v4 v2 xc ct endNodes splitting g' err) := by
  rw [resuelve, resuelve]
  have hg0 := resetIter_GRel h splitting hsplit
  have hp := phase1_GRel hsp sq Rof v4 v2 xc ct splitting endNodes
    (resetIter g) (resetIter g') none hg0
  cases hA : phase1 sp sq Rof v4 v2 xc ct splitting endNodes
      (resetIter g) none with
  | none =>
      cases hB : phase1 sp sq Rof v4 v2 xc ct splitting endNodes
          (resetIter g') none with
      | none => trivial
      | some pB => rw [hA, hB] at hp; exact hp.elim
  | some pA =>
      cases hB : phase1 sp sq Rof v4 v2 xc ct splitting endNodes
          (resetIter g') none with
      | none => rw [hA, hB] at hp; exact hp.elim
      | some pB =>
          rw [hA, hB] at hp
          obtain ⟨g1, vl1⟩ := pA
          obtain ⟨g1', vl1'⟩ := pB
          obtain ⟨hg1, hvl⟩ := hp
          dsimp only at hvl ⊢
          subst hvl
          exact loop2_GRel hsp sq Rof v4 v2 xc ct splitting
            (splitting.length + 1) g1 g1' vl1 [] false err hg1

lemma getPph_mask (a : NodeAttr) (f : String) :
    getPph (maskIterA a) f = getPph a f := by
  unfold getPph
  split
  · rfl
  · split <;> rfl

lemma getQph_mask (a : NodeAttr) (f : String) :
    getQph (maskIterA a) f = getQph a f := by
  unfold getQph
  split
  · rfl
  · split <;> rfl

lemma maskIterA_setPph (a : NodeAttr) (f : String) (v : ℚ) :
    maskIterA (setPph a f v) = setPph (maskIterA a) f v := by
  unfold setPph
  split
  · rfl
  · split <;> rfl

lemma maskIterA_setQph (a : NodeAttr) (f : String) (v : ℚ) :
    maskIterA (setQph a f v) = setQph (maskIterA a) f v := by
  unfold setQph
  split
  · rfl
  · split <;> rfl

lemma maskAccA_setPph (a : NodeAttr) (f : String) (v : ℚ) :
    maskAccA (setPph a f v) = maskAccA a := by
  unfold setPph
  split
  · rfl
  · split <;> rfl

lemma maskAccA_setQph (a : NodeAttr) (f : String) (v : ℚ) :
    maskAccA (setQph a f v) = maskAccA a := by
  unfold setQph
  split
  · rfl
  · split <;> rfl

lemma zero_phi1 (g : MGraph) :
    (zeroAccums g).nodes.map phi1 = g.nodes.map phi0 := by
  show (g.nodes.map _).map phi1 = _
  rw [List.map_map]
  apply List.map_congr_left
  intro p _
  obtain ⟨k, a⟩ := p
  rfl

lemma zero_edges (g : MGraph) :
    (zeroAccums g).edges = g.edges.map maskAccE := by
  show g.edges.map _ = _
  apply List.map_congr_left
  intro e _
  rfl

lemma zeroAccums_E1 {g g' : MGraph} (h : R0 g g') :
    E1 (zeroAccums g) (zeroAccums g') := by
  constructor
  · rw [zero_phi1, zero_phi1, h.1]
  · rw [zero_edges, zero_edges, h.2]

lemma R0_refl (g : MGraph) : R0 g g := ⟨rfl, rfl⟩

lemma R0_trans {a b c : MGraph} (h1 : R0 a b) (h2 : R0 b c) : R0 a c :=
  ⟨h1.1.trans h2.1, h1.2.trans h2.2⟩

lemma E1_getAttr {g g' : MGraph} (h : E1 g g') (c : String) :
    (getAttr? g c).map maskIterA = (getAttr? g' c).map maskIterA := by
  have hf := find_phi1 h.1 c
  unfold getAttr?
  cases hA : g.nodes.find? (fun pr => pr.1 == c) with
  | none =>
      cases hB : g'.nodes.find? (fun pr => pr.1 == c) with
      | none => rfl
      | some q => rw [hA, hB] at hf; simp at hf
  | some p =>
      cases hB : g'.nodes.find? (fun pr => pr.1 == c) with
      | none => rw [hA, hB] at hf; simp at hf
      | some q =>
          rw [hA, hB] at hf
          simp only [Option.map_some', Option.some.injEq] at hf ⊢
          have hm0 := congrArg Prod.snd hf
          exact hm0

lemma E1_attr {g g' : MGraph} (h : E1 g g') (c : String) :
    maskIterA (nodeAttrOf g c) = maskIterA (nodeAttrOf g' c) := by
  rw [nodeAttrOf_attrFind, nodeAttrOf_attrFind]
  exact attrFind_phi1 h.1 c

lemma injectAE_E1 (rows : List (String × ℚ)) (c : String)
    {g g' : MGraph} (h : E1 g g') :
    ORel E1 (injectAE rows g c) (injectAE rows g' c) := by
  unfold injectAE
  cases maxValFor rows c with
  | none => exact h
  | some mx =>
      dsimp only
      have hsc : (if 0 < mx then
             match getAttr? g c with
             | none => none
             | some a =>
               some (if 0 < mx then mx else 0, (0 : ℚ),
                 if a.ammFase == "R" || a.ammFase == "S" ||
                     a.ammFase == "T" then a.ammFase else "R",
                 a.tipoConexion)
           else some ((0 : ℚ), (0 : ℚ), "R", "MONOFASICO"))
          = (if 0 < mx then
             match getAttr? g' c with
             | none => none
             | some a =>
               some (if 0 < mx then mx else 0, (0 : ℚ),
                 if a.ammFase == "R" || a.ammFase == "S" ||
                     a.ammFase == "T" then a.ammFase else "R",
                 a.tipoConexion)
           else some ((0 : ℚ), (0 : ℚ), "R", "MONOFASICO")) := by
        by_cases hmx : 0 < mx
        · simp only [if_pos hmx]
          have hga := E1_getAttr h c
          cases hA : getAttr? g c with
          | none =>
              cases hB : getAttr? g' c with
              | none => rfl
              | some b => rw [hA, hB] at hga; simp at hga
          | some a =>
              cases hB : getAttr? g' c with
              | none => rw [hA, hB] at hga; simp at hga
              | some b =>
                  rw [hA, hB] at hga
                  simp only [Option.map_some', Option.some.injEq] at hga
                  have hamm0 := congrArg NodeAttr.ammFase hga
                  have htc0 := congrArg NodeAttr.tipoConexion hga
                  have hamm : a.ammFase = b.ammFase := hamm0
                  have htc : a.tipoConexion = b.tipoConexion := htc0
                  dsimp only
                  rw [hamm, htc]
        · simp only [if_neg hmx]
      rw [hsc]
      cases (if 0 < mx then
             match getAttr? g' c with
             | none => none
             | some a =>
               some (if 0 < mx then mx else 0, (0 : ℚ),
                 if a.ammFase == "R" || a.ammFase == "S" ||
                     a.ammFase == "T" then a.ammFase else "R",
                 a.tipoConexion)
           else some ((0 : ℚ), (0 : ℚ), "R", "MONOFASICO")) with
      | none => trivial
      | some tup =>
          obtain ⟨p, qv, fase, tipo⟩ := tup
          dsimp only
          have hnb : firstNbr g c = firstNbr g' c := by
            unfold firstNbr
            rw [h.2]
          rw [hnb]
          cases firstNbr g' c with
          | none => trivial
          | some nd =>
              dsimp only
              by_cases ht1 : (tipo == "MONOFASICO") = true
              · rw [if_pos ht1, if_pos ht1]
                have h1 := updNode_E1 h c
                  (fun a => setQph (setPph a fase p) fase qv)
                  (fun a => by
                    simp only [maskIterA_setQph, maskIterA_setPph])
                have h2 := updNode_E1 h1 nd
                  (fun a => setPph a fase (getPph a fase + p))
                  (fun a => by
                    simp only [maskIterA_setPph, getPph_mask])
                have hval : getQph (nodeAttrOf
                      (updNode (updNode g c
                        (fun a => setQph (setPph a fase p) fase qv)) nd
                        (fun a => setPph a fase (getPph a fase + p))) c)
                      fase
                    = getQph (nodeAttrOf
                      (updNode (updNode g' c
                        (fun a => setQph (setPph a fase p) fase qv)) nd
                        (fun a => setPph a fase (getPph a fase + p))) c)
                      fase := by
                  rw [← getQph_mask, E1_attr h2 c, getQph_mask]
                simp only [hval]
                exact updNode_E1 h2 nd _
                  (fun a => by
                    simp only [maskIterA_setQph, getQph_mask])
              · rw [if_neg ht1, if_neg ht1]
                by_cases ht2 : (tipo == "TRIFASICO") = true
                · rw [if_pos ht2, if_pos ht2]
                  exact updNode_E1
                    (updNode_E1 h c
                      (fun a => { a with pR := p / 3, qR := qv / 3,
                                         pS := p / 3, qS := qv / 3,
                                         pT := p / 3, qT := qv / 3 })
                      (fun a => rfl)) nd
                    (fun a => { a with pR := a.pR + p / 3,
                                       qR := a.qR + qv / 3,
                                       pS := a.pS + p / 3,
                                       qS := a.qS + qv / 3,
                                       pT := a.pT + p / 3,
                                       qT := a.qT + qv / 3 })
                    (fun a => rfl)
                · rw [if_neg ht2, if_neg ht2]
                  exact h

lemma injectAS_E1 (rows : List (String × ℚ)) (c : String)
    {g g' : MGraph} (h : E1 g g') :
    ORel E1 (injectAS rows g c) (injectAS rows g' c) := by
  unfold injectAS
  cases maxValFor rows c with
  | none => exact h
  | some mx =>
      dsimp only
      have hsc : (if 0 < mx then
             match getAttr? g c with
             | none => none
             | some a =>
               some (if -mx < 0 then -mx else 0, (0 : ℚ),
                 if a.ammFase == "R" || a.ammFase == "S" ||
                     a.ammFase == "T" then a.ammFase else "R",
                 a.tipoConexion)
           else some ((0 : ℚ), (0 : ℚ), "R", "MONOFASICO"))
          = (if 0 < mx then
             match getAttr? g' c with
             | none => none
             | some a =>
               some (if -mx < 0 then -mx else 0, (0 : ℚ),
                 if a.ammFase == "R" || a.ammFase == "S" ||
                     a.ammFase == "T" then a.ammFase else "R",
                 a.tipoConexion)
           else some ((0 : ℚ), (0 : ℚ), "R", "MONOFASICO")) := by
        by_cases hmx : 0 < mx
        · simp only [if_pos hmx]
          have hga := E1_getAttr h c
          cases hA : getAttr? g c with
          | none =>
              cases hB : getAttr? g' c with
              | none => rfl
              | some b => rw [hA, hB] at hga; simp at hga
          | some a =>
              cases hB : getAttr? g' c with
              | none => rw [hA, hB] at hga; simp at hga
              | some b =>
                  rw [hA, hB] at hga
                  simp only [Option.map_some', Option.some.injEq] at hga
                  have hamm0 := congrArg NodeAttr.ammFase hga
                  have htc0 := congrArg NodeAttr.tipoConexion hga
                  have hamm : a.ammFase = b.ammFase := hamm0
                  have htc : a.tipoConexion = b.tipoConexion := htc0
                  dsimp only
                  rw [hamm, htc]
        · simp only [if_neg hmx]
      rw [hsc]
      cases (if 0 < mx then
             match getAttr? g' c with
             | none => none
             | some a =>
               some (if -mx < 0 then -mx else 0, (0 : ℚ),
                 if a.ammFase == "R" || a.ammFase == "S" ||
                     a.ammFase == "T" then a.ammFase else "R",
                 a.tipoConexion)
           else some ((0 : ℚ), (0 : ℚ), "R", "MONOFASICO")) with
      | none => trivial
      | some tup =>
          obtain ⟨p, qv, fase, tipo⟩ := tup
          dsimp only
          have hnb : firstNbr g c = firstNbr g' c := by
            unfold firstNbr
            rw [h.2]
          rw [hnb]
          cases firstNbr g' c with
          | none => trivial
          | some nd =>
              dsimp only
              by_cases ht1 : (tipo == "MONOFASICO") = true
              · rw [if_pos ht1, if_pos ht1]
                have h1 := updNode_E1 h c
                  (fun a => setQph (setPph a fase (getPph a fase + p))
                    fase (getQph a fase + qv))
                  (fun a => by
                    simp only [maskIterA_setQph, maskIterA_setPph,
                      getPph_mask, getQph_mask])
                have h2 := updNode_E1 h1 nd
                  (fun a => setPph a fase (getPph a fase + p))
                  (fun a => by
                    simp only [maskIterA_setPph, getPph_mask])
                have hval : getQph (nodeAttrOf
                      (updNode (updNode g c
                        (fun a => setQph (setPph a fase
                          (getPph a fase + p)) fase
                          (getQph a fase + qv))) nd
                        (fun a => setPph a fase (getPph a fase + p))) c)
                      fase
                    = getQph (nodeAttrOf
                      (updNode (updNode g' c
                        (fun a => setQph (setPph a fase
                          (getPph a fase + p)) fase
                          (getQph a fase + qv))) nd
                        (fun a => setPph a fase (getPph a fase + p))) c)
                      fase := by
                  rw [← getQph_mask, E1_attr h2 c, getQph_mask]
                simp only [hval]
                exact updNode_E1 h2 nd _
                  (fun a => by
                    simp only [maskIterA_setQph, getQph_mask])
              · rw [if_neg ht1, if_neg ht1]
                by_cases ht2 : (tipo == "TRIFASICO") = true
                · rw [if_pos ht2, if_pos ht2]
                  exact updNode_E1
                    (updNode_E1 h c
                      (fun a => { a with pR := a.pR + p / 3,
                                         qR := a.qR + qv / 3,
                                         pS := a.pS + p / 3,
                                         qS := a.qS + qv / 3,
                                         pT := a.pT + p / 3,
                                         qT := a.qT + qv / 3 })
                      (fun a => rfl)) nd
                    (fun a => { a with pR := a.pR + p / 3,
                                       qR := a.qR + qv / 3,
                                       pS := a.pS + p / 3,
                                       qS := a.qS + qv / 3,
                                       pT := a.pT + p / 3,
                                       qT := a.qT + qv / 3 })
                    (fun a => rfl)
                · rw [if_neg ht2, if_neg ht2]
                  exact h

lemma foldRows_E1 {inj : MGraph → String → Option MGraph}
    (hstep : ∀ (c : String) {g g' : MGraph}, E1 g g' →
      ORel E1 (inj g c) (inj g' c)) :
    ∀ (rows : List (String × ℚ)) {g g' : MGraph}, E1 g g' →
      ORel E1 (foldRows inj rows g) (foldRows inj rows g') := by
  intro rows
  induction rows with
  | nil => intro g g' h; exact h
  | cons r rs ih =>
      intro g g' h
      rw [foldRows, foldRows]
      have hs := hstep r.1 h
      cases hA : inj g r.1 with
      | none =>
          cases hB : inj g' r.1 with
          | none => trivial
          | some b => rw [hA, hB] at hs; exact hs.elim
      | some a =>
          cases hB : inj g' r.1 with
          | none => rw [hA, hB] at hs; exact hs.elim
          | some b =>
              rw [hA, hB] at hs
              exact ih hs

lemma addCch_E1 (aeR asR : List (String × ℚ)) {g g' : MGraph}
    (h : R0 g g') :
    ORel E1 (addCch aeR asR g) (addCch aeR asR g') := by
  unfold addCch
  have h0 := zeroAccums_E1 h
  have hf := foldRows_E1
    (fun c {x y} hxy => injectAE_E1 aeR c hxy) aeR h0
  cases hA : foldRows (injectAE aeR) aeR (zeroAccums g) with
  | none =>
      cases hB : foldRows (injectAE aeR) aeR (zeroAccums g') with
      | none => trivial
      | some b => rw [hA, hB] at hf; exact hf.elim
  | some a =>
      cases hB : foldRows (injectAE aeR) aeR (zeroAccums g') with
      | none => rw [hA, hB] at hf; exact hf.elim
      | some b =>
          rw [hA, hB] at hf
          exact foldRows_E1
            (fun c {x y} hxy => injectAS_E1 asR c hxy) asR hf

lemma R0_zero (g : MGraph) : R0 (zeroAccums g) g := by
  constructor
  · show (g.nodes.map _).map phi0 = g.nodes.map phi0
    rw [List.map_map]
    apply List.map_congr_left
    intro p _
    obtain ⟨k, a⟩ := p
    rfl
  · show (g.edges.map _).map maskAccE = g.edges.map maskAccE
    rw [List.map_map]
    apply List.map_congr_left
    intro e _
    rfl

lemma R0_updNode (g : MGraph) (v : String) (f : NodeAttr → NodeAttr)
    (hz : ∀ a, maskIterA (maskAccA (f a)) = maskIterA (maskAccA a)) :
    R0 (updNode g v f) g := by
  constructor
  · rw [updNode_nodes, List.map_map]
    apply List.map_congr_left
    intro p _
    obtain ⟨k, a⟩ := p
    show phi0 (if (k == v) = true then (k, f a) else (k, a)) = phi0 (k, a)
    by_cases hv : (k == v) = true
    · rw [if_pos hv]
      show (k, maskIterA (maskAccA (f a))) = (k, maskIterA (maskAccA a))
      rw [hz a]
    · rw [if_neg hv]
  · rfl

lemma injectAE_R0 (rows : List (String × ℚ)) (c : String) :
    ∀ {g g1 : MGraph}, injectAE rows g c = some g1 → R0 g1 g := by
  intro g g1 h
  unfold injectAE at h
  cases hM : maxValFor rows c with
  | none =>
      rw [hM] at h
      injection h with h'
      subst h'
      exact R0_refl g
  | some mx =>
      rw [hM] at h
      dsimp only at h
      split at h
      · exact Option.noConfusion h
      · rename_i p qv fase tipo heq
        split at h
        · exact Option.noConfusion h
        · rename_i nd hnb
          split at h
          · injection h with h'
            subst h'
            refine R0_trans (R0_updNode _ nd _ ?_) (R0_trans
              (R0_updNode _ nd _ ?_) (R0_updNode _ c _ ?_))
            · intro a
              simp only [maskAccA_setQph]
            · intro a
              simp only [maskAccA_setPph]
            · intro a
              simp only [maskAccA_setQph, maskAccA_setPph]
          · split at h
            · injection h with h'
              subst h'
              refine R0_trans (R0_updNode _ nd _ ?_)
                (R0_updNode _ c _ ?_)
              · intro a
                rfl
              · intro a
                rfl
            · injection h with h'
              subst h'
              exact R0_refl g

lemma injectAS_R0 (rows : List (String × ℚ)) (c : String) :
    ∀ {g g1 : MGraph}, injectAS rows g c = some g1 → R0 g1 g := by
  intro g g1 h
  unfold injectAS at h
  cases hM : maxValFor rows c with
  | none =>
      rw [hM] at h
      injection h with h'
      subst h'
      exact R0_refl g
  | some mx =>
      rw [hM] at h
      dsimp only at h
      split at h
      · exact Option.noConfusion h
      · rename_i p qv fase tipo heq
        split at h
        · exact Option.noConfusion h
        · rename_i nd hnb
          split at h
          · injection h with h'
            subst h'
            refine R0_trans (R0_updNode _ nd _ ?_) (R0_trans
              (R0_updNode _ nd _ ?_) (R0_updNode _ c _ ?_))
            · intro a
              simp only [maskAccA_setQph]
            · intro a
              simp only [maskAccA_setPph]
            · intro a
              simp only [maskAccA_setQph, maskAccA_setPph]
          · split at h
            · injection h with h'
              subst h'
              refine R0_trans (R0_updNode _ nd _ ?_)
                (R0_updNode _ c _ ?_)
              · intro a
                rfl
              · intro a
                rfl
            · injection h with h'
              subst h'
              exact R0_refl g

lemma foldRows_R0 {inj : MGraph → String → Option MGraph}
    (hstep : ∀ (c : String) {g g1 : MGraph}, inj g c = some g1 →
      R0 g1 g) :
    ∀ (rows : List (String × ℚ)) {g g1 : MGraph},
      foldRows inj rows g = some g1 → R0 g1 g := by
  intro rows
  induction rows with
  | nil =>
      intro g g1 h
      injection h with h'
      subst h'
      exact R0_refl g
  | cons r rs ih =>
      intro g g1 h
      rw [foldRows] at h
      cases hA : inj g r.1 with
      | none => rw [hA] at h; exact Option.noConfusion h
      | some gm =>
          rw [hA] at h
          exact R0_trans (ih h) (hstep r.1 hA)

lemma addCch_R0 (aeR asR : List (String × ℚ)) {g a1 : MGraph}
    (h : addCch aeR asR g = some a1) : R0 a1 g := by
  unfold addCch at h
  cases hA : foldRows (injectAE aeR) aeR (zeroAccums g) with
  | none => rw [hA] at h; exact Option.noConfusion h
  | some gm =>
      rw [hA] at h
      exact R0_trans
        (R0_trans
          (foldRows_R0 (fun c {x y} hx => injectAS_R0 asR c hx) asR h)
          (foldRows_R0 (fun c {x y} hx => injectAE_R0 aeR c hx) aeR hA))
        (R0_zero g)

lemma R0_reset (g : MGraph) : R0 (resetIter g) g := by
  constructor
  · rw [resetIter_nodes, List.map_map]
    apply List.map_congr_left
    intro p _
    obtain ⟨k, a⟩ := p
    show phi0 (k, resetRho a) = phi0 (k, a)
    unfold resetRho
    by_cases hgd : (a.tipoNodo != "CUPS" && a.tipoNodo != "CUPS_TR") = true
    · rw [if_pos hgd]
      rfl
    · rw [if_neg hgd]
  · rfl

lemma updMatchingList_mask (u v : String) (f : MEdge → MEdge)
    (hEz : ∀ ed, maskAccE (f ed) = maskAccE ed) :
    ∀ (es : List MEdge) (i : ℕ),
      (updMatchingList u v i f es).map maskAccE = es.map maskAccE := by
  intro es
  induction es with
  | nil => intro i; rfl
  | cons e t ih =>
      intro i
      rw [updMatchingList]
      by_cases hse : sameEnds e u v = true
      · rw [if_pos hse]
        by_cases hI : (i == 0) = true
        · rw [if_pos hI]
          simp only [List.map_cons, hEz e]
        · rw [if_neg hI]
          simp only [List.map_cons, ih]
      · rw [if_neg hse]
        simp only [List.map_cons, ih]

lemma R0_updEdgeAt (g : MGraph) (u v : String) (i : ℕ)
    (f : MEdge → MEdge) (hEz : ∀ ed, maskAccE (f ed) = maskAccE ed) :
    R0 (updEdgeAt g u v i f) g :=
  ⟨rfl, updMatchingList_mask u v f hEz g.edges i⟩

lemma edgeIter_R0 (sq : ℚ → ℚ) (Rof : String → ℚ → ℚ) (v4 v2 xc : ℚ)
    (row2 old : String) (n : ℚ) :
    ∀ (es : List MEdge) (i : ℕ) {g : MGraph} (vl : Option ℚ)
      {g2 : MGraph} {vl2 : Option ℚ},
      edgeIter sq Rof v4 v2 xc row2 old n es i g vl = some (g2, vl2) →
      R0 g2 g := by
  intro es
  induction es with
  | nil =>
      intro i g vl g2 vl2 h
      injection h with h'
      have hg : g = g2 := congrArg Prod.fst h'
      subst hg
      exact R0_refl g
  | cons e t ih =>
      intro i g vl g2 vl2 h
      rw [edgeIter] at h
      split at h
      · exact Option.noConfusion h
      · rename_i v hveq
        dsimp only at h
        refine R0_trans (ih (i + 1) (some v) h) (R0_trans
          (R0_updNode _ row2 _ ?_) (R0_updEdgeAt _ row2 old i _
            (fun ed => rfl)))
        intro a
        by_cases hI : (i == 0) = true
        · rw [if_pos hI]
          exact rfl
        · rw [if_neg hI]
          exact rfl

lemma walk1_R0 (sq : ℚ → ℚ) (Rof : String → ℚ → ℚ) (v4 v2 xc : ℚ)
    (splitting : List String) :
    ∀ (route : List String) (old : String) {g : MGraph}
      (vl : Option ℚ) {g2 : MGraph} {vl2 : Option ℚ},
      walk1 sq Rof v4 v2 xc splitting route old g vl = some (g2, vl2) →
      R0 g2 g := by
  intro route
  induction route with
  | nil =>
      intro old g vl g2 vl2 h
      injection h with h'
      have hg : g = g2 := congrArg Prod.fst h'
      subst hg
      exact R0_refl g
  | cons row2 rest ih =>
      intro old g vl g2 vl2 h
      rw [walk1] at h
      dsimp only at h
      cases heq : edgeIter sq Rof v4 v2 xc row2 old
          ((matchingEdges g row2 old).length : ℚ)
          (matchingEdges g row2 old) 0 g vl with
      | none => rw [heq] at h; exact Option.noConfusion h
      | some p =>
          rw [heq] at h
          obtain ⟨gm, vlm⟩ := p
          dsimp only at h
          by_cases hct : splitting.contains row2 = true
          · rw [if_pos hct] at h
            injection h with h'
            have hg : _ = g2 := congrArg Prod.fst h'
            subst hg
            exact R0_trans (R0_updNode _ row2 _ (fun a => rfl))
              (R0_trans (R0_updNode _ old _ (fun a => rfl))
                (edgeIter_R0 sq Rof v4 v2 xc row2 old _ _ 0 vl heq))
          · rw [if_neg hct] at h
            exact R0_trans (ih row2 vlm h)
              (R0_trans (R0_updNode _ old _ (fun a => rfl))
                (edgeIter_R0 sq Rof v4 v2 xc row2 old _ _ 0 vl heq))

lemma phase1_R0 {sp : MGraph → String → String → Option (List String)}
    (sq : ℚ → ℚ) (Rof : String → ℚ → ℚ) (v4 v2 xc : ℚ) (ct : String)
    (splitting : List String) :
    ∀ (ends : List String) {g : MGraph} (vl : Option ℚ) {g2 : MGraph}
      {vl2 : Option ℚ},
      phase1 sp sq Rof v4 v2 xc ct splitting ends g vl
        = some (g2, vl2) → R0 g2 g := by
  intro ends
  induction ends with
  | nil =>
      intro g vl g2 vl2 h
      injection h with h'
      have hg : g = g2 := congrArg Prod.fst h'
      subst hg
      exact R0_refl g
  | cons r rs ih =>
      intro g vl g2 vl2 h
      rw [phase1] at h
      cases hruta : sp g ct r with
      | none => rw [hruta] at h; exact Option.noConfusion h
      | some ruta =>
          rw [hruta] at h
          dsimp only at h
          cases heq : walk1 sq Rof v4 v2 xc splitting
              ((removeFirst r ruta).reverse) r g vl with
          | none => rw [heq] at h; exact Option.noConfusion h
          | some p =>
              rw [heq] at h
              obtain ⟨gm, vlm⟩ := p
              dsimp only at h
              exact R0_trans (ih vlm h)
                (walk1_R0 sq Rof v4 v2 xc splitting _ r vl heq)

lemma walk2_R0 (sq : ℚ → ℚ) (Rof : String → ℚ → ℚ) (v4 v2 xc : ℚ)
    (splitting : List String) :
    ∀ (route : List String) (old : String) {g : MGraph}
      (vl : Option ℚ) (used : List String) {g2 : MGraph}
      {vl2 : Option ℚ} {used2 : List String} {brk : Bool},
      walk2 sq Rof v4 v2 xc splitting route old g vl used
        = some (g2, vl2, used2, brk) → R0 g2 g := by
  intro route
  induction route with
  | nil =>
      intro old g vl used g2 vl2 used2 brk h
      injection h with h'
      have hg : g = g2 := congrArg Prod.fst h'
      subst hg
      exact R0_refl g
  | cons row2 rest ih =>
      intro old g vl used g2 vl2 used2 brk h
      rw [walk2] at h
      dsimp only at h
      cases heq : edgeIter sq Rof v4 v2 xc row2 old
          ((matchingEdges g row2 old).length : ℚ)
          (matchingEdges g row2 old) 0 g vl with
      | none => rw [heq] at h; exact Option.noConfusion h
      | some p =>
          rw [heq] at h
          obtain ⟨gm, vlm⟩ := p
          dsimp only at h
          have hbase : R0 (updNode gm old (fun b =>
              { b with enlacesIter := b.enlacesIter - 1 })) g :=
            R0_trans (R0_updNode _ old _ (fun a => rfl))
              (edgeIter_R0 sq Rof v4 v2 xc row2 old _ _ 0 vl heq)
          by_cases hct : splitting.contains row2 = true
          · rw [if_pos hct] at h
            by_cases h2c : 2 < (nodeAttrOf (updNode gm old (fun b =>
                { b with enlacesIter := b.enlacesIter - 1 }))
                row2).enlacesIter
            · rw [if_pos h2c] at h
              injection h with h'
              have hg : _ = g2 := congrArg Prod.fst h'
              subst hg
              exact R0_trans (R0_updNode _ row2 _ (fun a => rfl)) hbase
            · rw [if_neg h2c] at h
              exact R0_trans (ih row2 vlm (used ++ [row2]) h) hbase
          · rw [if_neg hct] at h
            exact R0_trans (ih row2 vlm used h) hbase

lemma pass2_R0 {sp : MGraph → String → String → Option (List String)}
    (sq : ℚ → ℚ) (Rof : String → ℚ → ℚ) (v4 v2 xc : ℚ) (ct : String)
    (splitting : List String) :
    ∀ (rows : List String) {g : MGraph} (vl : Option ℚ)
      (used : List String) (a salir : Bool) {g2 : MGraph}
      {vl2 : Option ℚ} {used2 : List String} {a2 salir2 : Bool},
      pass2 sp sq Rof v4 v2 xc ct splitting rows g vl used a salir
        = some (g2, vl2, used2, a2, salir2) → R0 g2 g := by
  intro rows
  induction rows with
  | nil =>
      intro g vl used a salir g2 vl2 used2 a2 salir2 h
      injection h with h'
      have hg : g = g2 := congrArg Prod.fst h'
      subst hg
      exact R0_refl g
  | cons r rs ih =>
      intro g vl used a salir g2 vl2 used2 a2 salir2 h
      rw [pass2] at h
      by_cases hc : ((nodeAttrOf g r).enlacesIter == 1
          && !(used.contains r)) = true
      · rw [if_pos hc] at h
        cases hruta : sp g ct r with
        | none => rw [hruta] at h; exact Option.noConfusion h
        | some ruta =>
            rw [hruta] at h
            dsimp only at h
            cases heq : walk2 sq Rof v4 v2 xc splitting
                ((removeFirst r ruta).reverse) r g vl used with
            | none => rw [heq] at h; exact Option.noConfusion h
            | some p =>
                rw [heq] at h
                obtain ⟨gm, vlm, usedm, salm⟩ := p
                dsimp only at h
                exact R0_trans (ih vlm _ false (salir || salm) h)
                  (walk2_R0 sq Rof v4 v2 xc splitting _ r vl used heq)
      · rw [if_neg hc] at h
        exact ih vl used a salir h

lemma loop2_R0 {sp : MGraph → String → String → Option (List String)}
    (sq : ℚ → ℚ) (Rof : String → ℚ → ℚ) (v4 v2 xc : ℚ) (ct : String)
    (splitting : List String) :
    ∀ (fuel : ℕ) {g : MGraph} (vl : Option ℚ) (used : List String)
      (salir : Bool) (err : ℕ) {g2 : MGraph} {e2 : ℕ},
      loop2 sp sq Rof v4 v2 xc ct splitting fuel g vl used salir err
        = some (g2, e2) → R0 g2 g := by
  intro fuel
  induction fuel with
  | zero =>
      intro g vl used salir err g2 e2 h
      exact Option.noConfusion h
  | succ n ih =>
      intro g vl used salir err g2 e2 h
      rw [loop2] at h
      by_cases hc : (used.length < splitting.length
          && salir == false) = true
      · rw [if_pos hc] at h
        cases heq : pass2 sp sq Rof v4 v2 xc ct splitting splitting g vl
            used true salir with
        | none => rw [heq] at h; exact Option.noConfusion h
        | some p =>
            rw [heq] at h
            obtain ⟨gm, vlm, usedm, am, salm⟩ := p
            dsimp only at h
            by_cases ha : am = true
            · rw [if_pos ha] at h
              injection h with h'
              have hg : gm = g2 := congrArg Prod.fst h'
              subst hg
              exact pass2_R0 sq Rof v4 v2 xc ct splitting splitting vl
                used true salir heq
            · rw [if_neg ha] at h
              exact R0_trans (ih vlm usedm salm err h)
                (pass2_R0 sq Rof v4 v2 xc ct splitting splitting vl used
                  true salir heq)
      · rw [if_neg hc] at h
        injection h with h'
        have hg : g = g2 := congrArg Prod.fst h'
        subst hg
        exact R0_refl g

lemma resuelve_R0 {sp : MGraph → String → String → Option (List String)}
    (sq : ℚ → ℚ) (Rof : String → ℚ → ℚ) (v4 v2 xc : ℚ) (ct : String)
    (endNodes splitting : List String) {g g1 : MGraph} {err e1 : ℕ}
    (h : resuelve sp sq Rof v4 v2 xc ct endNodes splitting g err
      = some (g1, e1)) : R0 g1 g := by
  unfold resuelve at h
  cases heq : phase1 sp sq Rof v4 v2 xc ct splitting endNodes
      (resetIter g) none with
  | none => rw [heq] at h; exact Option.noConfusion h
  | some p =>
      rw [heq] at h
      obtain ⟨gm, vlm⟩ := p
      dsimp only at h
      exact R0_trans
        (R0_trans (loop2_R0 sq Rof v4 v2 xc ct splitting _ vlm []
          false err h) (phase1_R0 sq Rof v4 v2 xc ct splitting endNodes
            none heq))
        (R0_reset g)

lemma attrFind_phi0 : ∀ {ns ns' : List (String × NodeAttr)},
    ns.map phi0 = ns'.map phi0 → ∀ v,
      maskIterA (maskAccA (attrFind ns v))
        = maskIterA (maskAccA (attrFind ns' v)) := by
  intro ns
  induction ns with
  | nil =>
      intro ns' h v
      cases ns' with
      | nil => rfl
      | cons q t' => simp at h
  | cons p t ih =>
      intro ns' h v
      cases ns' with
      | nil => simp at h
      | cons q t' =>
          simp only [List.map_cons, List.cons.injEq] at h
          have hk0 := congrArg Prod.fst h.1
          have hm0 := congrArg Prod.snd h.1
          have hk : p.1 = q.1 := hk0
          have hm : maskIterA (maskAccA p.2) = maskIterA (maskAccA q.2) :=
            hm0
          by_cases hv : (p.1 == v) = true
          · have hv' : (q.1 == v) = true := by rw [← hk]; exact hv
            simp only [attrFind, List.find?_cons, hv, hv']
            exact hm
          · have hv' : ¬ (q.1 == v) = true := by rw [← hk]; exact hv
            rw [Bool.not_eq_true] at hv hv'
            simp only [attrFind, List.find?_cons, hv, hv']
            exact ih h.2 v

lemma tipo_of_R0 {g g' : MGraph} (h : R0 g g') (v : String) :
    (nodeAttrOf g v).tipoNodo = (nodeAttrOf g' v).tipoNodo := by
  have h0 := attrFind_phi0 h.1 v
  have h1 := congrArg NodeAttr.tipoNodo h0
  exact h1

lemma tipo_of_E1 {g g' : MGraph} (h : E1 g g') (v : String) :
    (nodeAttrOf g v).tipoNodo = (nodeAttrOf g' v).tipoNodo := by
  have h0 := E1_attr h v
  have h1 := congrArg NodeAttr.tipoNodo h0
  exact h1

lemma accs_of_phi2 {ns ns' : List (String × NodeAttr)}
    (h : ns.map phi2 = ns'.map phi2) :
    ns.map (fun p => (p.1, p.2.pR, p.2.qR, p.2.pS, p.2.qS, p.2.pT,
        p.2.qT))
      = ns'.map (fun p => (p.1, p.2.pR, p.2.qR, p.2.pS, p.2.qS, p.2.pT,
        p.2.qT)) := by
  have hpt : ∀ p : String × NodeAttr,
      (fun q : String × NodeAttr =>
        (q.1, q.2.pR, q.2.qR, q.2.pS, q.2.qS, q.2.pT, q.2.qT)) (phi2 p)
      = (fun q : String × NodeAttr =>
        (q.1, q.2.pR, q.2.qR, q.2.pS, q.2.qS, q.2.pT, q.2.qT)) p := by
    intro p
    obtain ⟨k, a⟩ := p
    dsimp only [phi2]
    by_cases hc : cupsKind a.tipoNodo = true
    · rw [if_pos hc]; rfl
    · rw [if_neg hc]
  calc ns.map (fun p : String × NodeAttr =>
        (p.1, p.2.pR, p.2.qR, p.2.pS, p.2.qS, p.2.pT, p.2.qT))
      = (ns.map phi2).map (fun q : String × NodeAttr =>
        (q.1, q.2.pR, q.2.qR, q.2.pS, q.2.qS, q.2.pT, q.2.qT)) := by
        rw [List.map_map]
        exact (List.map_congr_left (fun p _ => hpt p)).symm
    _ = (ns'.map phi2).map (fun q : String × NodeAttr =>
        (q.1, q.2.pR, q.2.qR, q.2.pS, q.2.qS, q.2.pT, q.2.qT)) := by
        rw [h]
    _ = ns'.map (fun p : String × NodeAttr =>
        (p.1, p.2.pR, p.2.qR, p.2.pS, p.2.qS, p.2.pT, p.2.qT)) := by
        rw [List.map_map]
        exact List.map_congr_left (fun p _ => hpt p)

/-- C8: the hourly load-propagation step is idempotent on the
accumulators.  With the `nx.shortest_path` collaborator reading only the
topology and every splitting node a non-customer node, if one round of
injection (`add_cch_grafo`) followed by resolution (`resuelve_grafo`)
succeeds, then a second round on its output also succeeds, returns the
same `CCH_Data_Error`, and produces exactly the same per-node phase
accumulators and per-span loss accumulators: the zeroing loops at the
head of `add_cch_grafo` erase everything the previous round wrote, and
neither function changes any data the pair later reads (the resolver
itself resets the non-customer `Enlaces_iter` counters it consumed). -/
theorem C8_load_propagation_idempotent
    (sp : MGraph → String → String → Option (List String))
    (sq : ℚ → ℚ) (Rof : String → ℚ → ℚ) (v4 v2 xc : ℚ) (ct : String)
    (endNodes splitting : List String) (aeR asR : List (String × ℚ))
    (g a1 g1 : MGraph) (err e1 : ℕ)
    (hsp : SpTopo sp)
    (hsplit : ∀ r ∈ splitting,
      cupsKind ((nodeAttrOf g r).tipoNodo) = false)
    (h1 : addCch aeR asR g = some a1)
    (h2 : resuelve sp sq Rof v4 v2 xc ct endNodes splitting a1 err
      = some (g1, e1)) :
    ∃ a2 g2, addCch aeR asR g1 = some a2 ∧
      resuelve sp sq Rof v4 v2 xc ct endNodes splitting a2 err
        = some (g2, e1) ∧
      g2.nodes.map (fun p => (p.1, p.2.pR, p.2.qR, p.2.pS, p.2.qS,
        p.2.pT, p.2.qT))
        = g1.nodes.map (fun p => (p.1, p.2.pR, p.2.qR, p.2.pS, p.2.qS,
          p.2.pT, p.2.qT)) ∧
      g2.edges.map (fun e => (e.a, e.b, e.pRL, e.qRL, e.pSL, e.qSL,
        e.pTL, e.qTL))
        = g1.edges.map (fun e => (e.a, e.b, e.pRL, e.qRL, e.pSL, e.qSL,
          e.pTL, e.qTL)) := by
  have hA1 : R0 a1 g := addCch_R0 aeR asR h1
  have hG1 : R0 g1 a1 :=
    resuelve_R0 sq Rof v4 v2 xc ct endNodes splitting h2
  have hGg : R0 g1 g := R0_trans hG1 hA1
  have hLA := addCch_E1 aeR asR hGg
  cases hA2 : addCch aeR asR g1 with
  | none => rw [hA2, h1] at hLA; exact hLA.elim
  | some a2 =>
      rw [hA2, h1] at hLA
      have hsplit2 : ∀ r ∈ splitting,
          cupsKind ((nodeAttrOf a2 r).tipoNodo) = false := by
        intro r hr
        rw [tipo_of_E1 hLA r, tipo_of_R0 hA1 r]
        exact hsplit r hr
      have hRes := resuelve_E2 hsp sq Rof v4 v2 xc ct endNodes splitting
        err hLA hsplit2
      cases hB : resuelve sp sq Rof v4 v2 xc ct endNodes splitting a2
          err with
      | none => rw [hB, h2] at hRes; exact hRes.elim
      | some p2 =>
          rw [hB, h2] at hRes
          obtain ⟨g2, e2⟩ := p2
          obtain ⟨hE, heq⟩ := hRes
          subst heq
          refine ⟨a2, g2, rfl, hB, accs_of_phi2 hE.1, ?_⟩
          rw [hE.2]

/-- Witness graph for C8: substation and one plain node joined by one
span. -/
def C8g : MGraph :=
  { nodes := [("CT", { tipoNodo := "CT" }), ("N1", {})],
    edges := [{ a := "CT", b := "N1" }] }

theorem C8_load_propagation_idempotent_witness :
    ∃ a2 g2, addCch [] [] C8g = some a2 ∧
      resuelve (fun _ s t => some [s, t]) (fun q => q) (fun _ _ => 0)
          400 230 0 "CT" [] [] a2 3 = some (g2, 3) ∧
      g2.nodes.map (fun p => (p.1, p.2.pR, p.2.qR, p.2.pS, p.2.qS,
        p.2.pT, p.2.qT))
        = C8g.nodes.map (fun p => (p.1, p.2.pR, p.2.qR, p.2.pS, p.2.qS,
          p.2.pT, p.2.qT)) ∧
      g2.edges.map (fun e => (e.a, e.b, e.pRL, e.qRL, e.pSL, e.qSL,
        e.pTL, e.qTL))
        = C8g.edges.map (fun e => (e.a, e.b, e.pRL, e.qRL, e.pSL,
          e.qSL, e.pTL, e.qTL)) :=
  C8_load_propagation_idempotent (fun _ s t => some [s, t]) (fun q => q)
    (fun _ _ => 0) 400 230 0 "CT" [] [] [] [] C8g C8g C8g 3 3
    (fun g g' s t h1 h2 => rfl) (by simp) (by decide) (by decide)
